import Mathlib

/-!
K-means clustering (`kmeans-parallel.cpp`): a shallow embedding.

The globals `data`, `means`, `cluster_number` and `cluster_item` become the
fields of `State`; every function of the source that reads or writes them
takes and returns that state explicitly.

Modelling conventions.

* A `double` is a rational number and `+ - * /` are exact: rounding, overflow
  to infinity and NaN are outside the model.  The one place where the source
  can produce a non-finite value from finite ones, the division `row[j] /= n`,
  is a checked division that reports `Fault.divisionByZero` when `n = 0`.
* `sqrt` of a rational is kept as its radicand (`Root`).  The source only ever
  compares such a value with an `int` and truncates it to an `int`; both are
  computed exactly from the radicand (`Root.ltInt`, `Root.toInt`) and proved
  equal to the comparison and the floor over the reals.
* A subscript past the end of a vector, and a read of the local `index`
  before any store to it, are undefined behaviour in C++: the model returns
  `Except.error` there.  `index` is `private` to each OpenMP thread, so its
  content when a point's scan starts is not determined by the program; the
  scan therefore starts from "no value" for every point.
* The `#pragma omp parallel for` loop is modelled in its sequential order.
-/

namespace KMeans

/-- A feature vector, the `vector<double>` of the source. -/
abbrev Point := List ℚ

/-- The ways an execution of the source leaves defined behaviour. -/
inductive Fault
  | outOfBounds
  | uninitialised
  | divisionByZero
  deriving DecidableEq, Repr

/-- Equality of two outcomes can be decided, so that an outcome can be
compared with an expected one by evaluation. -/
instance decEqExcept {ε α : Type} [DecidableEq ε] [DecidableEq α] :
    DecidableEq (Except ε α)
  | .ok a, .ok b =>
    if h : a = b then isTrue (by rw [h]) else isFalse (fun h1 => h (Except.ok.inj h1))
  | .error a, .error b =>
    if h : a = b then isTrue (by rw [h]) else isFalse (fun h1 => h (Except.error.inj h1))
  | .ok _, .error _ => isFalse (fun h => Except.noConfusion h)
  | .error _, .ok _ => isFalse (fun h => Except.noConfusion h)

/-- The constant `INT_MAX` of `<limits.h>` for a 32-bit `int`. -/
def INT_MAX : Int := 2147483647

/-- The iteration cap, `#define MAX 10000` (line 11). -/
def MAX : Nat := 10000

/-- The real number `sqrt radicand`, represented by its radicand. -/
structure Root where
  radicand : ℚ
  deriving DecidableEq, Repr

/-- The comparison `minimum > distance` of line 153, `minimum` an `int` and
`distance` the double `sqrt radicand`. -/
def Root.ltInt (distance : Root) (minimum : Int) : Bool :=
  decide (0 < minimum ∧ distance.radicand < (minimum : ℚ) ^ 2)

/-- The conversion `minimum = distance` of line 155: a double to `int`
conversion truncates; for the non-negative `sqrt radicand` that is
the floor. -/
def Root.toInt (distance : Root) : Int :=
  Int.ofNat (Nat.sqrt (Int.toNat ⌊distance.radicand⌋))

/-- Lines 35-38 of `Euclidean_Distance`: the loop over `i < point1.size()`
adding `pow(point1[i]-point2[i],2)` to `distance`.  `point2[i]` past the end
of `point2` is a fault; coordinates of `point2` beyond `point1.size()` are
never read. -/
def sumSquares : Point → Point → ℚ → Except Fault ℚ
  | [], _, distance => .ok distance
  | _ :: _, [], _ => .error .outOfBounds
  | x :: xs, y :: ys, distance => sumSquares xs ys (distance + (x - y) ^ 2)

/-- The function `Euclidean_Distance` (lines 30-40): `sqrt` of the accumulated
sum. -/
def Euclidean_Distance (point1 point2 : Point) : Except Fault Root :=
  match sumSquares point1 point2 0 with
  | .ok distance => .ok ⟨distance⟩
  | .error e => .error e

/-- Lines 149-158: the scan `for (j = 0; j < means.size(); j++)` for one
point.  The loop state is `(minimum, index)`; `j` is the index of the head of
the centroids still to visit. -/
def scanMeans (point : Point) : List Point → Nat → Int × Option Nat →
    Except Fault (Int × Option Nat)
  | [], _, s => .ok s
  | mean :: rest, j, (minimum, index) =>
    match Euclidean_Distance point mean with
    | .error e => .error e
    | .ok distance =>
      if distance.ltInt minimum then
        scanMeans point rest (j + 1) (distance.toInt, some j)
      else
        scanMeans point rest (j + 1) (minimum, index)

/-- Lines 147-158 for one point: `minimum = INT_MAX`, then the scan; the
result is the content of `index` when the scan ends (`none`: never stored). -/
def nearestIndex (point : Point) (means : List Point) : Except Fault (Option Nat) :=
  match scanMeans point means 0 (INT_MAX, none) with
  | .ok (_, index) => .ok index
  | .error e => .error e

/-- Lines 145-166: the loop over the points.  `i` is the index of the head of
the points still to visit; the loop state is `(noChange, cluster_number)`. -/
def assignLoop (means : List Point) : List Point → Nat → Bool × List Int →
    Except Fault (Bool × List Int)
  | [], _, s => .ok s
  | point :: rest, i, (noChange, cluster_number) =>
    match nearestIndex point means with
    | .error e => .error e
    | .ok none => .error .uninitialised
    | .ok (some index) =>
      match cluster_number[i]? with
      | none => .error .outOfBounds
      | some old =>
        assignLoop means rest (i + 1)
          (if (index : Int) ≠ old then false else noChange,
           cluster_number.set i (index : Int))

/-- The type `map<int, vector<int>>`: entries kept in increasing key order. -/
abbrev ClusterMap := List (Int × List Nat)

/-- The statement `cluster_item[key].push_back(i)`: `operator[]` inserts an
empty vector at `key` when the map has no such entry. -/
def ClusterMap.pushBack (key : Int) (i : Nat) : ClusterMap → ClusterMap
  | [] => [(key, [i])]
  | (k, v) :: rest =>
    if key < k then (key, [i]) :: (k, v) :: rest
    else if key = k then (k, v ++ [i]) :: rest
    else (k, v) :: ClusterMap.pushBack key i rest

/-- The statement `cluster_item[key].clear()`: inserts an empty entry at
`key` when there is none, empties the vector otherwise. -/
def ClusterMap.clear (key : Int) : ClusterMap → ClusterMap
  | [] => [(key, [])]
  | (k, v) :: rest =>
    if key < k then (key, []) :: (k, v) :: rest
    else if key = k then (k, []) :: rest
    else (k, v) :: ClusterMap.clear key rest

/-- The globals of lines 23-26. -/
structure State where
  data : List Point
  means : List Point
  cluster_number : List Int
  cluster_item : ClusterMap
  deriving DecidableEq, Repr

/-- The globals as `main` hands them to `K_Means_Parallel`:
`cluster_number(10000,-1)` and an empty `cluster_item`. -/
def initialState (data means : List Point) : State :=
  { data := data, means := means,
    cluster_number := List.replicate 10000 (-1), cluster_item := [] }

/-- Lines 60-63: `row[j] += feature_vector[j]` for `j < feature_vector.size()`;
a `j` past the end of `row` is a fault. -/
def addInto : Point → Point → Except Fault Point
  | row, [] => .ok row
  | [], _ :: _ => .error .outOfBounds
  | r :: row, x :: feature_vector =>
    match addInto row feature_vector with
    | .ok row1 => .ok ((r + x) :: row1)
    | .error e => .error e

/-- Lines 56-64: the loop over `indices`; the loop state is
`(feature_vector, row)`. -/
def sumLoop (data : List Point) : List Nat → Point × Point → Except Fault (Point × Point)
  | [], s => .ok s
  | idx :: rest, (_, row) =>
    match data[idx]? with
    | none => .error .outOfBounds
    | some feature_vector =>
      match addInto row feature_vector with
      | .error e => .error e
      | .ok row1 => sumLoop data rest (feature_vector, row1)

/-- Lines 67-70: `row[j] /= n` for `j < feature_vector.size()`.  Dividing by
`n = 0` is reported as a fault. -/
def divideInto (n : Nat) : Point → Point → Except Fault Point
  | row, [] => .ok row
  | [], _ :: _ => .error .outOfBounds
  | r :: row, _ :: feature_vector =>
    if n = 0 then .error .divisionByZero
    else
      match divideInto n row feature_vector with
      | .ok row1 => .ok ((r / (n : ℚ)) :: row1)
      | .error e => .error e

/-- The function `Calculate_Mean` (lines 49-73), reading the global `data`. -/
def Calculate_Mean (data : List Point) (indices : List Nat) : Except Fault Point :=
  match sumLoop data indices ([], List.replicate 4 0) with
  | .error e => .error e
  | .ok (feature_vector, row) => divideInto indices.length row feature_vector

/-- Lines 91-94 of `Find_New_Mean`: `cluster_item[cluster_number[i]].push_back(i)`
for `i < cluster_number.size()`.  `i` is the index of the head of the entries
still to visit. -/
def groupLoop : List Int → Nat → ClusterMap → ClusterMap
  | [], _, cluster_item => cluster_item
  | c :: rest, i, cluster_item => groupLoop rest (i + 1) (ClusterMap.pushBack c i cluster_item)

/-- Lines 96-100 of `Find_New_Mean`: for every entry of the map in key order,
`means[key] = Calculate_Mean(members)`. -/
def meanLoop (data : List Point) : ClusterMap → List Point → Except Fault (List Point)
  | [], means => .ok means
  | (key, members) :: rest, means =>
    match Calculate_Mean data members with
    | .error e => .error e
    | .ok row =>
      if 0 ≤ key ∧ key.toNat < means.length then
        meanLoop data rest (means.set key.toNat row)
      else .error .outOfBounds

/-- The function `Find_New_Mean` (lines 81-101). -/
def Find_New_Mean (s : State) : Except Fault State :=
  let cluster_item := groupLoop s.cluster_number 0 s.cluster_item
  match meanLoop s.data cluster_item s.means with
  | .error e => .error e
  | .ok means => .ok { s with means := means, cluster_item := cluster_item }

/-- Lines 178-181: `cluster_item[m].clear()` for `m < means.size()`; `m`
counts up from the given start. -/
def clearLoop : Nat → Nat → ClusterMap → ClusterMap
  | 0, _, cluster_item => cluster_item
  | n + 1, m, cluster_item => clearLoop n (m + 1) (ClusterMap.clear (m : Int) cluster_item)

/-- Lines 120-166: one assignment pass over the state; the result is the
flag `noChange` and the state with `cluster_number` rewritten. -/
def assignmentPass (s : State) : Except Fault (Bool × State) :=
  match assignLoop s.means s.data 0 (true, s.cluster_number) with
  | .error e => .error e
  | .ok (noChange, cluster_number) => .ok (noChange, { s with cluster_number := cluster_number })

/-- Lines 120-181: the body of the loop for one value of `iter`.  The result
is `(true, s1)` when the `break` of line 171 is taken, `s1` being the state
after the assignment pass, and `(false, s2)` when the body runs to its end,
`s2` being the state after `Find_New_Mean` and the clearing loop. -/
def loopBody (s : State) : Except Fault (Bool × State) :=
  match assignmentPass s with
  | .error e => .error e
  | .ok (noChange, s1) =>
    if noChange then .ok (true, s1)
    else
      match Find_New_Mean s1 with
      | .error e => .error e
      | .ok s2 =>
        .ok (false, { s2 with cluster_item := clearLoop s2.means.length 0 s2.cluster_item })

/-- How the loop of `K_Means_Parallel` is left: by the `break` of line 171,
by `iter` passing `MAX`, or by undefined behaviour. -/
inductive Exit
  | Converged (final : State)
  | MaxIterationsReached (final : State)
  | Undefined (fault : Fault)
  deriving DecidableEq, Repr

/-- The outcome of a run together with the number of assignment passes that
were started. -/
structure Run where
  passes : Nat
  exit : Exit
  deriving DecidableEq, Repr

/-- Lines 118-183: the loop `for (iter = 1; iter <= MAX; iter++)` with
`remaining` iterations still allowed and `passes` already made. -/
def iterate : Nat → Nat → State → Run
  | 0, passes, s => ⟨passes, .MaxIterationsReached s⟩
  | remaining + 1, passes, s =>
    match loopBody s with
    | .error e => ⟨passes + 1, .Undefined e⟩
    | .ok (true, s1) => ⟨passes + 1, .Converged s1⟩
    | .ok (false, s2) => iterate remaining (passes + 1) s2

/-- The function `K_Means_Parallel` (lines 104-184). -/
def K_Means_Parallel (s : State) : Run :=
  iterate MAX 0 s

/-- The state in which iteration `k + 1` of the loop starts, when each of the
first `k` iterations ran its body to the end (its pass changed an assignment
and the mean update raised no fault). -/
def stateAt : Nat → State → Option State
  | 0, s => some s
  | k + 1, s =>
    match loopBody s with
    | .ok (false, s2) => stateAt k s2
    | _ => none

/-- A dataset of 10000 records: record 100 is `(3/2,0,0,0)`, record 200 is
`(1,0,0,0)` and every other record is the origin.  With `K = 2` the seeding
of `main` (`data[100]`, `data[200]`) takes the two records as centroids. -/
def truncationData : List Point :=
  List.replicate 100 [0, 0, 0, 0] ++ [[3 / 2, 0, 0, 0]] ++ List.replicate 99 [0, 0, 0, 0] ++
    [[1, 0, 0, 0]] ++ List.replicate 9799 [0, 0, 0, 0]

/-- A dataset of 10000 records: record 100 is the origin and every other
record is `(3000000000,0,0,0)`.  With `K = 1` the seeding of `main`
(`data[100]`) takes the origin as the centroid. -/
def farData : List Point :=
  List.replicate 100 [3000000000, 0, 0, 0] ++ [[0, 0, 0, 0]] ++
    List.replicate 9899 [3000000000, 0, 0, 0]

/-- The number of point indices held by the member lists of a map. -/
def ClusterMap.total (cluster_item : ClusterMap) : Nat :=
  (cluster_item.map (fun entry => entry.2.length)).sum

/-- Every point index held by the member lists of a map, list after list. -/
def ClusterMap.members : ClusterMap → List Nat
  | [] => []
  | (_, v) :: rest => v ++ ClusterMap.members rest

/-- The keys of a `std::map` are pairwise distinct and met in increasing
order. -/
def ClusterMap.Ordered (cluster_item : ClusterMap) : Prop :=
  (cluster_item.map Prod.fst).Pairwise (fun a b => a < b)

/-- Coordinate `j` of the data point with index `idx` (0 where there is no
such coordinate). -/
def coordinate (data : List Point) (idx j : Nat) : ℚ :=
  ((data[idx]?).bind (fun point => point[j]?)).getD 0

/-- The coordinate-wise arithmetic mean of the 4-feature points listed in
`indices`, in the words of the specification: for each coordinate the sum
over the listed points divided by the number of listed indices. -/
def arithmeticMean (data : List Point) (indices : List Nat) : Point :=
  (List.range 4).map
    (fun j => (indices.map (fun idx => coordinate data idx j)).sum / (indices.length : ℚ))

/-- The sum over the coordinates of `point1` of the squared difference to the
coordinate of `point2` at the same position: the squared Euclidean distance
of the specification when both points have the same dimension. -/
def squaredDistance (point1 point2 : Point) : ℚ :=
  (List.zipWith (fun a b => (a - b) ^ 2) point1 point2).sum

/-- The first `n` records of the line `(0,0,0,0), (1/2,0,0,0), (1,0,0,0), ...`:
record `i` is `(i/2,0,0,0)`. -/
def linePoints (n : Nat) : List Point :=
  (List.range n).map (fun (i : Nat) => [(i : ℚ) / 2, 0, 0, 0])

/-- A dataset of 10000 pairwise distinct records, those of `linePoints`.  Used
with `K = N`, every record being its own centroid. -/
def lineData : List Point :=
  linePoints 10000

/-- Lines 256-260 of `main`: `means.push_back(data[i*100])` for `i` from the
given start, `remaining` times. -/
def seedLoop (data : List Point) : Nat → Nat → List Point → Except Fault (List Point)
  | 0, _, means => .ok means
  | remaining + 1, i, means =>
    match data[i * 100]? with
    | none => .error .outOfBounds
    | some point => seedLoop data remaining (i + 1) (means ++ [point])

/-- The seeding step of `main` (lines 252-260) for the cluster count `K` read
from the input: the loop `for (i = 1; i <= K; i++)` on the empty `means`. -/
def seedMeans (data : List Point) (K : Int) : Except Fault (List Point) :=
  seedLoop data K.toNat 1 []

/-- The ways a call of `Tokenize` fails: a read of `line[i]` past the end of
the string, or an exception thrown by `stod`. -/
inductive TokenFault
  | outOfBounds
  | invalidArgument
  deriving DecidableEq, Repr

/-- Lines 195-205 of `Tokenize`: the characters of `line` still to read, the
content of `temp` and of `row`.  `stod` is the library function, `none` where
it throws.  When the characters run out inside the `while` loop, `line[i]`
is read at `line.size()` and then beyond it. -/
def tokenLoop (stod : List Char → Option ℚ) :
    List Char → List Char → List ℚ → Except TokenFault (List ℚ)
  | [], [], row => .ok row
  | [], _ :: _, _ => .error .outOfBounds
  | c :: rest, temp, row =>
    if c = ',' then
      match stod temp with
      | none => .error .invalidArgument
      | some value => tokenLoop stod rest [] (row ++ [value])
    else tokenLoop stod rest (temp ++ [c]) row

/-- The function `Tokenize` (lines 189-207). -/
def Tokenize (stod : List Char → Option ℚ) (line : List Char) : Except TokenFault (List ℚ) :=
  tokenLoop stod line [] []

/-- The position `line.find_first_of(',')`, `none` for `npos`. -/
def firstComma : List Char → Option Nat
  | [] => none
  | c :: rest => if c = ',' then some 0 else (firstComma rest).map (fun i => i + 1)

/-- The position `line.find_last_of(',')`, `none` for `npos`. -/
def lastComma : List Char → Option Nat
  | [] => none
  | c :: rest =>
    match lastComma rest with
    | some i => some (i + 1)
    | none => if c = ',' then some 0 else none

/-- Lines 227-229 of `parseCSV2double`: the `int` variables `first_comma` and
`last_comma` (`npos` read as -1) and
`line.substr(first_comma+1, last_comma-first_comma)`. -/
def recordFields (line : List Char) : List Char :=
  let first_comma : Int := match firstComma line with
    | some i => (i : Int)
    | none => -1
  let last_comma : Int := match lastComma line with
    | some i => (i : Int)
    | none => -1
  (line.drop (first_comma + 1).toNat).take (last_comma - first_comma).toNat

/-- Lines 222-236 of `parseCSV2double` on the lines after the header. -/
def parseRecords (stod : List Char → Option ℚ) :
    List (List Char) → Except TokenFault (List (List ℚ))
  | [] => .ok []
  | line :: rest =>
    match Tokenize stod (recordFields line) with
    | .error e => .error e
    | .ok row =>
      match parseRecords stod rest with
      | .error e => .error e
      | .ok res => .ok (row :: res)

/-- The function `parseCSV2double` (lines 214-238) on the lines `getline`
yields: the first line is skipped, every other line is cut and tokenized. -/
def parseCSV2double (stod : List Char → Option ℚ) (lines : List (List Char)) :
    Except TokenFault (List (List ℚ)) :=
  parseRecords stod lines.tail

/-- The value of a run of decimal digits read after the value `acc`. -/
def digitsValue : List Char → Nat → Option Nat
  | [], acc => some acc
  | c :: rest, acc =>
    if c.isDigit then digitsValue rest (acc * 10 + (c.toNat - 48)) else none

/-- The value `stod` returns for a plain decimal numeral, digits with at most
one point among them, and `none` for any other text: a stand-in for the
library function where a concrete record is evaluated. -/
def decimalValue (text : List Char) : Option ℚ :=
  let whole := text.takeWhile (fun c => c ≠ '.')
  let fraction := (text.dropWhile (fun c => c ≠ '.')).drop 1
  if whole = [] ∧ fraction = [] then none
  else
    match digitsValue whole 0, digitsValue fraction 0 with
    | some w, some f => some ((w : ℚ) + (f : ℚ) / 10 ^ fraction.length)
    | _, _ => none

/-- Points on a line: `n1` records at the origin, the records `(3/2,0,0,0)`
and `(7/2,0,0,0)`, then `n2` records at the origin. -/
def lloydPoints (n1 n2 : Nat) : List Point :=
  List.replicate n1 [0, 0, 0, 0] ++ [[3 / 2, 0, 0, 0], [7 / 2, 0, 0, 0]] ++
    List.replicate n2 [0, 0, 0, 0]

/-- A dataset of 10000 records: record 200 is `(3/2,0,0,0)`, record 201 is
`(7/2,0,0,0)` and every other record is the origin.  With `K = 2` the seeding
of `main` (`data[100]`, `data[200]`) takes the origin and record 200 as
centroids. -/
def lloydData : List Point :=
  lloydPoints 200 9798

/-- An assignment of the records of `lloydPoints`: cluster 0 for the records
at the origin, `a` and `b` for the two others. -/
def lloydAssignment (n1 n2 : Nat) (a b : Int) : List Int :=
  List.replicate n1 0 ++ [a, b] ++ List.replicate n2 0

/-- The squared Euclidean distance from `point` to the centroid of the
cluster `c` it is assigned to (0 where `c` is the index of no centroid). -/
def assignedSquare (means : List Point) (point : Point) (c : Int) : ℚ :=
  if 0 ≤ c then
    match means[c.toNat]? with
    | some mean => squaredDistance point mean
    | none => 0
  else 0

/-- The sum over all points of the squared Euclidean distance to the point's
assigned centroid, in the words of the specification. -/
def withinClusterSum (data means : List Point) (cluster_number : List Int) : ℚ :=
  ((data.zip cluster_number).map (fun pc => assignedSquare means pc.1 pc.2)).sum

/-! ## Square roots: the executable comparison and truncation are the real ones -/

theorem sumSquares_nonneg (p : Point) : ∀ (q : Point) (acc d : ℚ),
    sumSquares p q acc = .ok d → 0 ≤ acc → 0 ≤ d := by
  induction p with
  | nil =>
    intro q acc d h hacc
    simp only [sumSquares, Except.ok.injEq] at h
    exact h ▸ hacc
  | cons x xs ih =>
    intro q acc d h hacc
    cases q with
    | nil => simp [sumSquares] at h
    | cons y ys =>
      simp only [sumSquares] at h
      exact ih ys _ d h (by positivity)

theorem Euclidean_Distance_nonneg (p q : Point) (d : Root)
    (h : Euclidean_Distance p q = .ok d) : 0 ≤ d.radicand := by
  unfold Euclidean_Distance at h
  split at h
  · next r hr =>
    simp only [Except.ok.injEq] at h
    subst h
    exact sumSquares_nonneg p q 0 r hr le_rfl
  · simp at h

theorem Root.ltInt_iff (d : Root) (h : 0 ≤ d.radicand) (m : Int) :
    d.ltInt m = true ↔ Real.sqrt (d.radicand : ℝ) < (m : ℝ) := by
  have hr : (0 : ℝ) ≤ (d.radicand : ℝ) := by exact_mod_cast h
  simp only [Root.ltInt, decide_eq_true_eq]
  constructor
  · rintro ⟨hm, hlt⟩
    have hm' : (0 : ℝ) < (m : ℝ) := by exact_mod_cast hm
    rw [Real.sqrt_lt' hm']
    exact_mod_cast hlt
  · intro hlt
    have hm' : (0 : ℝ) < (m : ℝ) := lt_of_le_of_lt (Real.sqrt_nonneg _) hlt
    refine ⟨by exact_mod_cast hm', ?_⟩
    rw [Real.sqrt_lt' hm'] at hlt
    exact_mod_cast hlt

theorem Root.toInt_eq_floor (d : Root) (h : 0 ≤ d.radicand) :
    d.toInt = ⌊Real.sqrt (d.radicand : ℝ)⌋ := by
  have hr : (0 : ℝ) ≤ (d.radicand : ℝ) := by exact_mod_cast h
  have hfl : 0 ≤ ⌊d.radicand⌋ := Int.floor_nonneg.mpr h
  set n : ℕ := Int.toNat ⌊d.radicand⌋ with hn
  have hnz : (n : ℤ) = ⌊d.radicand⌋ := Int.toNat_of_nonneg hfl
  symm
  rw [Root.toInt, Int.floor_eq_iff]
  have hle : ((n : ℚ)) ≤ d.radicand := by
    have := Int.floor_le d.radicand
    rw [← hnz] at this
    exact_mod_cast this
  have hlt : d.radicand < (n : ℚ) + 1 := by
    have := Int.lt_floor_add_one d.radicand
    rw [← hnz] at this
    exact_mod_cast this
  have hleR : ((n : ℝ)) ≤ (d.radicand : ℝ) := by exact_mod_cast hle
  have hltR : (d.radicand : ℝ) < (n : ℝ) + 1 := by exact_mod_cast hlt
  have h1 : Nat.sqrt n * Nat.sqrt n ≤ n := Nat.sqrt_le n
  have h2 : n < (Nat.sqrt n + 1) * (Nat.sqrt n + 1) := Nat.lt_succ_sqrt n
  have h1R : ((Nat.sqrt n : ℝ)) * (Nat.sqrt n : ℝ) ≤ (n : ℝ) := by exact_mod_cast h1
  have h2R : (n : ℝ) + 1 ≤ ((Nat.sqrt n : ℝ) + 1) * ((Nat.sqrt n : ℝ) + 1) := by
    exact_mod_cast h2
  constructor
  · apply Real.le_sqrt_of_sq_le
    simp only [Int.ofNat_eq_coe, Int.cast_natCast]
    nlinarith
  · have hpos : (0 : ℝ) < ((Nat.sqrt n : ℤ) : ℝ) + 1 := by
      have : (0 : ℝ) ≤ ((Nat.sqrt n : ℤ) : ℝ) := by simp
      linarith
    simp only [Int.ofNat_eq_coe] at hpos ⊢
    rw [Real.sqrt_lt' hpos]
    simp only [Int.cast_natCast]
    nlinarith

theorem Root.ltInt_toInt (d : Root) (h : 0 ≤ d.radicand) : d.ltInt d.toInt = false := by
  rw [Bool.eq_false_iff]
  intro hlt
  rw [Root.ltInt_iff d h, Root.toInt_eq_floor d h] at hlt
  exact absurd (Int.floor_le _) (not_le.mpr hlt)

theorem Root.toInt_lt (d : Root) (h : 0 ≤ d.radicand) (m : Int) (hlt : d.ltInt m = true) :
    d.toInt < m := by
  rw [Root.ltInt_iff d h] at hlt
  rw [Root.toInt_eq_floor d h, Int.floor_lt]
  exact hlt

theorem Root.ltInt_mono (d : Root) (m m' : Int) (hle : m' ≤ m) (hlt : d.ltInt m' = true) :
    d.ltInt m = true := by
  simp only [Root.ltInt, decide_eq_true_eq] at hlt ⊢
  obtain ⟨hpos, hsq⟩ := hlt
  have h1 : (0 : ℚ) < (m' : ℚ) := by exact_mod_cast hpos
  have h2 : (m' : ℚ) ≤ (m : ℚ) := by exact_mod_cast hle
  refine ⟨lt_of_lt_of_le hpos hle, lt_of_lt_of_le hsq ?_⟩
  nlinarith

/-! ## The scan over the centroids -/

theorem scanMeans_cons (point mean : Point) (rest : List Point) (j : Nat) (minimum : Int)
    (index : Option Nat) (distance : Root) (h : Euclidean_Distance point mean = .ok distance) :
    scanMeans point (mean :: rest) j (minimum, index) =
      if distance.ltInt minimum then scanMeans point rest (j + 1) (distance.toInt, some j)
      else scanMeans point rest (j + 1) (minimum, index) := by
  simp only [scanMeans, h]

theorem scanMeans_cons_ok (point mean : Point) (rest : List Point) (j : Nat) (minimum : Int)
    (index : Option Nat) (r : Int × Option Nat)
    (h : scanMeans point (mean :: rest) j (minimum, index) = .ok r) :
    ∃ distance, Euclidean_Distance point mean = .ok distance := by
  cases hd : Euclidean_Distance point mean with
  | ok distance => exact ⟨distance, rfl⟩
  | error e => simp [scanMeans, hd] at h

/-- The index left by a scan is the one it started with or the position of
a centroid it visited. -/
theorem scanMeans_index_range (point : Point) : ∀ (means : List Point) (j : Nat)
    (minimum : Int) (index : Option Nat) (r : Int × Option Nat),
    scanMeans point means j (minimum, index) = .ok r →
    r.2 = index ∨ ∃ k, r.2 = some k ∧ j ≤ k ∧ k < j + means.length := by
  intro means
  induction means with
  | nil =>
    intro j minimum index r h
    simp only [scanMeans, Except.ok.injEq] at h
    left; rw [← h]
  | cons mean rest ih =>
    intro j minimum index r h
    obtain ⟨distance, hd⟩ := scanMeans_cons_ok point mean rest j minimum index r h
    rw [scanMeans_cons point mean rest j minimum index distance hd] at h
    split at h
    · rcases ih _ _ _ r h with h1 | ⟨k, hk, hjk, hkl⟩
      · right
        exact ⟨j, h1, le_rfl, by simp⟩
      · right
        exact ⟨k, hk, by omega, by simp only [List.length_cons]; omega⟩
    · rcases ih _ _ _ r h with h1 | ⟨k, hk, hjk, hkl⟩
      · left; exact h1
      · right
        exact ⟨k, hk, by omega, by simp only [List.length_cons]; omega⟩

theorem nearestIndex_ok (point : Point) (means : List Point) (index : Option Nat)
    (h : nearestIndex point means = .ok index) :
    ∃ minimum, scanMeans point means 0 (INT_MAX, none) = .ok (minimum, index) := by
  unfold nearestIndex at h
  split at h
  · next m idx hs =>
    simp only [Except.ok.injEq] at h
    exact ⟨m, by rw [hs, h]⟩
  · simp at h

/-- An index stored by the scan of one point is the position of a centroid. -/
theorem nearestIndex_lt (point : Point) (means : List Point) (k : Nat)
    (h : nearestIndex point means = .ok (some k)) : k < means.length := by
  obtain ⟨m, hs⟩ := nearestIndex_ok point means _ h
  rcases scanMeans_index_range point means 0 INT_MAX none _ hs with h1 | ⟨k', hk, _, hlt⟩
  · simp at h1
  · simp only [Option.some.injEq] at hk
    subst hk
    simpa using hlt

/-- Once `minimum` is not above the distance `d`, a scan stores the position
`j2` of a centroid at distance `d` neither at `j2` nor anywhere else. -/
theorem scanMeans_blocked (point : Point) (d : Root) (j2 : Nat) :
    ∀ (means : List Point) (j : Nat) (minimum : Int) (index : Option Nat)
      (r : Int × Option Nat),
    d.ltInt minimum = false → index ≠ some j2 →
    (∀ mean, j ≤ j2 → means[j2 - j]? = some mean → Euclidean_Distance point mean = .ok d) →
    scanMeans point means j (minimum, index) = .ok r → r.2 ≠ some j2 := by
  intro means
  induction means with
  | nil =>
    intro j minimum index r _ hidx _ h
    simp only [scanMeans, Except.ok.injEq] at h
    rw [← h]; exact hidx
  | cons mean rest ih =>
    intro j minimum index r hinv hidx hd2 h
    obtain ⟨distance, hd⟩ := scanMeans_cons_ok point mean rest j minimum index r h
    rw [scanMeans_cons point mean rest j minimum index distance hd] at h
    have hrest : ∀ m, j + 1 ≤ j2 → rest[j2 - (j + 1)]? = some m →
        Euclidean_Distance point m = .ok d := by
      intro m hj hm
      apply hd2 m (by omega)
      have : j2 - j = (j2 - (j + 1)) + 1 := by omega
      rw [this, List.getElem?_cons_succ]
      exact hm
    split at h
    · next hlt =>
      have hne : j ≠ j2 := by
        intro hj
        subst hj
        have := hd2 mean le_rfl (by simp)
        rw [hd] at this
        simp only [Except.ok.injEq] at this
        subst this
        rw [hinv] at hlt
        exact Bool.false_ne_true hlt
      refine ih (j + 1) _ _ r ?_ ?_ hrest h
      · rw [Bool.eq_false_iff]
        intro hcon
        have hlt' := Root.toInt_lt distance (Euclidean_Distance_nonneg _ _ _ hd) minimum hlt
        have := Root.ltInt_mono d minimum distance.toInt (le_of_lt hlt') hcon
        rw [hinv] at this
        exact Bool.false_ne_true this
      · simpa using hne
    · exact ih (j + 1) _ _ r hinv hidx hrest h

/-- Two coincident centroids at positions `j1 < j2`: a scan that starts at or
before `j1` does not end with `j2` in `index`. -/
theorem scanMeans_coincident (point c : Point) (j1 j2 : Nat) (h12 : j1 < j2) :
    ∀ (means : List Point) (j : Nat) (minimum : Int) (index : Option Nat)
      (r : Int × Option Nat),
    j ≤ j1 → index ≠ some j2 →
    means[j1 - j]? = some c → means[j2 - j]? = some c →
    scanMeans point means j (minimum, index) = .ok r → r.2 ≠ some j2 := by
  intro means
  induction means with
  | nil =>
    intro j minimum index r _ _ h1 _ _
    simp at h1
  | cons mean rest ih =>
    intro j minimum index r hj hidx h1 h2 h
    obtain ⟨distance, hd⟩ := scanMeans_cons_ok point mean rest j minimum index r h
    rw [scanMeans_cons point mean rest j minimum index distance hd] at h
    have hnn := Euclidean_Distance_nonneg _ _ _ hd
    have e2 : j2 - j = (j2 - (j + 1)) + 1 := by omega
    rw [e2, List.getElem?_cons_succ] at h2
    rcases Nat.eq_or_lt_of_le hj with hj1 | hj1
    · subst hj1
      simp only [Nat.sub_self, List.getElem?_cons_zero, Option.some.injEq] at h1
      subst h1
      have hrest : ∀ m, j + 1 ≤ j2 → rest[j2 - (j + 1)]? = some m →
          Euclidean_Distance point m = .ok distance := by
        intro m _ hm
        rw [h2] at hm
        simp only [Option.some.injEq] at hm
        rw [← hm]; exact hd
      split at h
      · exact scanMeans_blocked point distance j2 rest (j + 1) _ _ r
          (Root.ltInt_toInt distance hnn) (by simp; omega) hrest h
      · next hlt =>
        exact scanMeans_blocked point distance j2 rest (j + 1) _ _ r
          (by simpa using hlt) hidx hrest h
    · have e1 : j1 - j = (j1 - (j + 1)) + 1 := by omega
      rw [e1, List.getElem?_cons_succ] at h1
      split at h
      · exact ih (j + 1) _ _ r (by omega) (by simp; omega) h1 h2 h
      · exact ih (j + 1) _ _ r (by omega) hidx h1 h2 h

/-! ## The assignment pass -/

theorem set_same {α : Type} (l : List α) (i : Nat) (a : α) (h : l[i]? = some a) :
    l.set i a = l := by
  apply List.ext_getElem?
  intro k
  by_cases hk : i = k
  · subst hk
    have hlt : i < l.length := by
      rcases Nat.lt_or_ge i l.length with hl | hl
      · exact hl
      · rw [List.getElem?_eq_none hl] at h
        simp at h
    rw [List.getElem?_set_self hlt, h]
  · rw [List.getElem?_set_ne hk]

theorem assignLoop_cons_ok (means : List Point) (point : Point) (rest : List Point) (i : Nat)
    (noChange : Bool) (cn : List Int) (r : Bool × List Int)
    (h : assignLoop means (point :: rest) i (noChange, cn) = .ok r) :
    ∃ (index : Nat) (old : Int), nearestIndex point means = .ok (some index) ∧
      cn[i]? = some old ∧
      assignLoop means rest (i + 1)
        (if (index : Int) ≠ old then false else noChange, cn.set i (index : Int)) = .ok r := by
  unfold assignLoop at h
  split at h
  · simp at h
  · simp at h
  · next index hn =>
    split at h
    · simp at h
    · next old ho => exact ⟨index, old, hn, ho, h⟩

theorem assignLoop_length (means : List Point) : ∀ (data : List Point) (i : Nat)
    (noChange : Bool) (cn : List Int) (r : Bool × List Int),
    assignLoop means data i (noChange, cn) = .ok r → r.2.length = cn.length := by
  intro data
  induction data with
  | nil =>
    intro i noChange cn r h
    simp only [assignLoop, Except.ok.injEq] at h
    rw [← h]
  | cons point rest ih =>
    intro i noChange cn r h
    obtain ⟨index, old, _, _, hrest⟩ := assignLoop_cons_ok means point rest i noChange cn r h
    rw [ih _ _ _ r hrest, List.length_set]

/-- Entries of `cluster_number` outside the range of the visited points are
left as they were. -/
theorem assignLoop_frame (means : List Point) : ∀ (data : List Point) (i : Nat)
    (noChange : Bool) (cn : List Int) (r : Bool × List Int),
    assignLoop means data i (noChange, cn) = .ok r →
    ∀ k, (k < i ∨ i + data.length ≤ k) → r.2[k]? = cn[k]? := by
  intro data
  induction data with
  | nil =>
    intro i noChange cn r h k _
    simp only [assignLoop, Except.ok.injEq] at h
    rw [← h]
  | cons point rest ih =>
    intro i noChange cn r h k hk
    obtain ⟨index, old, _, _, hrest⟩ := assignLoop_cons_ok means point rest i noChange cn r h
    rw [ih _ _ _ r hrest k (by simp only [List.length_cons] at hk; omega)]
    rw [List.getElem?_set_ne]
    simp only [List.length_cons] at hk
    omega

/-- The entry written for the point at position `k` is the index its own
scan stored. -/
theorem assignLoop_get (means : List Point) : ∀ (data : List Point) (i : Nat)
    (noChange : Bool) (cn : List Int) (r : Bool × List Int),
    assignLoop means data i (noChange, cn) = .ok r →
    ∀ k point, data[k]? = some point →
      ∃ index : Nat, nearestIndex point means = .ok (some index) ∧
        r.2[i + k]? = some (index : Int) := by
  intro data
  induction data with
  | nil =>
    intro i noChange cn r _ k point hk
    simp at hk
  | cons p rest ih =>
    intro i noChange cn r h k point hk
    obtain ⟨index, old, hn, ho, hrest⟩ := assignLoop_cons_ok means p rest i noChange cn r h
    cases k with
    | zero =>
      simp only [List.getElem?_cons_zero, Option.some.injEq] at hk
      subst hk
      refine ⟨index, hn, ?_⟩
      rw [assignLoop_frame means rest (i + 1) _ _ r hrest (i + 0) (by omega)]
      have hlt : i < cn.length := by
        rcases Nat.lt_or_ge i cn.length with hl | hl
        · exact hl
        · rw [List.getElem?_eq_none hl] at ho
          simp at ho
      simp [List.getElem?_set_self hlt]
    | succ k =>
      rw [List.getElem?_cons_succ] at hk
      obtain ⟨idx, h1, h2⟩ := ih (i + 1) _ _ r hrest k point hk
      refine ⟨idx, h1, ?_⟩
      have : i + (k + 1) = i + 1 + k := by omega
      rw [this]; exact h2

theorem assignmentPass_of_loop (s : State) (b : Bool) (cn1 : List Int)
    (hr : assignLoop s.means s.data 0 (true, s.cluster_number) = .ok (b, cn1)) :
    assignmentPass s = .ok (b, { s with cluster_number := cn1 }) := by
  simp only [assignmentPass, hr]

/-- A pass that ends with `noChange` still set started with it set and left
`cluster_number` as it was. -/
theorem assignLoop_noChange (means : List Point) : ∀ (data : List Point) (i : Nat)
    (noChange : Bool) (cn : List Int) (cn1 : List Int),
    assignLoop means data i (noChange, cn) = .ok (true, cn1) →
    noChange = true ∧ cn1 = cn := by
  intro data
  induction data with
  | nil =>
    intro i noChange cn cn1 h
    simp only [assignLoop, Except.ok.injEq, Prod.mk.injEq] at h
    exact ⟨h.1, h.2.symm⟩
  | cons p rest ih =>
    intro i noChange cn cn1 h
    obtain ⟨index, old, _, ho, hrest⟩ := assignLoop_cons_ok means p rest i noChange cn _ h
    obtain ⟨hb, hcn⟩ := ih _ _ _ cn1 hrest
    by_cases hne : (index : Int) = old
    · subst hne
      simp only [ne_eq, not_true_eq_false, if_false] at hb
      refine ⟨hb, ?_⟩
      rw [hcn]
      exact set_same cn i _ ho
    · simp [hne] at hb

/-- The pass raises no fault when every point's scan stores an index and
`cluster_number` has an entry for every point. -/
theorem assignLoop_total (means : List Point) : ∀ (data : List Point) (i : Nat)
    (noChange : Bool) (cn : List Int),
    (∀ point ∈ data, ∃ index : Nat, nearestIndex point means = .ok (some index)) →
    i + data.length ≤ cn.length →
    ∃ r, assignLoop means data i (noChange, cn) = .ok r := by
  intro data
  induction data with
  | nil =>
    intro i noChange cn _ _
    exact ⟨_, rfl⟩
  | cons p rest ih =>
    intro i noChange cn hp hlen
    obtain ⟨index, hn⟩ := hp p (List.mem_cons_self _ _)
    simp only [List.length_cons] at hlen
    have hlt : i < cn.length := by omega
    have ho : cn[i]? = some cn[i] := List.getElem?_eq_getElem hlt
    obtain ⟨r, hr⟩ := ih (i + 1)
      (if (index : Int) ≠ cn[i] then false else noChange) (cn.set i (index : Int))
      (fun q hq => hp q (List.mem_cons_of_mem _ hq))
      (by rw [List.length_set]; omega)
    refine ⟨r, ?_⟩
    rw [assignLoop, hn]
    simp only [ho]
    exact hr

theorem assignmentPass_ok (s : State) (noChange : Bool) (s1 : State)
    (h : assignmentPass s = .ok (noChange, s1)) :
    assignLoop s.means s.data 0 (true, s.cluster_number) = .ok (noChange, s1.cluster_number) ∧
      s1 = { s with cluster_number := s1.cluster_number } := by
  unfold assignmentPass at h
  split at h
  · simp at h
  · next b cn hl =>
    simp only [Except.ok.injEq, Prod.mk.injEq] at h
    obtain ⟨hb, hs⟩ := h
    subst hb
    subst hs
    exact ⟨hl, rfl⟩

/-! ## The mean of a cluster -/

theorem addInto_length : ∀ (row feature_vector row1 : Point),
    addInto row feature_vector = .ok row1 → row1.length = row.length := by
  intro row
  induction row with
  | nil =>
    intro fv row1 h
    cases fv with
    | nil => simp only [addInto, Except.ok.injEq] at h; rw [← h]
    | cons x xs => simp [addInto] at h
  | cons r row ih =>
    intro fv row1 h
    cases fv with
    | nil => simp only [addInto, Except.ok.injEq] at h; rw [← h]
    | cons x xs =>
      simp only [addInto] at h
      split at h
      · next row2 h2 =>
        simp only [Except.ok.injEq] at h
        rw [← h, List.length_cons, List.length_cons, ih xs row2 h2]
      · simp at h

theorem addInto_zipWith : ∀ (row feature_vector : Point),
    feature_vector.length = row.length →
    addInto row feature_vector = .ok (List.zipWith (fun a b => a + b) row feature_vector) := by
  intro row
  induction row with
  | nil =>
    intro fv h
    cases fv with
    | nil => rfl
    | cons x xs => simp at h
  | cons r row ih =>
    intro fv h
    cases fv with
    | nil => simp at h
    | cons x xs =>
      simp only [List.length_cons, Nat.add_right_cancel_iff] at h
      simp only [addInto, ih xs h, List.zipWith_cons_cons]

theorem addInto_total : ∀ (row feature_vector : Point),
    feature_vector.length ≤ row.length → ∃ row1, addInto row feature_vector = .ok row1 := by
  intro row
  induction row with
  | nil =>
    intro fv h
    cases fv with
    | nil => exact ⟨_, rfl⟩
    | cons x xs => simp at h
  | cons r row ih =>
    intro fv h
    cases fv with
    | nil => exact ⟨_, rfl⟩
    | cons x xs =>
      simp only [List.length_cons, Nat.add_le_add_iff_right] at h
      obtain ⟨row1, h1⟩ := ih xs h
      exact ⟨(r + x) :: row1, by simp only [addInto, h1]⟩

theorem sumLoop_cons_ok (data : List Point) (idx : Nat) (rest : List Nat) (fv row : Point)
    (r : Point × Point) (h : sumLoop data (idx :: rest) (fv, row) = .ok r) :
    ∃ point row1, data[idx]? = some point ∧ addInto row point = .ok row1 ∧
      sumLoop data rest (point, row1) = .ok r := by
  unfold sumLoop at h
  split at h
  · simp at h
  · next point hp =>
    split at h
    · simp at h
    · next row1 h1 => exact ⟨point, row1, hp, h1, h⟩

theorem sumLoop_length (data : List Point) : ∀ (indices : List Nat) (fv row : Point)
    (r : Point × Point), sumLoop data indices (fv, row) = .ok r → r.2.length = row.length := by
  intro indices
  induction indices with
  | nil =>
    intro fv row r h
    simp only [sumLoop, Except.ok.injEq] at h
    rw [← h]
  | cons idx rest ih =>
    intro fv row r h
    obtain ⟨point, row1, _, h1, h2⟩ := sumLoop_cons_ok data idx rest fv row r h
    rw [ih _ _ r h2, addInto_length _ _ _ h1]

/-- With no index listed `feature_vector` stays empty; otherwise it ends as
one of the data points. -/
theorem sumLoop_feature_vector (data : List Point) : ∀ (indices : List Nat) (fv row : Point)
    (r : Point × Point), sumLoop data indices (fv, row) = .ok r →
    (indices = [] ∧ r.1 = fv) ∨ (indices ≠ [] ∧ r.1 ∈ data) := by
  intro indices
  induction indices with
  | nil =>
    intro fv row r h
    simp only [sumLoop, Except.ok.injEq] at h
    left; exact ⟨rfl, by rw [← h]⟩
  | cons idx rest ih =>
    intro fv row r h
    obtain ⟨point, row1, hp, _, h2⟩ := sumLoop_cons_ok data idx rest fv row r h
    right
    refine ⟨by simp, ?_⟩
    rcases ih _ _ r h2 with ⟨_, h3⟩ | ⟨_, h3⟩
    · rw [h3]; exact List.getElem?_mem hp
    · exact h3

theorem sumLoop_indices (data : List Point) : ∀ (indices : List Nat) (fv row : Point)
    (r : Point × Point), sumLoop data indices (fv, row) = .ok r →
    ∀ idx ∈ indices, idx < data.length := by
  intro indices
  induction indices with
  | nil => intro fv row r _ idx hidx; simp at hidx
  | cons i rest ih =>
    intro fv row r h idx hidx
    obtain ⟨point, row1, hp, _, h2⟩ := sumLoop_cons_ok data i rest fv row r h
    rcases List.mem_cons.mp hidx with h3 | h3
    · subst h3
      rcases Nat.lt_or_ge idx data.length with hl | hl
      · exact hl
      · rw [List.getElem?_eq_none hl] at hp
        simp at hp
    · exact ih _ _ r h2 idx h3

/-- Over points as long as `row`, the loop of lines 56-64 adds to each
coordinate of `row` the sum of that coordinate over the listed points. -/
theorem sumLoop_sum (data : List Point) (n : Nat) (hdata : ∀ p ∈ data, p.length = n) :
    ∀ (indices : List Nat) (fv row : Point) (r : Point × Point),
    row.length = n → sumLoop data indices (fv, row) = .ok r →
    ∀ j, r.2[j]? = (row[j]?).map
      (fun x => x + (indices.map (fun idx => coordinate data idx j)).sum) := by
  intro indices
  induction indices with
  | nil =>
    intro fv row r _ h j
    simp only [sumLoop, Except.ok.injEq] at h
    rw [← h]
    cases row[j]? <;> simp
  | cons idx rest ih =>
    intro fv row r hrow h j
    obtain ⟨point, row1, hp, h1, h2⟩ := sumLoop_cons_ok data idx rest fv row r h
    have hpl : point.length = row.length := by
      rw [hrow]; exact hdata point (List.getElem?_mem hp)
    rw [addInto_zipWith row point hpl] at h1
    simp only [Except.ok.injEq] at h1
    have hr1 : row1.length = n := by
      rw [← h1, List.length_zipWith, hpl, hrow]; simp
    rw [ih _ _ r hr1 h2 j, ← h1]
    rcases Nat.lt_or_ge j row.length with hj | hj
    · have hjp : j < point.length := by omega
      have hc : coordinate data idx j = point[j] := by
        simp [coordinate, hp, List.getElem?_eq_getElem hjp]
      simp only [List.getElem?_zipWith, List.getElem?_eq_getElem hj,
        List.getElem?_eq_getElem hjp, Option.map_some', List.map_cons, List.sum_cons, hc]
      simp only [Option.some.injEq]
      ring
    · have hjp : point.length ≤ j := by omega
      simp [List.getElem?_zipWith, List.getElem?_eq_none hj, List.getElem?_eq_none hjp]

theorem divideInto_length (n : Nat) : ∀ (row feature_vector row1 : Point),
    divideInto n row feature_vector = .ok row1 → row1.length = row.length := by
  intro row
  induction row with
  | nil =>
    intro fv row1 h
    cases fv with
    | nil => simp only [divideInto, Except.ok.injEq] at h; rw [← h]
    | cons x xs => simp [divideInto] at h
  | cons r row ih =>
    intro fv row1 h
    cases fv with
    | nil => simp only [divideInto, Except.ok.injEq] at h; rw [← h]
    | cons x xs =>
      simp only [divideInto] at h
      split at h
      · simp at h
      · split at h
        · next row2 h2 =>
          simp only [Except.ok.injEq] at h
          rw [← h, List.length_cons, List.length_cons, ih xs row2 h2]
        · simp at h

theorem divideInto_map (n : Nat) (hn : n ≠ 0) : ∀ (row feature_vector : Point),
    feature_vector.length = row.length →
    divideInto n row feature_vector = .ok (row.map (fun x => x / (n : ℚ))) := by
  intro row
  induction row with
  | nil =>
    intro fv h
    cases fv with
    | nil => rfl
    | cons x xs => simp at h
  | cons r row ih =>
    intro fv h
    cases fv with
    | nil => simp at h
    | cons x xs =>
      simp only [List.length_cons, Nat.add_right_cancel_iff] at h
      simp only [divideInto, hn, if_false, ih xs h, List.map_cons]

theorem Calculate_Mean_ok (data : List Point) (indices : List Nat) (row : Point)
    (h : Calculate_Mean data indices = .ok row) :
    ∃ fv row0, sumLoop data indices ([], List.replicate 4 0) = .ok (fv, row0) ∧
      divideInto indices.length row0 fv = .ok row := by
  unfold Calculate_Mean at h
  split at h
  · simp at h
  · next fv row0 hs => exact ⟨fv, row0, hs, h⟩

/-- Whatever the dimension of the data, a mean that `Calculate_Mean` returns
has the 4 coordinates of `row(4,0)`. -/
theorem Calculate_Mean_length (data : List Point) (indices : List Nat) (row : Point)
    (h : Calculate_Mean data indices = .ok row) : row.length = 4 := by
  obtain ⟨fv, row0, hs, hd⟩ := Calculate_Mean_ok data indices row h
  rw [divideInto_length _ _ _ _ hd]
  have := sumLoop_length data indices [] (List.replicate 4 0) _ hs
  simpa using this

/-- Over 4-feature points a mean that `Calculate_Mean` returns for a
non-empty list of indices is the arithmetic mean of the listed points. -/
theorem Calculate_Mean_eq (data : List Point) (hdata : ∀ p ∈ data, p.length = 4)
    (indices : List Nat) (hne : indices ≠ []) (row : Point)
    (h : Calculate_Mean data indices = .ok row) : row = arithmeticMean data indices := by
  obtain ⟨fv, row0, hs, hd⟩ := Calculate_Mean_ok data indices row h
  have hl0 : row0.length = 4 := by
    have := sumLoop_length data indices [] (List.replicate 4 0) _ hs
    simpa using this
  have hfv : fv.length = row0.length := by
    rcases sumLoop_feature_vector data indices [] _ _ hs with ⟨h1, _⟩ | ⟨_, h2⟩
    · exact absurd h1 hne
    · rw [hl0]; exact hdata fv h2
  have hn : indices.length ≠ 0 := by
    intro h0; exact hne (List.length_eq_zero.mp h0)
  rw [divideInto_map _ hn row0 fv hfv] at hd
  simp only [Except.ok.injEq] at hd
  have hsum := sumLoop_sum data 4 hdata indices [] (List.replicate 4 0) _ (by simp) hs
  simp only at hsum
  rw [← hd]
  apply List.ext_getElem?
  intro j
  rw [arithmeticMean, List.getElem?_map, hsum j, List.getElem?_map]
  rcases Nat.lt_or_ge j 4 with hj | hj
  · rw [List.getElem?_replicate_of_lt hj, List.getElem?_range hj]
    simp
  · rw [List.getElem?_eq_none (by simpa using hj), List.getElem?_eq_none (by simpa using hj)]
    simp

theorem sumLoop_total (data : List Point) (hdata : ∀ p ∈ data, p.length ≤ 4) :
    ∀ (indices : List Nat) (fv row : Point), row.length = 4 →
    (∀ idx ∈ indices, idx < data.length) →
    ∃ r, sumLoop data indices (fv, row) = .ok r := by
  intro indices
  induction indices with
  | nil => intro fv row _ _; exact ⟨_, rfl⟩
  | cons idx rest ih =>
    intro fv row hrow hidx
    have hlt : idx < data.length := hidx idx (List.mem_cons_self _ _)
    have hp : data[idx]? = some data[idx] := List.getElem?_eq_getElem hlt
    obtain ⟨row1, h1⟩ := addInto_total row data[idx]
      (by rw [hrow]; exact hdata _ (List.getElem_mem hlt))
    obtain ⟨r, hr⟩ := ih data[idx] row1 (by rw [addInto_length _ _ _ h1, hrow])
      (fun i hi => hidx i (List.mem_cons_of_mem _ hi))
    exact ⟨r, by simp only [sumLoop, hp, h1, hr]⟩

theorem divideInto_total (n : Nat) (hn : n ≠ 0) : ∀ (row feature_vector : Point),
    feature_vector.length ≤ row.length → ∃ row1, divideInto n row feature_vector = .ok row1 := by
  intro row
  induction row with
  | nil =>
    intro fv h
    cases fv with
    | nil => exact ⟨_, rfl⟩
    | cons x xs => simp at h
  | cons r row ih =>
    intro fv h
    cases fv with
    | nil => exact ⟨_, rfl⟩
    | cons x xs =>
      simp only [List.length_cons, Nat.add_le_add_iff_right] at h
      obtain ⟨row1, h1⟩ := ih xs h
      exact ⟨(r / (n : ℚ)) :: row1, by simp only [divideInto, hn, if_false, h1]⟩

/-- No fault is raised by `Calculate_Mean` over points of at most 4 features when
every listed index is that of a data point. -/
theorem Calculate_Mean_total (data : List Point) (hdata : ∀ p ∈ data, p.length ≤ 4)
    (indices : List Nat) (hidx : ∀ idx ∈ indices, idx < data.length) :
    ∃ row, Calculate_Mean data indices = .ok row := by
  obtain ⟨⟨fv, row0⟩, hs⟩ := sumLoop_total data hdata indices [] (List.replicate 4 0)
    (by simp) hidx
  have hl0 : row0.length = 4 := by
    have := sumLoop_length data indices [] (List.replicate 4 0) _ hs
    simpa using this
  rcases sumLoop_feature_vector data indices [] _ _ hs with ⟨h1, h2⟩ | ⟨h1, h2⟩
  · simp only at h2
    subst h2
    exact ⟨row0, by simp only [Calculate_Mean, hs, divideInto]⟩
  · have hn : indices.length ≠ 0 := by
      intro h0; exact h1 (List.length_eq_zero.mp h0)
    obtain ⟨row1, hr⟩ := divideInto_total indices.length hn row0 fv
      (by rw [hl0]; exact hdata fv h2)
    exact ⟨row1, by simp only [Calculate_Mean, hs, hr]⟩

/-! ## The map from cluster number to member list -/

theorem ClusterMap.ordered_cons (k : Int) (v : List Nat) (rest : ClusterMap) :
    ClusterMap.Ordered ((k, v) :: rest) ↔
      (∀ e ∈ rest, k < e.1) ∧ ClusterMap.Ordered rest := by
  simp only [ClusterMap.Ordered, List.map_cons, List.pairwise_cons, List.mem_map,
    forall_exists_index, and_imp]
  constructor
  · rintro ⟨h1, h2⟩
    exact ⟨fun e he => h1 e.1 e he rfl, h2⟩
  · rintro ⟨h1, h2⟩
    exact ⟨fun a e he hea => hea ▸ h1 e he, h2⟩

theorem ClusterMap.pushBack_total (key : Int) (i : Nat) : ∀ m : ClusterMap,
    ClusterMap.total (ClusterMap.pushBack key i m) = ClusterMap.total m + 1 := by
  intro m
  induction m with
  | nil => simp [ClusterMap.pushBack, ClusterMap.total]
  | cons e rest ih =>
    obtain ⟨k, v⟩ := e
    simp only [ClusterMap.pushBack]
    split
    · simp [ClusterMap.total]; omega
    · split
      · simp [ClusterMap.total]; omega
      · simp only [ClusterMap.total, List.map_cons, List.sum_cons] at ih ⊢
        rw [ih]; omega

theorem ClusterMap.pushBack_members (key : Int) (i : Nat) : ∀ m : ClusterMap,
    (ClusterMap.members (ClusterMap.pushBack key i m)).Perm (i :: ClusterMap.members m) := by
  intro m
  induction m with
  | nil => simp [ClusterMap.pushBack, ClusterMap.members]
  | cons e rest ih =>
    obtain ⟨k, v⟩ := e
    simp only [ClusterMap.pushBack]
    split
    · simp [ClusterMap.members]
    · split
      · simp only [ClusterMap.members, List.append_assoc, List.singleton_append]
        exact List.perm_middle
      · simp only [ClusterMap.members]
        exact ((List.Perm.append_left v ih).trans List.perm_middle)

theorem ClusterMap.pushBack_keys (key : Int) (i : Nat) : ∀ m : ClusterMap,
    ∀ e ∈ ClusterMap.pushBack key i m, e.1 = key ∨ e.1 ∈ m.map Prod.fst := by
  intro m
  induction m with
  | nil =>
    intro e he
    simp only [ClusterMap.pushBack, List.mem_singleton] at he
    left; rw [he]
  | cons e0 rest ih =>
    obtain ⟨k, v⟩ := e0
    intro e he
    simp only [ClusterMap.pushBack] at he
    split at he
    · rcases List.mem_cons.mp he with h | h
      · left; rw [h]
      · right; exact List.mem_map_of_mem Prod.fst h
    · split at he
      · right
        rcases List.mem_cons.mp he with h | h
        · rw [h]; simp
        · exact List.mem_map_of_mem Prod.fst (List.mem_cons_of_mem _ h)
      · rcases List.mem_cons.mp he with h | h
        · right; rw [h]; simp
        · rcases ih e h with h1 | h1
          · left; exact h1
          · right; exact List.mem_cons_of_mem _ h1

theorem ClusterMap.pushBack_key_mem (key : Int) (i : Nat) : ∀ m : ClusterMap,
    key ∈ (ClusterMap.pushBack key i m).map Prod.fst := by
  intro m
  induction m with
  | nil => simp [ClusterMap.pushBack]
  | cons e0 rest ih =>
    obtain ⟨k, v⟩ := e0
    simp only [ClusterMap.pushBack]
    split
    · simp
    · split
      · next h => simp [h]
      · simp only [List.map_cons, List.mem_cons]
        right; exact ih

theorem ClusterMap.pushBack_keys_mono (key : Int) (i : Nat) : ∀ m : ClusterMap,
    ∀ k ∈ m.map Prod.fst, k ∈ (ClusterMap.pushBack key i m).map Prod.fst := by
  intro m
  induction m with
  | nil => intro k hk; simp at hk
  | cons e0 rest ih =>
    obtain ⟨k0, v⟩ := e0
    intro k hk
    simp only [ClusterMap.pushBack]
    split
    · exact List.mem_cons_of_mem _ hk
    · split
      · simpa using hk
      · simp only [List.map_cons, List.mem_cons] at hk ⊢
        rcases hk with h | h
        · left; exact h
        · right; exact ih k h

theorem ClusterMap.pushBack_ordered (key : Int) (i : Nat) : ∀ m : ClusterMap,
    ClusterMap.Ordered m → ClusterMap.Ordered (ClusterMap.pushBack key i m) := by
  intro m
  induction m with
  | nil =>
    intro _
    simp [ClusterMap.pushBack, ClusterMap.Ordered]
  | cons e0 rest ih =>
    obtain ⟨k, v⟩ := e0
    intro hord
    obtain ⟨h1, h2⟩ := (ClusterMap.ordered_cons k v rest).mp hord
    simp only [ClusterMap.pushBack]
    split
    · next hlt =>
      rw [ClusterMap.ordered_cons]
      refine ⟨?_, hord⟩
      intro e he
      rcases List.mem_cons.mp he with h | h
      · rw [h]; exact hlt
      · exact lt_trans hlt (h1 e h)
    · split
      · rw [ClusterMap.ordered_cons]
        exact ⟨h1, h2⟩
      · next hn1 hn2 =>
        rw [ClusterMap.ordered_cons]
        refine ⟨?_, ih h2⟩
        intro e he
        rcases ClusterMap.pushBack_keys key i rest e he with h | h
        · rw [h]; omega
        · obtain ⟨e', he', hk⟩ := List.mem_map.mp h
          rw [← hk]; exact h1 e' he'

theorem groupLoop_total : ∀ (cn : List Int) (i : Nat) (m : ClusterMap),
    ClusterMap.total (groupLoop cn i m) = ClusterMap.total m + cn.length := by
  intro cn
  induction cn with
  | nil => intro i m; simp [groupLoop]
  | cons c rest ih =>
    intro i m
    simp only [groupLoop, ih, ClusterMap.pushBack_total, List.length_cons]
    omega

theorem groupLoop_members : ∀ (cn : List Int) (i : Nat) (m : ClusterMap),
    (ClusterMap.members (groupLoop cn i m)).Perm
      (ClusterMap.members m ++ List.range' i cn.length) := by
  intro cn
  induction cn with
  | nil => intro i m; simp [groupLoop]
  | cons c rest ih =>
    intro i m
    simp only [groupLoop, List.length_cons, List.range'_succ]
    refine (ih (i + 1) _).trans ?_
    refine ((ClusterMap.pushBack_members c i m).append_right _).trans ?_
    simp only [List.cons_append]
    exact List.perm_middle.symm

theorem groupLoop_ordered : ∀ (cn : List Int) (i : Nat) (m : ClusterMap),
    ClusterMap.Ordered m → ClusterMap.Ordered (groupLoop cn i m) := by
  intro cn
  induction cn with
  | nil => intro i m h; exact h
  | cons c rest ih =>
    intro i m h
    exact ih (i + 1) _ (ClusterMap.pushBack_ordered c i m h)

theorem groupLoop_keys : ∀ (cn : List Int) (i : Nat) (m : ClusterMap),
    ∀ e ∈ groupLoop cn i m, e.1 ∈ cn ∨ e.1 ∈ m.map Prod.fst := by
  intro cn
  induction cn with
  | nil =>
    intro i m e he
    right; exact List.mem_map_of_mem Prod.fst he
  | cons c rest ih =>
    intro i m e he
    rcases ih (i + 1) _ e he with h | h
    · left; exact List.mem_cons_of_mem _ h
    · obtain ⟨e', he', hk⟩ := List.mem_map.mp h
      rcases ClusterMap.pushBack_keys c i m e' he' with h1 | h1
      · left; rw [← hk, h1]; exact List.mem_cons_self _ _
      · right; rw [← hk]; exact h1

theorem groupLoop_keys_mono : ∀ (cn : List Int) (i : Nat) (m : ClusterMap),
    ∀ k ∈ m.map Prod.fst, k ∈ (groupLoop cn i m).map Prod.fst := by
  intro cn
  induction cn with
  | nil => intro i m k hk; exact hk
  | cons c rest ih =>
    intro i m k hk
    exact ih (i + 1) _ k (ClusterMap.pushBack_keys_mono c i m k hk)

theorem groupLoop_key_mem : ∀ (cn : List Int) (i : Nat) (m : ClusterMap),
    ∀ c ∈ cn, c ∈ (groupLoop cn i m).map Prod.fst := by
  intro cn
  induction cn with
  | nil => intro i m c hc; simp at hc
  | cons c0 rest ih =>
    intro i m c hc
    rcases List.mem_cons.mp hc with h | h
    · subst h
      exact groupLoop_keys_mono rest (i + 1) _ c (ClusterMap.pushBack_key_mem c i m)
    · exact ih (i + 1) _ c h

theorem ClusterMap.mem_members (m : ClusterMap) (e : Int × List Nat) (he : e ∈ m) :
    ∀ idx ∈ e.2, idx ∈ ClusterMap.members m := by
  induction m with
  | nil => simp at he
  | cons e0 rest ih =>
    obtain ⟨k, v⟩ := e0
    intro idx hidx
    simp only [ClusterMap.members, List.mem_append]
    rcases List.mem_cons.mp he with h | h
    · left; rw [h] at hidx; exact hidx
    · right; exact ih h idx hidx

theorem ClusterMap.members_eq_nil (m : ClusterMap) :
    ClusterMap.members m = [] ↔ ∀ e ∈ m, e.2 = [] := by
  induction m with
  | nil => simp [ClusterMap.members]
  | cons e0 rest ih =>
    obtain ⟨k, v⟩ := e0
    simp only [ClusterMap.members, List.append_eq_nil, ih, List.mem_cons, forall_eq_or_imp]

theorem ClusterMap.clear_keys (key : Int) : ∀ m : ClusterMap,
    ∀ e ∈ ClusterMap.clear key m, e.1 = key ∨ e.1 ∈ m.map Prod.fst := by
  intro m
  induction m with
  | nil =>
    intro e he
    simp only [ClusterMap.clear, List.mem_singleton] at he
    left; rw [he]
  | cons e0 rest ih =>
    obtain ⟨k, v⟩ := e0
    intro e he
    simp only [ClusterMap.clear] at he
    split at he
    · rcases List.mem_cons.mp he with h | h
      · left; rw [h]
      · right; exact List.mem_map_of_mem Prod.fst h
    · split at he
      · right
        rcases List.mem_cons.mp he with h | h
        · rw [h]; simp
        · exact List.mem_map_of_mem Prod.fst (List.mem_cons_of_mem _ h)
      · rcases List.mem_cons.mp he with h | h
        · right; rw [h]; simp
        · rcases ih e h with h1 | h1
          · left; exact h1
          · right; exact List.mem_cons_of_mem _ h1

theorem ClusterMap.clear_ordered (key : Int) : ∀ m : ClusterMap,
    ClusterMap.Ordered m → ClusterMap.Ordered (ClusterMap.clear key m) := by
  intro m
  induction m with
  | nil =>
    intro _
    simp [ClusterMap.clear, ClusterMap.Ordered]
  | cons e0 rest ih =>
    obtain ⟨k, v⟩ := e0
    intro hord
    obtain ⟨h1, h2⟩ := (ClusterMap.ordered_cons k v rest).mp hord
    simp only [ClusterMap.clear]
    split
    · next hlt =>
      rw [ClusterMap.ordered_cons]
      refine ⟨?_, hord⟩
      intro e he
      rcases List.mem_cons.mp he with h | h
      · rw [h]; exact hlt
      · exact lt_trans hlt (h1 e h)
    · split
      · rw [ClusterMap.ordered_cons]
        exact ⟨h1, h2⟩
      · next hn1 hn2 =>
        rw [ClusterMap.ordered_cons]
        refine ⟨?_, ih h2⟩
        intro e he
        rcases ClusterMap.clear_keys key rest e he with h | h
        · rw [h]; omega
        · obtain ⟨e', he', hk⟩ := List.mem_map.mp h
          rw [← hk]; exact h1 e' he'

/-- After `cluster_item[key].clear()` an entry is empty or is an old entry
under another key. -/
theorem ClusterMap.clear_entries (key : Int) : ∀ m : ClusterMap, ClusterMap.Ordered m →
    ∀ e ∈ ClusterMap.clear key m, e.2 = [] ∨ (e ∈ m ∧ e.1 ≠ key) := by
  intro m
  induction m with
  | nil =>
    intro _ e he
    simp only [ClusterMap.clear, List.mem_singleton] at he
    left; rw [he]
  | cons e0 rest ih =>
    obtain ⟨k, v⟩ := e0
    intro hord e he
    obtain ⟨h1, h2⟩ := (ClusterMap.ordered_cons k v rest).mp hord
    simp only [ClusterMap.clear] at he
    split at he
    · next hlt =>
      rcases List.mem_cons.mp he with h | h
      · left; rw [h]
      · right
        refine ⟨h, ?_⟩
        rcases List.mem_cons.mp h with h3 | h3
        · rw [h3]; simp only; omega
        · have := h1 e h3; omega
    · split at he
      · next hn heq =>
        rcases List.mem_cons.mp he with h | h
        · left; rw [h]
        · right
          refine ⟨List.mem_cons_of_mem _ h, ?_⟩
          have := h1 e h; omega
      · next hn1 hn2 =>
        rcases List.mem_cons.mp he with h | h
        · right
          rw [h]
          exact ⟨List.mem_cons_self _ _, fun hc => hn2 hc.symm⟩
        · rcases ih h2 e h with h3 | ⟨h3, h4⟩
          · left; exact h3
          · right; exact ⟨List.mem_cons_of_mem _ h3, h4⟩

theorem clearLoop_ordered : ∀ (n m0 : Nat) (ci : ClusterMap),
    ClusterMap.Ordered ci → ClusterMap.Ordered (clearLoop n m0 ci) := by
  intro n
  induction n with
  | zero => intro m0 ci h; exact h
  | succ n ih =>
    intro m0 ci h
    exact ih (m0 + 1) _ (ClusterMap.clear_ordered _ ci h)

/-- After the clearing loop over the keys `m0 .. m0 + n - 1` an entry is
empty or is an old entry whose key is outside that range. -/
theorem clearLoop_entries : ∀ (n m0 : Nat) (ci : ClusterMap), ClusterMap.Ordered ci →
    ∀ e ∈ clearLoop n m0 ci,
      e.2 = [] ∨ (e ∈ ci ∧ ¬ ((m0 : Int) ≤ e.1 ∧ e.1 < (m0 : Int) + n)) := by
  intro n
  induction n with
  | zero =>
    intro m0 ci _ e he
    right
    exact ⟨he, by simp only [Nat.cast_zero, add_zero]; omega⟩
  | succ n ih =>
    intro m0 ci hord e he
    simp only [clearLoop] at he
    rcases ih (m0 + 1) _ (ClusterMap.clear_ordered _ ci hord) e he with h | ⟨h1, h2⟩
    · left; exact h
    · rcases ClusterMap.clear_entries _ ci hord e h1 with h3 | ⟨h3, h4⟩
      · left; exact h3
      · right
        refine ⟨h3, ?_⟩
        push_cast at h2 ⊢
        omega

theorem clearLoop_keys : ∀ (n m0 : Nat) (ci : ClusterMap),
    ∀ e ∈ clearLoop n m0 ci,
      ((m0 : Int) ≤ e.1 ∧ e.1 < (m0 : Int) + n) ∨ e.1 ∈ ci.map Prod.fst := by
  intro n
  induction n with
  | zero =>
    intro m0 ci e he
    right; exact List.mem_map_of_mem Prod.fst he
  | succ n ih =>
    intro m0 ci e he
    simp only [clearLoop] at he
    rcases ih (m0 + 1) _ e he with h | h
    · left; push_cast at h ⊢; omega
    · obtain ⟨e', he', hk⟩ := List.mem_map.mp h
      rcases ClusterMap.clear_keys _ ci e' he' with h1 | h1
      · left; rw [← hk, h1]; push_cast; omega
      · right; rw [← hk]; exact h1

/-! ## The mean update -/

theorem meanLoop_cons_ok (data : List Point) (key : Int) (members : List Nat)
    (rest : ClusterMap) (means means1 : List Point)
    (h : meanLoop data ((key, members) :: rest) means = .ok means1) :
    ∃ row, Calculate_Mean data members = .ok row ∧ 0 ≤ key ∧ key.toNat < means.length ∧
      meanLoop data rest (means.set key.toNat row) = .ok means1 := by
  unfold meanLoop at h
  split at h
  · simp at h
  · next row hr =>
    split at h
    · next hk => exact ⟨row, hr, hk.1, hk.2, h⟩
    · simp at h

theorem meanLoop_length (data : List Point) : ∀ (m : ClusterMap) (means means1 : List Point),
    meanLoop data m means = .ok means1 → means1.length = means.length := by
  intro m
  induction m with
  | nil =>
    intro means means1 h
    simp only [meanLoop, Except.ok.injEq] at h
    rw [← h]
  | cons e rest ih =>
    obtain ⟨key, members⟩ := e
    intro means means1 h
    obtain ⟨row, _, _, _, h1⟩ := meanLoop_cons_ok data key members rest means means1 h
    rw [ih _ _ h1, List.length_set]

/-- A mean update that raises no fault met only keys that are positions of
centroids. -/
theorem meanLoop_keys (data : List Point) : ∀ (m : ClusterMap) (means means1 : List Point),
    meanLoop data m means = .ok means1 →
    ∀ e ∈ m, 0 ≤ e.1 ∧ e.1.toNat < means.length := by
  intro m
  induction m with
  | nil => intro means means1 _ e he; simp at he
  | cons e0 rest ih =>
    obtain ⟨key, members⟩ := e0
    intro means means1 h e he
    obtain ⟨row, _, h0, hlt, h1⟩ := meanLoop_cons_ok data key members rest means means1 h
    rcases List.mem_cons.mp he with h2 | h2
    · rw [h2]; exact ⟨h0, hlt⟩
    · have := ih _ _ h1 e h2
      rwa [List.length_set] at this

/-- Centroids at positions that are not keys of the map are left as they
were. -/
theorem meanLoop_frame (data : List Point) : ∀ (m : ClusterMap) (means means1 : List Point),
    meanLoop data m means = .ok means1 →
    ∀ k : Nat, (k : Int) ∉ m.map Prod.fst → means1[k]? = means[k]? := by
  intro m
  induction m with
  | nil =>
    intro means means1 h k _
    simp only [meanLoop, Except.ok.injEq] at h
    rw [← h]
  | cons e0 rest ih =>
    obtain ⟨key, members⟩ := e0
    intro means means1 h k hk
    obtain ⟨row, _, h0, _, h1⟩ := meanLoop_cons_ok data key members rest means means1 h
    simp only [List.map_cons, List.mem_cons, not_or] at hk
    rw [ih _ _ h1 k hk.2, List.getElem?_set_ne]
    intro hc
    apply hk.1
    rw [← hc]
    exact Int.toNat_of_nonneg h0

/-- The centroid at the key of an entry is the mean `Calculate_Mean` returned
for the members of that entry. -/
theorem meanLoop_get (data : List Point) : ∀ (m : ClusterMap) (means means1 : List Point),
    ClusterMap.Ordered m → meanLoop data m means = .ok means1 →
    ∀ key members, (key, members) ∈ m →
      ∃ row, Calculate_Mean data members = .ok row ∧ means1[key.toNat]? = some row := by
  intro m
  induction m with
  | nil => intro means means1 _ _ key members he; simp at he
  | cons e0 rest ih =>
    obtain ⟨key0, members0⟩ := e0
    intro means means1 hord h key members he
    obtain ⟨h1, h2⟩ := (ClusterMap.ordered_cons key0 members0 rest).mp hord
    obtain ⟨row, hr, h0, hlt, hrest⟩ :=
      meanLoop_cons_ok data key0 members0 rest means means1 h
    rcases List.mem_cons.mp he with h3 | h3
    · simp only [Prod.mk.injEq] at h3
      obtain ⟨hk, hm⟩ := h3
      subst hk; subst hm
      refine ⟨row, hr, ?_⟩
      rw [meanLoop_frame data rest _ _ hrest key.toNat, List.getElem?_set_self hlt]
      rw [Int.toNat_of_nonneg h0]
      intro hc
      obtain ⟨e', he', hk'⟩ := List.mem_map.mp hc
      have := h1 e' he'
      omega
    · exact ih _ _ h2 hrest key members h3

/-- A centroid after the mean update is the one before it or has the 4
coordinates of `row(4,0)`. -/
theorem meanLoop_entries (data : List Point) : ∀ (m : ClusterMap) (means means1 : List Point),
    meanLoop data m means = .ok means1 →
    ∀ (k : Nat) (row : Point), means1[k]? = some row → means[k]? = some row ∨ row.length = 4 := by
  intro m
  induction m with
  | nil =>
    intro means means1 h k row hk
    simp only [meanLoop, Except.ok.injEq] at h
    left; rw [h]; exact hk
  | cons e0 rest ih =>
    obtain ⟨key, members⟩ := e0
    intro means means1 h k row hk
    obtain ⟨row0, hr, _, hlt, hrest⟩ := meanLoop_cons_ok data key members rest means means1 h
    rcases ih _ _ hrest k row hk with h1 | h1
    · by_cases hkk : key.toNat = k
      · subst hkk
        rw [List.getElem?_set_self hlt] at h1
        simp only [Option.some.injEq] at h1
        right; rw [← h1]
        exact Calculate_Mean_length data members row0 hr
      · rw [List.getElem?_set_ne hkk] at h1
        left; exact h1
    · right; exact h1

theorem meanLoop_total (data : List Point) (hdata : ∀ p ∈ data, p.length ≤ 4) :
    ∀ (m : ClusterMap) (means : List Point),
    (∀ e ∈ m, 0 ≤ e.1 ∧ e.1.toNat < means.length ∧ ∀ idx ∈ e.2, idx < data.length) →
    ∃ means1, meanLoop data m means = .ok means1 := by
  intro m
  induction m with
  | nil => intro means _; exact ⟨means, rfl⟩
  | cons e0 rest ih =>
    obtain ⟨key, members⟩ := e0
    intro means hm
    obtain ⟨h0, hlt, hidx⟩ := hm (key, members) (List.mem_cons_self _ _)
    obtain ⟨row, hr⟩ := Calculate_Mean_total data hdata members hidx
    obtain ⟨means1, h1⟩ := ih (means.set key.toNat row) (fun e he => by
      have := hm e (List.mem_cons_of_mem _ he)
      rw [List.length_set]
      exact this)
    refine ⟨means1, ?_⟩
    simp only [meanLoop, hr]
    rw [if_pos ⟨h0, hlt⟩]
    exact h1

theorem Find_New_Mean_ok (s s1 : State) (h : Find_New_Mean s = .ok s1) :
    meanLoop s.data (groupLoop s.cluster_number 0 s.cluster_item) s.means = .ok s1.means ∧
      s1.cluster_item = groupLoop s.cluster_number 0 s.cluster_item ∧
      s1.data = s.data ∧ s1.cluster_number = s.cluster_number := by
  unfold Find_New_Mean at h
  simp only at h
  split at h
  · simp at h
  · next means hm =>
    simp only [Except.ok.injEq] at h
    subst h
    exact ⟨hm, rfl, rfl, rfl⟩

/-- No fault is raised by `Find_New_Mean` when the points have at most 4 features,
`cluster_number` has no more entries than there are points, and every key,
old or new, is the position of a centroid and every old member the index of
a point. -/
theorem Find_New_Mean_total (s : State) (hdata : ∀ p ∈ s.data, p.length ≤ 4)
    (hlen : s.cluster_number.length ≤ s.data.length)
    (hcn : ∀ c ∈ s.cluster_number, 0 ≤ c ∧ c.toNat < s.means.length)
    (hci : ∀ e ∈ s.cluster_item, 0 ≤ e.1 ∧ e.1.toNat < s.means.length)
    (hmem : ∀ idx ∈ ClusterMap.members s.cluster_item, idx < s.data.length) :
    ∃ s1, Find_New_Mean s = .ok s1 := by
  obtain ⟨means1, h1⟩ := meanLoop_total s.data hdata
    (groupLoop s.cluster_number 0 s.cluster_item) s.means (by
      intro e he
      have hkey : 0 ≤ e.1 ∧ e.1.toNat < s.means.length := by
        rcases groupLoop_keys _ _ _ e he with h | h
        · exact hcn _ h
        · obtain ⟨e', he', hk⟩ := List.mem_map.mp h
          rw [← hk]; exact hci e' he'
      refine ⟨hkey.1, hkey.2, ?_⟩
      intro idx hidx
      have h2 := ClusterMap.mem_members _ e he idx hidx
      have h3 := (groupLoop_members s.cluster_number 0 s.cluster_item).mem_iff.mp h2
      rcases List.mem_append.mp h3 with h4 | h4
      · exact hmem idx h4
      · rw [List.mem_range'_1] at h4
        omega)
  exact ⟨{ s with means := means1,
                   cluster_item := groupLoop s.cluster_number 0 s.cluster_item },
    by simp only [Find_New_Mean, h1]⟩

/-! ## The loop of `K_Means_Parallel` -/

theorem loopBody_true (s s1 : State) :
    loopBody s = .ok (true, s1) ↔ assignmentPass s = .ok (true, s1) := by
  unfold loopBody
  cases hp : assignmentPass s with
  | error e => simp
  | ok r =>
    obtain ⟨b, s0⟩ := r
    cases b with
    | true => simp
    | false =>
      simp only [Bool.false_eq_true, if_false]
      cases Find_New_Mean s0 <;> simp

theorem loopBody_false (s s2 : State) (h : loopBody s = .ok (false, s2)) :
    ∃ s1 s3, assignmentPass s = .ok (false, s1) ∧ Find_New_Mean s1 = .ok s3 ∧
      s2 = { s3 with cluster_item := clearLoop s3.means.length 0 s3.cluster_item } := by
  unfold loopBody at h
  cases hp : assignmentPass s with
  | error e => simp [hp] at h
  | ok r =>
    obtain ⟨b, s0⟩ := r
    rw [hp] at h
    cases b with
    | true => simp at h
    | false =>
      simp only [Bool.false_eq_true, if_false] at h
      cases hf : Find_New_Mean s0 with
      | error e => simp [hf] at h
      | ok s3 =>
        rw [hf] at h
        simp only [Except.ok.injEq, Prod.mk.injEq, true_and] at h
        exact ⟨s0, s3, rfl, hf, h.symm⟩

theorem loopBody_of_false (s s1 s3 : State) (hp : assignmentPass s = .ok (false, s1))
    (hf : Find_New_Mean s1 = .ok s3) :
    loopBody s =
      .ok (false, { s3 with cluster_item := clearLoop s3.means.length 0 s3.cluster_item }) := by
  unfold loopBody
  rw [hp]
  simp only [Bool.false_eq_true, if_false, hf]

theorem stateAt_succ (k : Nat) : ∀ (s s2 : State), stateAt (k + 1) s = some s2 →
    ∃ s0, stateAt k s = some s0 ∧ loopBody s0 = .ok (false, s2) := by
  induction k with
  | zero =>
    intro s s2 h
    refine ⟨s, rfl, ?_⟩
    simp only [stateAt] at h
    split at h
    · next s3 hl =>
      simp only [Option.some.injEq] at h
      rw [hl, h]
    · simp at h
  | succ k ih =>
    intro s s2 h
    rw [stateAt] at h
    split at h
    · next s3 hl =>
      obtain ⟨s0, h0, h1⟩ := ih s3 s2 h
      refine ⟨s0, ?_, h1⟩
      rw [stateAt, hl]
      exact h0
    · simp at h

theorem stateAt_step (k : Nat) : ∀ (s s0 s2 : State), stateAt k s = some s0 →
    loopBody s0 = .ok (false, s2) → stateAt (k + 1) s = some s2 := by
  induction k with
  | zero =>
    intro s s0 s2 h hl
    simp only [stateAt, Option.some.injEq] at h
    subst h
    simp only [stateAt, hl]
  | succ k ih =>
    intro s s0 s2 h hl
    rw [stateAt] at h
    split at h
    · next s3 hl3 =>
      rw [stateAt, hl3]
      exact ih s3 s0 s2 h hl
    · simp at h

theorem stateAt_prefix (j : Nat) : ∀ (k : Nat) (s s2 : State), stateAt (k + j) s = some s2 →
    ∃ s0 s1, stateAt k s = some s0 ∧ (j = 0 ∨ loopBody s0 = .ok (false, s1)) := by
  induction j with
  | zero =>
    intro k s s2 h
    exact ⟨s2, s2, h, Or.inl rfl⟩
  | succ j ih =>
    intro k s s2 h
    obtain ⟨s0, h0, h1⟩ := stateAt_succ (k + j) s s2 h
    obtain ⟨t0, t1, ht, hor⟩ := ih k s s0 h0
    rcases hor with hj | hl
    · subst hj
      simp only [Nat.add_zero] at h0
      rw [ht] at h0
      simp only [Option.some.injEq] at h0
      subst h0
      exact ⟨t0, s2, ht, Or.inr h1⟩
    · exact ⟨t0, t1, ht, Or.inr hl⟩

/-- Before the iteration that starts in `stateAt j s`, every iteration ran an
assignment pass that changed an assignment. -/
theorem stateAt_earlier (j : Nat) (s s0 : State) (h : stateAt j s = some s0) :
    ∀ k, k < j → ∃ sk s1, stateAt k s = some sk ∧ assignmentPass sk = .ok (false, s1) := by
  intro k hk
  obtain ⟨d, hd⟩ : ∃ d, j = k + (d + 1) := ⟨j - k - 1, by omega⟩
  rw [hd] at h
  obtain ⟨t0, t1, ht, hor⟩ := stateAt_prefix (d + 1) k s s0 h
  rcases hor with h0 | hl
  · omega
  · obtain ⟨s1, _, hp, _, _⟩ := loopBody_false t0 t1 hl
    exact ⟨t0, s1, ht, hp⟩

/-- How a run of the loop with `n` iterations allowed ends, in terms of the
states in which its iterations start. -/
theorem iterate_spec (n : Nat) : ∀ (p : Nat) (s : State),
    (iterate n p s).passes ≤ p + n ∧
    (∀ f, (iterate n p s).exit = .Converged f →
      ∃ j s0, (iterate n p s).passes = p + j + 1 ∧ j < n ∧ stateAt j s = some s0 ∧
        loopBody s0 = .ok (true, f)) ∧
    (∀ f, (iterate n p s).exit = .MaxIterationsReached f →
      (iterate n p s).passes = p + n ∧ stateAt n s = some f) ∧
    (∀ e, (iterate n p s).exit = .Undefined e →
      ∃ j s0, (iterate n p s).passes = p + j + 1 ∧ j < n ∧ stateAt j s = some s0 ∧
        loopBody s0 = .error e) := by
  induction n with
  | zero =>
    intro p s
    simp only [iterate, Nat.add_zero, le_refl, true_and]
    refine ⟨by intro f h; simp at h, ?_, by intro e h; simp at h⟩
    intro f h
    simp only [Exit.MaxIterationsReached.injEq] at h
    rw [stateAt, h]
  | succ n ih =>
    intro p s
    cases hl : loopBody s with
    | error e =>
      simp only [iterate, hl]
      refine ⟨by omega, by intro f h; simp at h, by intro f h; simp at h, ?_⟩
      intro e' h
      simp only [Exit.Undefined.injEq] at h
      exact ⟨0, s, rfl, by omega, rfl, by rw [hl, h]⟩
    | ok r =>
      obtain ⟨b, s2⟩ := r
      cases b with
      | true =>
        simp only [iterate, hl]
        refine ⟨by omega, ?_, by intro f h; simp at h, by intro e h; simp at h⟩
        intro f h
        simp only [Exit.Converged.injEq] at h
        exact ⟨0, s, rfl, by omega, rfl, by rw [hl, h]⟩
      | false =>
        simp only [iterate, hl]
        obtain ⟨h1, h2, h3, h4⟩ := ih (p + 1) s2
        refine ⟨by omega, ?_, ?_, ?_⟩
        · intro f h
          obtain ⟨j, s0, hp, hj, hs, hb⟩ := h2 f h
          exact ⟨j + 1, s0, by omega, by omega, by rw [stateAt, hl]; exact hs, hb⟩
        · intro f h
          obtain ⟨hp, hs⟩ := h3 f h
          exact ⟨by omega, by rw [stateAt, hl]; exact hs⟩
        · intro e h
          obtain ⟨j, s0, hp, hj, hs, hb⟩ := h4 e h
          exact ⟨j + 1, s0, by omega, by omega, by rw [stateAt, hl]; exact hs, hb⟩

/-- The loop run from the state in which iteration `k + 1` starts is the rest
of the loop run from the first state. -/
theorem iterate_stateAt (k : Nat) : ∀ (n p : Nat) (s s0 : State), stateAt k s = some s0 →
    iterate (k + n) p s = iterate n (p + k) s0 := by
  induction k with
  | zero =>
    intro n p s s0 h
    simp only [stateAt, Option.some.injEq] at h
    subst h
    simp
  | succ k ih =>
    intro n p s s0 h
    rw [stateAt] at h
    split at h
    · next s3 hl =>
      have : k + 1 + n = (k + n) + 1 := by omega
      rw [this, iterate, hl]
      simp only
      rw [ih n (p + 1) s3 s0 h]
      congr 1
      omega
    · simp at h

/-! ## Faults of the mean update are never divisions by zero -/

theorem addInto_fault : ∀ (row feature_vector : Point) (e : Fault),
    addInto row feature_vector = .error e → e = .outOfBounds := by
  intro row
  induction row with
  | nil =>
    intro fv e h
    cases fv with
    | nil => simp [addInto] at h
    | cons x xs => simp only [addInto, Except.error.injEq] at h; exact h.symm
  | cons r row ih =>
    intro fv e h
    cases fv with
    | nil => simp [addInto] at h
    | cons x xs =>
      simp only [addInto] at h
      split at h
      · simp at h
      · next e1 h1 =>
        simp only [Except.error.injEq] at h
        rw [← h]; exact ih xs e1 h1

theorem sumLoop_fault (data : List Point) : ∀ (indices : List Nat) (fv row : Point) (e : Fault),
    sumLoop data indices (fv, row) = .error e → e = .outOfBounds := by
  intro indices
  induction indices with
  | nil => intro fv row e h; simp [sumLoop] at h
  | cons idx rest ih =>
    intro fv row e h
    simp only [sumLoop] at h
    split at h
    · simp only [Except.error.injEq] at h; exact h.symm
    · split at h
      · next e1 h1 =>
        simp only [Except.error.injEq] at h
        rw [← h]; exact addInto_fault _ _ e1 h1
      · exact ih _ _ e h

theorem divideInto_fault (n : Nat) : ∀ (row feature_vector : Point) (e : Fault),
    (n = 0 → feature_vector = []) →
    divideInto n row feature_vector = .error e → e = .outOfBounds := by
  intro row
  induction row with
  | nil =>
    intro fv e _ h
    cases fv with
    | nil => simp [divideInto] at h
    | cons x xs => simp only [divideInto, Except.error.injEq] at h; exact h.symm
  | cons r row ih =>
    intro fv e hn h
    cases fv with
    | nil => simp [divideInto] at h
    | cons x xs =>
      have hn0 : n ≠ 0 := fun h0 => by simpa using hn h0
      simp only [divideInto, hn0, if_false] at h
      split at h
      · simp at h
      · next e1 h1 =>
        simp only [Except.error.injEq] at h
        rw [← h]
        exact ih xs e1 (fun h0 => absurd h0 hn0) h1

/-- The division of lines 67-70 is reached only with a member count that is
not zero: a fault of `Calculate_Mean` is a subscript out of range. -/
theorem Calculate_Mean_fault (data : List Point) (indices : List Nat) (e : Fault)
    (h : Calculate_Mean data indices = .error e) : e = .outOfBounds := by
  unfold Calculate_Mean at h
  split at h
  · next e1 h1 =>
    simp only [Except.error.injEq] at h
    rw [← h]; exact sumLoop_fault data _ _ _ e1 h1
  · next fv row hs =>
    refine divideInto_fault indices.length row fv e ?_ h
    intro h0
    rcases sumLoop_feature_vector data indices [] _ _ hs with ⟨_, h2⟩ | ⟨h1, _⟩
    · exact h2
    · exact absurd (List.length_eq_zero.mp h0) h1

theorem Calculate_Mean_nil (data : List Point) : Calculate_Mean data [] = .ok [0, 0, 0, 0] := by
  simp [Calculate_Mean, sumLoop, divideInto]

theorem meanLoop_fault (data : List Point) : ∀ (m : ClusterMap) (means : List Point) (e : Fault),
    meanLoop data m means = .error e → e = .outOfBounds := by
  intro m
  induction m with
  | nil => intro means e h; simp [meanLoop] at h
  | cons e0 rest ih =>
    obtain ⟨key, members⟩ := e0
    intro means e h
    simp only [meanLoop] at h
    split at h
    · next e1 h1 =>
      simp only [Except.error.injEq] at h
      rw [← h]; exact Calculate_Mean_fault data members e1 h1
    · split at h
      · exact ih _ e h
      · simp only [Except.error.injEq] at h; exact h.symm

theorem Find_New_Mean_fault (s : State) (e : Fault) (h : Find_New_Mean s = .error e) :
    e = .outOfBounds := by
  unfold Find_New_Mean at h
  simp only at h
  split at h
  · next e1 h1 =>
    simp only [Except.error.injEq] at h
    rw [← h]; exact meanLoop_fault s.data _ _ e1 h1
  · simp at h

/-! ## Invariants of the loop -/

theorem ClusterMap.total_eq (m : ClusterMap) :
    ClusterMap.total m = (ClusterMap.members m).length := by
  induction m with
  | nil => rfl
  | cons e rest ih =>
    obtain ⟨k, v⟩ := e
    simp only [ClusterMap.total, List.map_cons, List.sum_cons, ClusterMap.members,
      List.length_append] at ih ⊢
    rw [ih]

/-- Every entry an assignment pass writes for a point is the position of a
centroid. -/
theorem assignmentPass_valid (s : State) (noChange : Bool) (s1 : State)
    (h : assignmentPass s = .ok (noChange, s1)) :
    ∀ i, i < s.data.length →
      ∃ index : Nat, index < s.means.length ∧ s1.cluster_number[i]? = some (index : Int) := by
  intro i hi
  obtain ⟨hl, _⟩ := assignmentPass_ok s noChange s1 h
  obtain ⟨index, hn, hw⟩ := assignLoop_get s.means s.data 0 true s.cluster_number _ hl i
    s.data[i] (List.getElem?_eq_getElem hi)
  simp only [Nat.zero_add] at hw
  exact ⟨index, nearestIndex_lt _ _ _ hn, hw⟩

theorem assignmentPass_frame (s : State) (noChange : Bool) (s1 : State)
    (h : assignmentPass s = .ok (noChange, s1)) :
    s1.data = s.data ∧ s1.means = s.means ∧ s1.cluster_item = s.cluster_item ∧
      s1.cluster_number.length = s.cluster_number.length := by
  obtain ⟨hl, hs⟩ := assignmentPass_ok s noChange s1 h
  refine ⟨by rw [hs], by rw [hs], by rw [hs], ?_⟩
  exact assignLoop_length s.means s.data 0 true s.cluster_number _ hl

/-- A pass that reports no change leaves the whole state as it was. -/
theorem assignmentPass_noChange (s s1 : State) (h : assignmentPass s = .ok (true, s1)) :
    s1 = s := by
  obtain ⟨hl, hs⟩ := assignmentPass_ok s true s1 h
  obtain ⟨_, hcn⟩ := assignLoop_noChange s.means s.data 0 true s.cluster_number _ hl
  rw [hs, hcn]

/-- The state after a full iteration of the loop: the map is ordered, all its
member lists are empty, and the sizes of the vectors are those before. -/
theorem loopBody_invariant (s s2 : State) (hord : ClusterMap.Ordered s.cluster_item)
    (h : loopBody s = .ok (false, s2)) :
    ClusterMap.Ordered s2.cluster_item ∧ ClusterMap.members s2.cluster_item = [] ∧
      s2.cluster_number.length = s.cluster_number.length ∧ s2.data = s.data ∧
      s2.means.length = s.means.length := by
  obtain ⟨s1, s3, hp, hf, hs2⟩ := loopBody_false s s2 h
  obtain ⟨hd1, hm1, hc1, hl1⟩ := assignmentPass_frame s false s1 hp
  obtain ⟨hm, hci, hd3, hcn3⟩ := Find_New_Mean_ok s1 s3 hf
  have hord3 : ClusterMap.Ordered s3.cluster_item := by
    rw [hci]
    exact groupLoop_ordered _ _ _ (by rw [hc1]; exact hord)
  have hlen3 : s3.means.length = s1.means.length := meanLoop_length _ _ _ _ hm
  subst hs2
  refine ⟨clearLoop_ordered _ _ _ hord3, ?_, by simp only; rw [hcn3, hl1],
    by simp only; rw [hd3, hd1], by simp only; rw [hlen3, hm1]⟩
  rw [ClusterMap.members_eq_nil]
  intro e he
  rcases clearLoop_entries _ _ _ hord3 e he with h1 | ⟨h1, h2⟩
  · exact h1
  · exfalso
    apply h2
    rw [hci] at h1
    have := meanLoop_keys _ _ _ _ hm e h1
    rw [hlen3]
    omega

/-- The state in which any iteration of a run from `initialState` starts. -/
theorem stateAt_invariant (data means : List Point) (k : Nat) : ∀ s : State,
    stateAt k (initialState data means) = some s →
    ClusterMap.Ordered s.cluster_item ∧ ClusterMap.members s.cluster_item = [] ∧
      s.cluster_number.length = 10000 ∧ s.data = data ∧ s.means.length = means.length := by
  induction k with
  | zero =>
    intro s h
    simp only [stateAt, Option.some.injEq] at h
    subst h
    refine ⟨?_, rfl, ?_, rfl, rfl⟩
    · exact List.Pairwise.nil
    · simp only [initialState, List.length_replicate]
  | succ k ih =>
    intro s h
    obtain ⟨s0, h0, hl⟩ := stateAt_succ k _ s h
    obtain ⟨i1, _, i3, i4, i5⟩ := ih s0 h0
    obtain ⟨j1, j2, j3, j4, j5⟩ := loopBody_invariant s0 s i1 hl
    exact ⟨j1, j2, by rw [j3, i3], by rw [j4, i4], by rw [j5, i5]⟩

/-- An iteration raises no fault when there are as many points as entries of
`cluster_number`, the points have at most 4 features, the scan of every point
stores an index, and the map holds no member and only keys that are positions
of centroids. -/
theorem loopBody_total (s : State) (hdata : ∀ p ∈ s.data, p.length ≤ 4)
    (hlen : s.cluster_number.length = s.data.length)
    (hnear : ∀ p ∈ s.data, ∃ index : Nat, nearestIndex p s.means = .ok (some index))
    (hci : ∀ e ∈ s.cluster_item, 0 ≤ e.1 ∧ e.1.toNat < s.means.length)
    (hmem : ClusterMap.members s.cluster_item = []) :
    ∃ b s2, loopBody s = .ok (b, s2) := by
  obtain ⟨⟨b, cn1⟩, hr⟩ := assignLoop_total s.means s.data 0 true s.cluster_number hnear
    (by omega)
  have hp : assignmentPass s = .ok (b, { s with cluster_number := cn1 }) := by
    simp only [assignmentPass, hr]
  cases b with
  | true => exact ⟨true, _, (loopBody_true s _).mpr hp⟩
  | false =>
    have hl1 : cn1.length = s.cluster_number.length :=
      assignLoop_length s.means s.data 0 true s.cluster_number _ hr
    obtain ⟨s3, hf⟩ := Find_New_Mean_total { s with cluster_number := cn1 } hdata
      (by simp only; omega)
      (by
        intro c hc
        obtain ⟨i, hi, hget⟩ := List.getElem_of_mem hc
        have hi1 : i < cn1.length := hi
        obtain ⟨index, hlt, hw⟩ := assignmentPass_valid s false _ hp i (by omega)
        simp only at hw
        rw [List.getElem?_eq_getElem hi, hget] at hw
        simp only [Option.some.injEq] at hw
        subst hw
        simp only
        omega)
      hci (by simp only [hmem]; intro idx hidx; simp at hidx)
    exact ⟨false, _, loopBody_of_false s _ s3 hp hf⟩

/-- The first pass of a run over at least one point changes an assignment:
no scan stores the initial -1. -/
theorem first_pass_changes (data means : List Point) (hne : data ≠ []) (s1 : State) :
    assignmentPass (initialState data means) ≠ .ok (true, s1) := by
  intro h
  have hs := assignmentPass_noChange _ _ h
  have hpos : 0 < (initialState data means).data.length := by
    simp only [initialState]
    exact List.length_pos.mpr hne
  obtain ⟨index, _, hw⟩ := assignmentPass_valid _ true s1 h 0 hpos
  rw [hs] at hw
  simp only [initialState] at hw
  rw [List.getElem?_replicate_of_lt (by omega)] at hw
  simp only [Option.some.injEq] at hw
  omega

/-! ## Runs over identical points -/

/-- Over points that are all equal to `p`, with as many entries in
`cluster_number` as points, a pass writes the index stored by the scan of `p`
into every entry. -/
theorem assignmentPass_const (s : State) (p : Point) (j : Nat)
    (hdata : ∀ q ∈ s.data, q = p) (hnear : nearestIndex p s.means = .ok (some j))
    (hlen : s.cluster_number.length = s.data.length) :
    ∃ b, assignmentPass s =
      .ok (b, { s with cluster_number := List.replicate s.data.length (j : Int) }) := by
  obtain ⟨⟨b, cn1⟩, hr⟩ := assignLoop_total s.means s.data 0 true s.cluster_number
    (fun q hq => ⟨j, by rw [hdata q hq]; exact hnear⟩) (by omega)
  have hl1 : cn1.length = s.cluster_number.length :=
    assignLoop_length s.means s.data 0 true s.cluster_number _ hr
  have hcn : cn1 = List.replicate s.data.length (j : Int) := by
    apply List.ext_getElem?
    intro i
    rcases Nat.lt_or_ge i s.data.length with hi | hi
    · obtain ⟨index, hn, hw⟩ := assignLoop_get s.means s.data 0 true s.cluster_number _ hr i
        s.data[i] (List.getElem?_eq_getElem hi)
      rw [hdata _ (List.getElem_mem hi), hnear] at hn
      simp only [Except.ok.injEq, Option.some.injEq] at hn
      simp only [Nat.zero_add] at hw
      rw [hw, List.getElem?_replicate_of_lt hi, hn]
    · rw [List.getElem?_eq_none (by omega), List.getElem?_eq_none (by simpa using hi)]
  refine ⟨b, ?_⟩
  simp only [assignmentPass, hr, hcn]

theorem first_pass_const (data means : List Point) (p : Point) (j : Nat) (hne : data ≠ [])
    (hdata : ∀ q ∈ data, q = p) (hnear : nearestIndex p means = .ok (some j))
    (hlen : data.length = 10000) :
    assignmentPass (initialState data means) =
      .ok (false, { data := data, means := means,
                    cluster_number := List.replicate 10000 (j : Int), cluster_item := [] }) := by
  obtain ⟨b, hb⟩ := assignmentPass_const (initialState data means) p j hdata hnear
    (by simp only [initialState, List.length_replicate, hlen])
  cases b with
  | true => exact absurd hb (first_pass_changes data means hne _)
  | false =>
    rw [hb]
    simp only [initialState, hlen]

/-- A pass that rewrites every entry with the value it already holds keeps
the flag `noChange` it started with. -/
theorem assignLoop_fixed (means : List Point) : ∀ (data : List Point) (i : Nat)
    (noChange : Bool) (cn : List Int) (b : Bool),
    assignLoop means data i (noChange, cn) = .ok (b, cn) → b = noChange := by
  intro data
  induction data with
  | nil =>
    intro i noChange cn b h
    simp only [assignLoop, Except.ok.injEq, Prod.mk.injEq] at h
    exact h.1.symm
  | cons p rest ih =>
    intro i noChange cn b h
    obtain ⟨index, old, _, ho, hrest⟩ := assignLoop_cons_ok means p rest i noChange cn _ h
    have hlt : i < cn.length := by
      rcases Nat.lt_or_ge i cn.length with hl | hl
      · exact hl
      · rw [List.getElem?_eq_none hl] at ho
        simp at ho
    have hfr := assignLoop_frame means rest (i + 1) _ _ _ hrest i (Or.inl (by omega))
    simp only at hfr
    rw [List.getElem?_set_self hlt, ho] at hfr
    simp only [Option.some.injEq] at hfr
    have hset : cn.set i (index : Int) = cn := set_same cn i _ (by rw [ho, hfr])
    rw [hset] at hrest
    have := ih (i + 1) _ cn b hrest
    rw [this]
    simp [hfr]

theorem coordinate_zero (n idx j : Nat) :
    coordinate (List.replicate n ([0, 0, 0, 0] : Point)) idx j = 0 := by
  unfold coordinate
  rcases Nat.lt_or_ge idx n with h | h
  · rw [List.getElem?_replicate_of_lt h]
    simp only [Option.some_bind]
    match j with
    | 0 => rfl
    | 1 => rfl
    | 2 => rfl
    | 3 => rfl
    | j + 4 => rfl
  · rw [List.getElem?_eq_none (by simpa using h)]
    rfl

theorem arithmeticMean_zero (n : Nat) (members : List Nat) :
    arithmeticMean (List.replicate n ([0, 0, 0, 0] : Point)) members = [0, 0, 0, 0] := by
  have hsum : ∀ j, (members.map
      (fun idx => coordinate (List.replicate n ([0, 0, 0, 0] : Point)) idx j)).sum = 0 := by
    intro j
    induction members with
    | nil => rfl
    | cons a rest ih => rw [List.map_cons, List.sum_cons, ih, coordinate_zero, add_zero]
  unfold arithmeticMean
  simp only [hsum, zero_div]
  rfl

theorem groupLoop_replicate (c : Int) : ∀ (n i : Nat) (v : List Nat),
    groupLoop (List.replicate n c) i [(c, v)] = [(c, v ++ List.range' i n)] := by
  intro n
  induction n with
  | zero => intro i v; simp [groupLoop]
  | succ n ih =>
    intro i v
    rw [List.replicate_succ, groupLoop]
    simp only [ClusterMap.pushBack, lt_self_iff_false, if_false, if_true]
    rw [ih, List.range'_succ]
    simp

theorem groupLoop_replicate_nil (c : Int) (n i : Nat) :
    groupLoop (List.replicate (n + 1) c) i [] = [(c, List.range' i (n + 1))] := by
  rw [List.replicate_succ, groupLoop]
  simp only [ClusterMap.pushBack]
  rw [groupLoop_replicate, List.range'_succ]
  simp

theorem Find_New_Mean_single (data : List Point) (cn : List Int) (mean row : Point)
    (members : List Nat) (hg : groupLoop cn 0 [] = [(0, members)])
    (hr : Calculate_Mean data members = .ok row) :
    Find_New_Mean { data := data, means := [mean], cluster_number := cn, cluster_item := [] } =
      .ok { data := data, means := [row], cluster_number := cn,
            cluster_item := [(0, members)] } := by
  simp only [Find_New_Mean, hg, meanLoop, hr]
  simp

/-- The run over 10000 points at the origin with one centroid at the origin:
the first pass assigns every point to cluster 0, the mean update leaves the
centroid at the origin, and the second pass changes nothing. -/
theorem run_of_zero_data :
    stateAt 1 (initialState (List.replicate 10000 [0, 0, 0, 0]) [[0, 0, 0, 0]]) =
      some { data := List.replicate 10000 [0, 0, 0, 0], means := [[0, 0, 0, 0]],
             cluster_number := List.replicate 10000 0, cluster_item := [(0, [])] } ∧
    assignmentPass
        { data := List.replicate 10000 [0, 0, 0, 0], means := [[0, 0, 0, 0]],
          cluster_number := List.replicate 10000 0, cluster_item := [(0, [])] } =
      .ok (true, { data := List.replicate 10000 [0, 0, 0, 0], means := [[0, 0, 0, 0]],
                   cluster_number := List.replicate 10000 0, cluster_item := [(0, [])] }) := by
  have hN : (List.replicate 10000 ([0, 0, 0, 0] : Point)).length = 10000 :=
    List.length_replicate _ _
  have hne : List.replicate 10000 ([0, 0, 0, 0] : Point) ≠ [] := by
    intro h; rw [h] at hN; simp at hN
  have hnear : nearestIndex [0, 0, 0, 0] [[0, 0, 0, 0]] = .ok (some 0) := by decide!
  have hp := first_pass_const (List.replicate 10000 [0, 0, 0, 0]) [[0, 0, 0, 0]] [0, 0, 0, 0] 0
    hne (fun q hq => List.eq_of_mem_replicate hq) hnear hN
  simp only [Nat.cast_zero] at hp
  have hg : groupLoop (List.replicate 10000 (0 : Int)) 0 [] = [(0, List.range' 0 10000)] :=
    groupLoop_replicate_nil 0 9999 0
  obtain ⟨row, hr⟩ := Calculate_Mean_total (List.replicate 10000 [0, 0, 0, 0])
    (fun p hp => by rw [List.eq_of_mem_replicate hp]; decide) (List.range' 0 10000)
    (fun idx hidx => by rw [List.mem_range'_1] at hidx; rw [hN]; omega)
  have hrow : row = [0, 0, 0, 0] := by
    rw [Calculate_Mean_eq _ (fun p hp => by rw [List.eq_of_mem_replicate hp]; rfl) _
      (by rw [List.range'_succ]; simp) row hr, arithmeticMean_zero]
  subst hrow
  have hf : Find_New_Mean
      { data := List.replicate 10000 [0, 0, 0, 0], means := [[0, 0, 0, 0]],
        cluster_number := List.replicate 10000 0, cluster_item := [] } =
      .ok { data := List.replicate 10000 [0, 0, 0, 0], means := [[0, 0, 0, 0]],
            cluster_number := List.replicate 10000 0,
            cluster_item := [(0, List.range' 0 10000)] } :=
    Find_New_Mean_single _ _ _ _ _ hg hr
  have hbody := loopBody_of_false _ _ _ hp hf
  simp only [List.length_singleton, clearLoop, ClusterMap.clear, Nat.cast_zero,
    lt_self_iff_false, if_false, if_true] at hbody
  refine ⟨by rw [stateAt, hbody]; rfl, ?_⟩
  obtain ⟨b, hb⟩ := assignmentPass_const
    { data := List.replicate 10000 [0, 0, 0, 0], means := [[0, 0, 0, 0]],
      cluster_number := List.replicate 10000 0, cluster_item := [(0, [])] }
    [0, 0, 0, 0] 0 (fun q hq => List.eq_of_mem_replicate hq) hnear
    (by simp only [List.length_replicate])
  simp only [hN, Nat.cast_zero] at hb
  have hbt : b = true := by
    obtain ⟨hl, _⟩ := assignmentPass_ok _ _ _ hb
    exact assignLoop_fixed _ _ _ _ _ _ hl
  rw [hb, hbt]

/-- The run ends as `Converged` at the first pass that changes nothing. -/
theorem run_converged (s s0 s1 : State) (k : Nat) (hk : k < MAX)
    (hs : stateAt k s = some s0) (hp : assignmentPass s0 = .ok (true, s1)) :
    K_Means_Parallel s = ⟨k + 1, .Converged s1⟩ := by
  obtain ⟨n, hn⟩ : ∃ n, MAX = k + (n + 1) := ⟨MAX - k - 1, by omega⟩
  rw [K_Means_Parallel, hn, iterate_stateAt k (n + 1) 0 s s0 hs, iterate,
    (loopBody_true s0 s1).mpr hp]
  simp

/-! ## The distance as a function of the coordinates -/

theorem sumSquares_eq : ∀ (p q : Point) (acc : ℚ), p.length ≤ q.length →
    sumSquares p q acc = .ok (acc + squaredDistance p q) := by
  intro p
  induction p with
  | nil => intro q acc _; simp [sumSquares, squaredDistance]
  | cons x xs ih =>
    intro q acc h
    cases q with
    | nil => simp at h
    | cons y ys =>
      simp only [List.length_cons, Nat.add_le_add_iff_right] at h
      rw [sumSquares, ih ys _ h]
      simp only [squaredDistance, List.zipWith_cons_cons, List.sum_cons]
      rw [add_assoc]

theorem sumSquares_short : ∀ (p q : Point) (acc : ℚ), q.length < p.length →
    sumSquares p q acc = .error .outOfBounds := by
  intro p
  induction p with
  | nil => intro q acc h; simp at h
  | cons x xs ih =>
    intro q acc h
    cases q with
    | nil => rfl
    | cons y ys =>
      simp only [List.length_cons, Nat.add_lt_add_iff_right] at h
      rw [sumSquares, ih ys _ h]

theorem Euclidean_Distance_eq (p q : Point) (h : p.length ≤ q.length) :
    Euclidean_Distance p q = .ok ⟨squaredDistance p q⟩ := by
  simp only [Euclidean_Distance, sumSquares_eq p q 0 h, zero_add]

theorem Euclidean_Distance_short (p q : Point) (h : q.length < p.length) :
    Euclidean_Distance p q = .error .outOfBounds := by
  simp only [Euclidean_Distance, sumSquares_short p q 0 h]

theorem squaredDistance_cons (x y : ℚ) (xs ys : Point) :
    squaredDistance (x :: xs) (y :: ys) = (x - y) ^ 2 + squaredDistance xs ys := by
  simp [squaredDistance]

theorem squaredDistance_nonneg : ∀ (p q : Point), 0 ≤ squaredDistance p q := by
  intro p
  induction p with
  | nil => intro q; simp [squaredDistance]
  | cons x xs ih =>
    intro q
    cases q with
    | nil => simp [squaredDistance]
    | cons y ys =>
      rw [squaredDistance_cons]
      have := ih ys
      positivity

theorem squaredDistance_eq_zero : ∀ (p q : Point), p.length = q.length →
    (squaredDistance p q = 0 ↔ p = q) := by
  intro p
  induction p with
  | nil =>
    intro q h
    cases q with
    | nil => simp [squaredDistance]
    | cons y ys => simp at h
  | cons x xs ih =>
    intro q h
    cases q with
    | nil => simp at h
    | cons y ys =>
      simp only [List.length_cons, Nat.add_right_cancel_iff] at h
      have hrest := squaredDistance_nonneg xs ys
      have hsq : 0 ≤ (x - y) ^ 2 := by positivity
      have hcons : squaredDistance (x :: xs) (y :: ys) = (x - y) ^ 2 + squaredDistance xs ys := by
        simp [squaredDistance]
      rw [hcons, List.cons.injEq, ← ih ys h]
      constructor
      · intro h0
        have h1 : (x - y) ^ 2 = 0 := by linarith
        have h2 : squaredDistance xs ys = 0 := by linarith
        exact ⟨by nlinarith [sq_nonneg (x - y), pow_eq_zero_iff (n := 2) (a := x - y) (by norm_num) |>.mp h1], h2⟩
      · rintro ⟨h1, h2⟩
        rw [h1, h2]; simp

theorem squaredDistance_take (p q : Point) :
    squaredDistance p (q.take p.length) = squaredDistance p q := by
  induction p generalizing q with
  | nil => simp [squaredDistance]
  | cons x xs ih =>
    cases q with
    | nil => simp [squaredDistance]
    | cons y ys =>
      simp only [List.length_cons, List.take_succ_cons]
      have h1 : ∀ zs : Point, squaredDistance (x :: xs) (y :: zs) =
          (x - y) ^ 2 + squaredDistance xs zs := by
        intro zs; simp [squaredDistance]
      rw [h1, h1, ih]

/-! ## What the truncated running minimum guarantees -/

theorem scanMeans_total (point : Point) : ∀ (means : List Point) (j : Nat)
    (s : Int × Option Nat),
    (∀ mean ∈ means, ∃ d, Euclidean_Distance point mean = .ok d) →
    ∃ r, scanMeans point means j s = .ok r := by
  intro means
  induction means with
  | nil => intro j s _; exact ⟨s, rfl⟩
  | cons mean rest ih =>
    intro j s h
    obtain ⟨minimum, index⟩ := s
    obtain ⟨d, hd⟩ := h mean (List.mem_cons_self _ _)
    rw [scanMeans_cons point mean rest j minimum index d hd]
    split
    · exact ih _ _ (fun m hm => h m (List.mem_cons_of_mem _ hm))
    · exact ih _ _ (fun m hm => h m (List.mem_cons_of_mem _ hm))

/-- The state in which a scan ends: `minimum` has not grown, no visited
centroid is at a distance below it, and either nothing was stored or `index`
is the position of a visited centroid and `minimum` its truncated distance. -/
theorem scanMeans_bound (point : Point) : ∀ (means : List Point) (j : Nat) (minimum : Int)
    (index : Option Nat) (r : Int × Option Nat),
    scanMeans point means j (minimum, index) = .ok r →
    r.1 ≤ minimum ∧
    (∀ mean ∈ means, ∀ d, Euclidean_Distance point mean = .ok d → d.ltInt r.1 = false) ∧
    ((r.1 = minimum ∧ r.2 = index) ∨
      ∃ k c dc, r.2 = some k ∧ j ≤ k ∧ means[k - j]? = some c ∧
        Euclidean_Distance point c = .ok dc ∧ r.1 = dc.toInt) := by
  intro means
  induction means with
  | nil =>
    intro j minimum index r h
    simp only [scanMeans, Except.ok.injEq] at h
    subst h
    exact ⟨le_refl _, fun m hm => by simp at hm, Or.inl ⟨rfl, rfl⟩⟩
  | cons mean rest ih =>
    intro j minimum index r h
    obtain ⟨distance, hd⟩ := scanMeans_cons_ok point mean rest j minimum index r h
    rw [scanMeans_cons point mean rest j minimum index distance hd] at h
    have hnn := Euclidean_Distance_nonneg _ _ _ hd
    have hblock : ∀ m : Int, r.1 ≤ m → distance.ltInt m = false → ∀ m1 ∈ mean :: rest,
        (∀ m2 ∈ rest, ∀ d, Euclidean_Distance point m2 = .ok d → d.ltInt r.1 = false) →
        ∀ d, Euclidean_Distance point m1 = .ok d → d.ltInt r.1 = false := by
      intro m hle hm m1 hm1 hrest d hd1
      rcases List.mem_cons.mp hm1 with h1 | h1
      · subst h1
        rw [hd] at hd1
        simp only [Except.ok.injEq] at hd1
        subst hd1
        rw [Bool.eq_false_iff]
        intro hcon
        have := Root.ltInt_mono distance m r.1 hle hcon
        rw [hm] at this
        exact Bool.false_ne_true this
      · exact hrest m1 h1 d hd1
    split at h
    · next hlt =>
      obtain ⟨h1, h2, h3⟩ := ih (j + 1) _ _ r h
      have hlt1 := Root.toInt_lt distance hnn minimum hlt
      refine ⟨by omega, ?_, Or.inr ?_⟩
      · intro m1 hm1 d hd1
        exact hblock distance.toInt h1 (Root.ltInt_toInt distance hnn) m1 hm1 h2 d hd1
      · rcases h3 with ⟨h4, h5⟩ | ⟨k, c, dc, h4, h5, h6, h7, h8⟩
        · exact ⟨j, mean, distance, h5, le_refl _, by simp, hd, h4⟩
        · refine ⟨k, c, dc, h4, by omega, ?_, h7, h8⟩
          have : k - j = (k - (j + 1)) + 1 := by omega
          rw [this, List.getElem?_cons_succ]
          exact h6
    · next hlt =>
      obtain ⟨h1, h2, h3⟩ := ih (j + 1) _ _ r h
      refine ⟨h1, ?_, ?_⟩
      · intro m1 hm1 d hd1
        exact hblock minimum h1 (by simpa using hlt) m1 hm1 h2 d hd1
      · rcases h3 with h4 | ⟨k, c, dc, h4, h5, h6, h7, h8⟩
        · exact Or.inl h4
        · refine Or.inr ⟨k, c, dc, h4, by omega, ?_, h7, h8⟩
          have : k - j = (k - (j + 1)) + 1 := by omega
          rw [this, List.getElem?_cons_succ]
          exact h6

theorem nearestIndex_of_scan (point : Point) (means : List Point) (r : Int × Option Nat)
    (h : scanMeans point means 0 (INT_MAX, none) = .ok r) :
    nearestIndex point means = .ok r.2 := by
  simp only [nearestIndex, h]

/-! ## Scans that can store nothing more -/

/-- Once `minimum` is zero or less, the test `minimum > distance` fails for
every centroid. -/
theorem scanMeans_locked (point : Point) : ∀ (means : List Point) (j : Nat) (minimum : Int)
    (index : Option Nat), minimum ≤ 0 →
    (∀ mean ∈ means, ∃ d, Euclidean_Distance point mean = .ok d) →
    scanMeans point means j (minimum, index) = .ok (minimum, index) := by
  intro means
  induction means with
  | nil => intro j minimum index _ _; rfl
  | cons mean rest ih =>
    intro j minimum index hmin h
    obtain ⟨d, hd⟩ := h mean (List.mem_cons_self _ _)
    rw [scanMeans_cons point mean rest j minimum index d hd]
    have hfalse : d.ltInt minimum = false := by
      simp only [Root.ltInt, decide_eq_false_iff_not, not_and]
      intro hpos; omega
    rw [hfalse]
    simp only [Bool.false_eq_true, if_false]
    exact ih _ _ _ hmin (fun m hm => h m (List.mem_cons_of_mem _ hm))

/-- The scan of a point that is itself one of the centroids stores an
index. -/
theorem nearestIndex_of_mem (point : Point) (means : List Point) (hmem : point ∈ means)
    (hlen : ∀ mean ∈ means, point.length ≤ mean.length) :
    ∃ k, nearestIndex point means = .ok (some k) := by
  obtain ⟨r, hr⟩ := scanMeans_total point means 0 (INT_MAX, none)
    (fun m hm => ⟨_, Euclidean_Distance_eq point m (hlen m hm)⟩)
  obtain ⟨_, h2, h3⟩ := scanMeans_bound point means 0 INT_MAX none r hr
  rcases h3 with ⟨h4, _⟩ | ⟨k, _, _, h4, _, _, _, _⟩
  · exfalso
    have hfalse := h2 point hmem _ (Euclidean_Distance_eq point point le_rfl)
    rw [h4, (squaredDistance_eq_zero point point rfl).mpr rfl] at hfalse
    have : Root.ltInt ⟨0⟩ INT_MAX = true := by decide!
    rw [hfalse] at this
    exact Bool.false_ne_true this
  · exact ⟨k, by rw [nearestIndex_of_scan point means r hr, h4]⟩

theorem assignmentPass_initial (data means : List Point) (b : Bool) (cn1 : List Int)
    (hr : assignLoop means data 0 (true, List.replicate 10000 (-1)) = .ok (b, cn1)) :
    assignmentPass (initialState data means) =
      .ok (b, { data := data, means := means, cluster_number := cn1, cluster_item := [] }) :=
  assignmentPass_of_loop (initialState data means) b cn1 hr

theorem map_range_succ {α : Type} (f : Nat → α) (n : Nat) :
    (List.range (n + 1)).map f = f 0 :: (List.range n).map (fun i => f (i + 1)) := by
  rw [List.range_succ_eq_map, List.map_cons, List.map_map]
  rfl

theorem linePoints_length (n : Nat) : (linePoints n).length = n := by
  simp only [linePoints, List.length_map, List.length_range]

theorem linePoints_dim (n : Nat) : ∀ p ∈ linePoints n, p.length = 4 := by
  intro p hp
  simp only [linePoints, List.mem_map] at hp
  obtain ⟨i, _, hi⟩ := hp
  rw [← hi]; rfl

theorem linePoints_nodup (n : Nat) : (linePoints n).Nodup := by
  unfold linePoints
  apply List.Nodup.map _ (List.nodup_range _)
  intro i j hij
  simp only [List.cons.injEq, and_true] at hij
  have h2 : (2 : ℚ) ≠ 0 := by norm_num
  have := (div_left_inj' h2).mp hij
  exact_mod_cast this

theorem linePoints_get (n i : Nat) (h : i < n) :
    (linePoints n)[i]? = some [(i : ℚ) / 2, 0, 0, 0] := by
  simp only [linePoints, List.getElem?_map, List.getElem?_range h, Option.map_some']

/-- The scan of the record `(1/2,0,0,0)` over the records of `linePoints` as
centroids stops at centroid 0: its distance 1/2 is truncated to 0. -/
theorem linePoints_scan_one (n : Nat) :
    nearestIndex [1 / 2, 0, 0, 0] (linePoints (n + 1)) = .ok (some 0) := by
  have hcons : linePoints (n + 1) = [((0 : Nat) : ℚ) / 2, 0, 0, 0] ::
      (List.range n).map (fun i => [((i + 1 : Nat) : ℚ) / 2, 0, 0, 0]) :=
    map_range_succ (fun i => [(i : ℚ) / 2, 0, 0, 0]) n
  have hd : Euclidean_Distance [1 / 2, 0, 0, 0] [((0 : Nat) : ℚ) / 2, 0, 0, 0] = .ok ⟨1 / 4⟩ := by
    decide!
  have hlt : Root.ltInt ⟨1 / 4⟩ INT_MAX = true := by decide!
  have hto : Root.toInt ⟨1 / 4⟩ = 0 := by decide!
  have hlock := scanMeans_locked [1 / 2, 0, 0, 0]
    ((List.range n).map (fun i => [((i + 1 : Nat) : ℚ) / 2, 0, 0, 0])) 1 0 (some 0) le_rfl
    (by
      intro m hm
      obtain ⟨i, _, hi⟩ := List.mem_map.mp hm
      exact ⟨_, Euclidean_Distance_eq _ m (by rw [← hi]; simp)⟩)
  rw [nearestIndex, hcons, scanMeans_cons _ _ _ _ _ _ _ hd, hlt]
  simp only [if_true, hto, Nat.zero_add, hlock]

/-! ## The seeding step of `main` -/

theorem seedLoop_eq (data : List Point) : ∀ (n i : Nat) (means : List Point),
    (∀ t, i ≤ t → t < i + n → t * 100 < data.length) →
    seedLoop data n i means =
      .ok (means ++ (List.range' i n).map (fun t => data.getD (t * 100) [])) := by
  intro n
  induction n with
  | zero => intro i means _; simp [seedLoop]
  | succ n ih =>
    intro i means h
    have hi : i * 100 < data.length := h i le_rfl (by omega)
    rw [seedLoop, List.getElem?_eq_getElem hi]
    simp only
    rw [ih (i + 1) _ (fun t h1 h2 => h t (by omega) (by omega)), List.range'_succ,
      List.map_cons, List.append_assoc, List.singleton_append,
      List.getD_eq_getElem _ _ hi]

/-! ## Reading a record -/

theorem firstComma_append : ∀ (a rest : List Char), ',' ∉ a →
    firstComma (a ++ ',' :: rest) = some a.length := by
  intro a
  induction a with
  | nil => intro rest _; simp [firstComma]
  | cons x xs ih =>
    intro rest h
    simp only [List.mem_cons, not_or] at h
    have hx : x ≠ ',' := fun hc => h.1 hc.symm
    rw [List.cons_append, firstComma, if_neg hx, ih rest h.2]
    rfl

theorem lastComma_none : ∀ c : List Char, ',' ∉ c → lastComma c = none := by
  intro c
  induction c with
  | nil => intro _; rfl
  | cons x xs ih =>
    intro h
    simp only [List.mem_cons, not_or] at h
    have hx : x ≠ ',' := fun hc => h.1 hc.symm
    simp only [lastComma, ih h.2, hx, if_false]

theorem lastComma_append : ∀ (pre c : List Char), ',' ∉ c →
    lastComma (pre ++ ',' :: c) = some pre.length := by
  intro pre
  induction pre with
  | nil =>
    intro c h
    simp only [List.nil_append, lastComma, lastComma_none c h, if_true, List.length_nil]
  | cons x xs ih =>
    intro c h
    rw [List.cons_append, lastComma, ih c h]
    rfl

theorem tokenLoop_field (stod : List Char → Option ℚ) : ∀ (field temp rest : List Char)
    (row : List ℚ) (value : ℚ), ',' ∉ field → stod (temp ++ field) = some value →
    tokenLoop stod (field ++ ',' :: rest) temp row = tokenLoop stod rest [] (row ++ [value]) := by
  intro field
  induction field with
  | nil =>
    intro temp rest row value _ hv
    rw [List.append_nil] at hv
    simp only [List.nil_append, tokenLoop, if_true, hv]
  | cons x xs ih =>
    intro temp rest row value h hv
    simp only [List.mem_cons, not_or] at h
    have hx : x ≠ ',' := fun hc => h.1 hc.symm
    simp only [List.cons_append, tokenLoop, hx, if_false]
    exact ih (temp ++ [x]) rest row value h.2 (by simpa using hv)

theorem tokenLoop_fields (stod : List Char → Option ℚ) (fields : List (List Char))
    (values : List ℚ)
    (h : List.Forall₂ (fun field value => ',' ∉ field ∧ stod field = some value) fields values) :
    ∀ row : List ℚ,
      tokenLoop stod (fields.flatMap (fun field => field ++ [','])) [] row =
        .ok (row ++ values) := by
  induction h with
  | nil => intro row; simp [tokenLoop]
  | cons hfv _ ih =>
    intro row
    rw [List.flatMap_cons, List.append_assoc, List.singleton_append,
      tokenLoop_field stod _ [] _ row _ hfv.1 (by simpa using hfv.2), ih]
    simp

theorem tokenLoop_unterminated (stod : List Char → Option ℚ) : ∀ (field temp : List Char)
    (row : List ℚ), field ≠ [] → ',' ∉ field →
    tokenLoop stod field temp row = .error .outOfBounds := by
  intro field
  induction field with
  | nil => intro temp row h _; exact absurd rfl h
  | cons x xs ih =>
    intro temp row _ h
    simp only [List.mem_cons, not_or] at h
    have hx : x ≠ ',' := fun hc => h.1 hc.symm
    rw [tokenLoop, if_neg hx]
    cases xs with
    | nil =>
      cases htemp : temp ++ [x] with
      | nil => simp at htemp
      | cons y ys => rfl
    | cons y ys => exact ih _ row (by simp) h.2

/-! ## Passes and mean updates computed from the data -/

/-- When the scan of every point `p` stores `f p`, a pass writes `f p` for
each point and leaves the entries of `cluster_number` beyond the points. -/
theorem assignmentPass_map (s : State) (f : Point → Nat)
    (hnear : ∀ p ∈ s.data, nearestIndex p s.means = .ok (some (f p)))
    (hlen : s.data.length ≤ s.cluster_number.length) :
    ∃ b, assignmentPass s =
      .ok (b, { s with cluster_number :=
        (s.data.map (fun p => (f p : Int)) ++ s.cluster_number.drop s.data.length) }) := by
  obtain ⟨⟨b, cn1⟩, hr⟩ := assignLoop_total s.means s.data 0 true s.cluster_number
    (fun q hq => ⟨f q, hnear q hq⟩) (by omega)
  have hl1 : cn1.length = s.cluster_number.length :=
    assignLoop_length s.means s.data 0 true s.cluster_number _ hr
  have hcn : cn1 = s.data.map (fun p => (f p : Int)) ++ s.cluster_number.drop s.data.length := by
    apply List.ext_getElem?
    intro i
    rcases Nat.lt_or_ge i s.data.length with hi | hi
    · obtain ⟨index, hn, hw⟩ := assignLoop_get s.means s.data 0 true s.cluster_number _ hr i
        s.data[i] (List.getElem?_eq_getElem hi)
      rw [hnear _ (List.getElem_mem hi)] at hn
      simp only [Except.ok.injEq, Option.some.injEq] at hn
      simp only [Nat.zero_add] at hw
      rw [hw, List.getElem?_append_left (by simpa using hi), List.getElem?_map,
        List.getElem?_eq_getElem hi, Option.map_some', hn]
    · have := assignLoop_frame s.means s.data 0 true s.cluster_number _ hr i
        (Or.inr (by omega))
      simp only at this
      rw [this, List.getElem?_append_right (by simpa using hi), List.getElem?_drop,
        List.length_map]
      congr 1
      omega
  exact ⟨b, by simp only [assignmentPass, hr, hcn]⟩

/-- The first pass of a run when the scan of every point `p` stores `f p`. -/
theorem first_pass_map (data means : List Point) (f : Point → Nat) (hne : data ≠ [])
    (hnear : ∀ p ∈ data, nearestIndex p means = .ok (some (f p)))
    (hlen : data.length ≤ 10000) :
    assignmentPass (initialState data means) =
      .ok (false, { data := data, means := means,
                    cluster_number := data.map (fun p => (f p : Int)) ++
                      List.replicate (10000 - data.length) (-1),
                    cluster_item := [] }) := by
  obtain ⟨b, hb⟩ := assignmentPass_map (initialState data means) f hnear
    (by simp only [initialState, List.length_replicate]; exact hlen)
  cases b with
  | true => exact absurd hb (first_pass_changes data means hne _)
  | false =>
    rw [hb]
    simp only [initialState, List.drop_replicate]

theorem nearestIndex_single (point mean : Point) (d : Root)
    (hd : Euclidean_Distance point mean = .ok d) (hlt : d.ltInt INT_MAX = true) :
    nearestIndex point [mean] = .ok (some 0) := by
  simp only [nearestIndex, scanMeans, hd, hlt, if_true]

theorem groupLoop_append : ∀ (a b : List Int) (i : Nat) (m : ClusterMap),
    groupLoop (a ++ b) i m = groupLoop b (i + a.length) (groupLoop a i m) := by
  intro a
  induction a with
  | nil => intro b i m; simp [groupLoop]
  | cons c rest ih =>
    intro b i m
    rw [List.cons_append, groupLoop, groupLoop, ih, List.length_cons,
      show i + 1 + rest.length = i + (rest.length + 1) by omega]

theorem groupLoop_replicate_tail (c : Int) (tail : ClusterMap) : ∀ (n i : Nat) (v : List Nat),
    groupLoop (List.replicate n c) i ((c, v) :: tail) = (c, v ++ List.range' i n) :: tail := by
  intro n
  induction n with
  | zero => intro i v; simp [groupLoop]
  | succ n ih =>
    intro i v
    rw [List.replicate_succ, groupLoop]
    simp only [ClusterMap.pushBack, lt_self_iff_false, if_false, if_true]
    rw [ih, List.range'_succ]
    simp

theorem Calculate_Mean_oob (data : List Point) (idx : Nat) (rest : List Nat)
    (h : data[idx]? = none) : Calculate_Mean data (idx :: rest) = .error .outOfBounds := by
  simp only [Calculate_Mean, sumLoop, h]

theorem iterate_fault (n p : Nat) (s : State) (e : Fault) (h : loopBody s = .error e) :
    iterate (n + 1) p s = ⟨p + 1, .Undefined e⟩ := by
  simp only [iterate, h]

theorem loopBody_fault_of_mean (s s1 : State) (e : Fault)
    (hp : assignmentPass s = .ok (false, s1)) (hf : Find_New_Mean s1 = .error e) :
    loopBody s = .error e := by
  simp only [loopBody, hp, Bool.false_eq_true, if_false, hf]

/-- The run over fewer than 10000 points at the origin with one centroid: the
first mean update reads `data[n]`, an index listed under the key -1. -/
theorem run_of_short_data (n : Nat) (h0 : 0 < n) (hn : n < 10000) :
    K_Means_Parallel (initialState (List.replicate n [0, 0, 0, 0]) [[0, 0, 0, 0]]) =
      ⟨1, .Undefined .outOfBounds⟩ := by
  have hN : (List.replicate n ([0, 0, 0, 0] : Point)).length = n :=
    List.length_replicate _ _
  have hne : List.replicate n ([0, 0, 0, 0] : Point) ≠ [] := by
    intro h; rw [h] at hN; simp at hN; omega
  have hp := first_pass_map (List.replicate n [0, 0, 0, 0]) [[0, 0, 0, 0]] (fun _ => 0) hne
    (fun p hp => by rw [List.eq_of_mem_replicate hp]; decide!) (by rw [hN]; omega)
  rw [hN, List.map_replicate] at hp
  obtain ⟨n1, hn1⟩ : ∃ n1, n = n1 + 1 := ⟨n - 1, by omega⟩
  obtain ⟨m, hm⟩ : ∃ m, 10000 - n = m + 1 := ⟨10000 - n - 1, by omega⟩
  have hg : groupLoop (List.replicate n ((0 : Nat) : Int) ++ List.replicate (10000 - n) (-1))
      0 [] = [(-1, [n] ++ List.range' (n + 1) m), (0, List.range' 0 n)] := by
    rw [groupLoop_append, hm, hn1, groupLoop_replicate_nil, List.length_replicate,
      List.replicate_succ, groupLoop]
    simp only [ClusterMap.pushBack, Nat.cast_zero]
    rw [if_pos (by decide)]
    simpa using groupLoop_replicate_tail (-1) [(0, List.range' 0 (n1 + 1))] m (n1 + 1 + 1)
      [n1 + 1]
  have hf : Find_New_Mean
      { data := List.replicate n [0, 0, 0, 0], means := [[0, 0, 0, 0]],
        cluster_number := List.replicate n ((0 : Nat) : Int) ++
          List.replicate (10000 - n) (-1),
        cluster_item := [] } = .error .outOfBounds := by
    simp only [Find_New_Mean, hg, meanLoop, List.singleton_append]
    rw [Calculate_Mean_oob _ n _ (List.getElem?_eq_none (by rw [hN]))]
  exact iterate_fault 9999 0 _ _ (loopBody_fault_of_mean _ _ _ hp hf)

theorem stateAt_one (s s2 : State) (h : loopBody s = .ok (false, s2)) :
    stateAt 1 s = some s2 := by
  simp only [stateAt, h]

/-- When the scan of every point stores the same index `j`, a pass writes `j`
for every point. -/
theorem assignmentPass_all (s : State) (j : Nat)
    (hnear : ∀ p ∈ s.data, nearestIndex p s.means = .ok (some j))
    (hlen : s.cluster_number.length = s.data.length) :
    ∃ b, assignmentPass s =
      .ok (b, { s with cluster_number := List.replicate s.data.length (j : Int) }) := by
  obtain ⟨b, hb⟩ := assignmentPass_map s (fun _ => j) hnear (by omega)
  refine ⟨b, ?_⟩
  rw [hb, List.drop_of_length_le (by omega), List.append_nil]
  congr 3
  exact List.map_const' _ _

/-- The run with one centroid over 10000 points of at most 4 features, all
within `INT_MAX` of the centroid and of the centroid the first mean update
produces: two passes, the second of which changes nothing. -/
theorem run_of_one_centroid (data : List Point) (c : Point) (hN : data.length = 10000)
    (hdim : ∀ p ∈ data, p.length ≤ 4)
    (h1 : ∀ p ∈ data, ∃ d, Euclidean_Distance p c = .ok d ∧
      Real.sqrt (d.radicand : ℝ) < (INT_MAX : ℝ))
    (h2 : ∀ s2, stateAt 1 (initialState data [c]) = some s2 → ∀ p ∈ data, ∀ m ∈ s2.means,
      ∃ d, Euclidean_Distance p m = .ok d ∧ Real.sqrt (d.radicand : ℝ) < (INT_MAX : ℝ)) :
    ∃ s1 f, assignmentPass (initialState data [c]) = .ok (false, s1) ∧
      s1.cluster_number = List.replicate 10000 0 ∧
      stateAt 1 (initialState data [c]) = some f ∧
      assignmentPass f = .ok (true, f) ∧
      f.cluster_number = List.replicate 10000 0 := by
  have hne : data ≠ [] := by
    intro h; rw [h] at hN; simp at hN
  have hnear1 : ∀ p ∈ data, nearestIndex p [c] = .ok (some 0) := by
    intro p hp
    obtain ⟨d, hd, hlt⟩ := h1 p hp
    exact nearestIndex_single p c d hd
      ((Root.ltInt_iff d (Euclidean_Distance_nonneg _ _ _ hd) INT_MAX).mpr hlt)
  have hp1 := first_pass_map data [c] (fun _ => 0) hne hnear1 (by omega)
  rw [hN, Nat.sub_self, List.replicate_zero, List.append_nil, List.map_const', hN] at hp1
  simp only [Nat.cast_zero] at hp1
  obtain ⟨s3, hf⟩ := Find_New_Mean_total
    { data := data, means := [c], cluster_number := List.replicate 10000 (0 : Int),
      cluster_item := [] } hdim
    (by simp only [List.length_replicate, hN]; exact le_refl _)
    (fun x hx => by rw [List.eq_of_mem_replicate hx]; simp)
    (fun e he => by simp at he)
    (fun idx hidx => by simp [ClusterMap.members] at hidx)
  obtain ⟨hm, _, hd3, hcn3⟩ := Find_New_Mean_ok _ s3 hf
  have hbody := loopBody_of_false _ _ s3 hp1 hf
  have hst := stateAt_one _ _ hbody
  have hlen3 : s3.means.length = 1 := by
    rw [meanLoop_length _ _ _ _ hm]; rfl
  obtain ⟨m, hmm⟩ := List.length_eq_one.mp hlen3
  have hnear2 : ∀ p ∈ s3.data, nearestIndex p s3.means = .ok (some 0) := by
    intro p hp
    rw [hd3] at hp
    obtain ⟨d, hd, hlt⟩ := h2 _ hst p hp m (by simp only; rw [hmm]; simp)
    rw [hmm]
    exact nearestIndex_single p m d hd
      ((Root.ltInt_iff d (Euclidean_Distance_nonneg _ _ _ hd) INT_MAX).mpr hlt)
  obtain ⟨b, hb⟩ := assignmentPass_all
    { s3 with cluster_item := clearLoop s3.means.length 0 s3.cluster_item } 0 hnear2
    (by simp only; rw [hcn3, hd3]; simp only [List.length_replicate, hN])
  have hsame : ({ s3 with cluster_item := clearLoop s3.means.length 0 s3.cluster_item } :
      State).cluster_number = List.replicate 10000 0 := hcn3
  have hfix : ({ { s3 with cluster_item := clearLoop s3.means.length 0 s3.cluster_item } with
      cluster_number := List.replicate
        ({ s3 with cluster_item := clearLoop s3.means.length 0 s3.cluster_item } :
          State).data.length ((0 : Nat) : Int) } : State) =
      { s3 with cluster_item := clearLoop s3.means.length 0 s3.cluster_item } := by
    simp only [hd3, hN, Nat.cast_zero, hcn3]
  rw [hfix] at hb
  have hbt : b = true := by
    obtain ⟨hl, _⟩ := assignmentPass_ok _ _ _ hb
    exact assignLoop_fixed _ _ _ _ _ _ hl
  rw [hbt] at hb
  exact ⟨_, _, hp1, rfl, hst, hb, hsame⟩

/-! ## A run in which reassignment increases the within-cluster sum -/

theorem lloydPoints_length (n1 n2 : Nat) : (lloydPoints n1 n2).length = n1 + 2 + n2 := by
  simp only [lloydPoints, List.length_append, List.length_replicate, List.length_cons,
    List.length_nil]

theorem lloydAssignment_length (n1 n2 : Nat) (a b : Int) :
    (lloydAssignment n1 n2 a b).length = n1 + 2 + n2 := by
  simp only [lloydAssignment, List.length_append, List.length_replicate, List.length_cons,
    List.length_nil]

theorem lloydPoints_dim (n1 n2 : Nat) : ∀ p ∈ lloydPoints n1 n2, p.length = 4 := by
  intro p hp
  simp only [lloydPoints, List.mem_append, List.mem_replicate, List.mem_cons,
    List.mem_singleton, List.not_mem_nil, or_false] at hp
  rcases hp with (⟨_, h⟩ | h | h) | ⟨_, h⟩ <;> rw [h] <;> rfl

theorem lloydPoints_get_origin (n1 n2 idx : Nat)
    (h : idx < n1 ∨ (n1 + 2 ≤ idx ∧ idx < n1 + 2 + n2)) :
    (lloydPoints n1 n2)[idx]? = some [0, 0, 0, 0] := by
  unfold lloydPoints
  rcases h with h | ⟨h1, h2⟩
  · rw [List.append_assoc, List.getElem?_append_left (by simpa using h),
      List.getElem?_replicate_of_lt h]
  · rw [List.getElem?_append_right (by simp; omega), List.getElem?_replicate_of_lt]
    simp only [List.length_append, List.length_replicate, List.length_cons,
      List.length_singleton, List.length_nil]
    omega

theorem lloydPoints_get_first (n1 n2 : Nat) :
    (lloydPoints n1 n2)[n1]? = some [3 / 2, 0, 0, 0] := by
  unfold lloydPoints
  rw [List.append_assoc, List.getElem?_append_right (by simp)]
  simp

theorem lloydPoints_get_second (n1 n2 : Nat) :
    (lloydPoints n1 n2)[n1 + 1]? = some [7 / 2, 0, 0, 0] := by
  unfold lloydPoints
  rw [List.append_assoc, List.getElem?_append_right (by simp)]
  simp

/-- A pass over `lloydPoints` when the scans of the three distinct records
store 0, `a` and `b`. -/
theorem lloyd_pass (n1 n2 : Nat) (means : List Point) (cn : List Int) (ci : ClusterMap)
    (a b : Nat) (hz : nearestIndex [0, 0, 0, 0] means = .ok (some 0))
    (hp : nearestIndex [3 / 2, 0, 0, 0] means = .ok (some a))
    (hq : nearestIndex [7 / 2, 0, 0, 0] means = .ok (some b))
    (hlen : cn.length = n1 + 2 + n2) :
    ∃ noChange, assignmentPass
        { data := lloydPoints n1 n2, means := means, cluster_number := cn, cluster_item := ci } =
      .ok (noChange, { data := lloydPoints n1 n2, means := means,
                       cluster_number := lloydAssignment n1 n2 a b, cluster_item := ci }) := by
  have hpz : ([3 / 2, 0, 0, 0] : Point) ≠ [0, 0, 0, 0] := by decide!
  have hqz : ([7 / 2, 0, 0, 0] : Point) ≠ [0, 0, 0, 0] := by decide!
  have hqp : ([7 / 2, 0, 0, 0] : Point) ≠ [3 / 2, 0, 0, 0] := by decide!
  obtain ⟨nc, h⟩ := assignmentPass_map
    { data := lloydPoints n1 n2, means := means, cluster_number := cn, cluster_item := ci }
    (fun x => if x = [0, 0, 0, 0] then 0 else if x = [3 / 2, 0, 0, 0] then a else b)
    (by
      intro x hx
      simp only [lloydPoints, List.mem_append, List.mem_replicate, List.mem_cons,
        List.mem_singleton, List.not_mem_nil, or_false] at hx
      rcases hx with (⟨_, h⟩ | h | h) | ⟨_, h⟩
      · rw [h]; beta_reduce; rw [if_pos rfl]; exact hz
      · rw [h]; beta_reduce; rw [if_neg hpz, if_pos rfl]; exact hp
      · rw [h]; beta_reduce; rw [if_neg hqz, if_neg hqp]; exact hq
      · rw [h]; beta_reduce; rw [if_pos rfl]; exact hz)
    (by simp only [lloydPoints_length, hlen]; exact le_refl _)
  refine ⟨nc, ?_⟩
  rw [h]
  simp only [lloydPoints_length]
  rw [List.drop_of_length_le (by omega), List.append_nil]
  simp only [lloydPoints, lloydAssignment, List.map_append, List.map_replicate, List.map_cons,
    List.map_nil, if_true, if_neg hpz, if_neg hqz, if_neg hqp, Nat.cast_zero]

theorem lloyd_group (n1 n2 : Nat) :
    groupLoop (lloydAssignment (n1 + 1) n2 1 1) 0 [] =
      [(0, List.range' 0 (n1 + 1) ++ List.range' (n1 + 3) n2), (1, [n1 + 1, n1 + 2])] := by
  unfold lloydAssignment
  rw [groupLoop_append, groupLoop_append, groupLoop_replicate_nil]
  simp only [groupLoop, ClusterMap.pushBack, List.length_replicate, List.length_cons,
    List.length_singleton, List.length_nil, Nat.zero_add]
  rw [if_neg (by decide), if_neg (by decide)]
  simp only [if_neg (show ¬ ((1 : Int) < 1) by decide), if_true, List.singleton_append]
  rw [groupLoop_replicate_tail]
  simp [Nat.add_assoc]

theorem coordinate_of_origin (data : List Point) (idx j : Nat)
    (h : data[idx]? = some [0, 0, 0, 0]) : coordinate data idx j = 0 := by
  unfold coordinate
  rw [h]
  simp only [Option.some_bind]
  match j with
  | 0 => rfl
  | 1 => rfl
  | 2 => rfl
  | 3 => rfl
  | j + 4 => rfl

/-- The mean of records that are all at the origin is the origin. -/
theorem Calculate_Mean_origin (data : List Point) (hdim : ∀ p ∈ data, p.length = 4)
    (indices : List Nat) (h : ∀ idx ∈ indices, data[idx]? = some [0, 0, 0, 0]) :
    Calculate_Mean data indices = .ok [0, 0, 0, 0] := by
  by_cases hne : indices = []
  · rw [hne]; exact Calculate_Mean_nil data
  · obtain ⟨row, hr⟩ := Calculate_Mean_total data (fun p hp => le_of_eq (hdim p hp)) indices
      (fun idx hidx => by
        rcases Nat.lt_or_ge idx data.length with hl | hl
        · exact hl
        · have := h idx hidx
          rw [List.getElem?_eq_none hl] at this
          simp at this)
    rw [hr, Calculate_Mean_eq data hdim indices hne row hr]
    have hsum : ∀ j, (indices.map (fun idx => coordinate data idx j)).sum = 0 := by
      intro j
      have : ∀ l : List Nat, (∀ idx ∈ l, data[idx]? = some [0, 0, 0, 0]) →
          (l.map (fun idx => coordinate data idx j)).sum = 0 := by
        intro l
        induction l with
        | nil => intro _; rfl
        | cons a rest ih =>
          intro hl
          rw [List.map_cons, List.sum_cons, ih (fun i hi => hl i (List.mem_cons_of_mem _ hi)),
            coordinate_of_origin data a j (hl a (List.mem_cons_self _ _)), add_zero]
      exact this indices h
    unfold arithmeticMean
    simp only [hsum, zero_div]
    rfl

/-- The mean of two listed records depends on the two records only. -/
theorem Calculate_Mean_pair (data : List Point) (i j : Nat) (x y : Point)
    (hi : data[i]? = some x) (hj : data[j]? = some y) :
    Calculate_Mean data [i, j] = Calculate_Mean [x, y] [0, 1] := by
  simp only [Calculate_Mean, sumLoop, hi, hj, List.getElem?_cons_zero, List.getElem?_cons_succ,
    List.length_cons, List.length_nil]

theorem meanLoop_two (data : List Point) (v0 v1 : List Nat) (r0 r1 m0 m1 : Point)
    (extra : List Point) (h0 : Calculate_Mean data v0 = .ok r0)
    (h1 : Calculate_Mean data v1 = .ok r1) :
    meanLoop data [(0, v0), (1, v1)] (m0 :: m1 :: extra) = .ok (r0 :: r1 :: extra) := by
  simp only [meanLoop, h0, h1]
  simp

theorem lloydAssignment_get (n1 n2 : Nat) (a b : Int) :
    (lloydAssignment n1 n2 a b)[n1]? = some a := by
  unfold lloydAssignment
  rw [List.append_assoc, List.getElem?_append_right (by simp)]
  simp

theorem lloydAssignment_mem (n1 n2 : Nat) (a b c : Int)
    (h : c ∈ lloydAssignment n1 n2 a b) : c = 0 ∨ c = a ∨ c = b := by
  simp only [lloydAssignment, List.mem_append, List.mem_replicate, List.mem_cons,
    List.mem_singleton, List.not_mem_nil, or_false] at h
  rcases h with (⟨_, h⟩ | h | h) | ⟨_, h⟩
  · exact Or.inl h
  · exact Or.inr (Or.inl h)
  · exact Or.inr (Or.inr h)
  · exact Or.inl h

/-- The first pass over `lloydPoints` from the initial state. -/
theorem lloyd_first_pass (n1 n2 : Nat) (means : List Point) (a b : Nat)
    (hN : n1 + 2 + n2 = 10000)
    (hz : nearestIndex [0, 0, 0, 0] means = .ok (some 0))
    (hp : nearestIndex [3 / 2, 0, 0, 0] means = .ok (some a))
    (hq : nearestIndex [7 / 2, 0, 0, 0] means = .ok (some b)) :
    assignmentPass (initialState (lloydPoints n1 n2) means) =
      .ok (false, { data := lloydPoints n1 n2, means := means,
                    cluster_number := lloydAssignment n1 n2 a b, cluster_item := [] }) := by
  obtain ⟨nc, h⟩ := lloyd_pass n1 n2 means (List.replicate 10000 (-1)) [] a b hz hp hq
    (by rw [List.length_replicate, hN])
  have h2 : assignmentPass (initialState (lloydPoints n1 n2) means) = .ok (nc, _) := h
  cases nc with
  | false => exact h2
  | true =>
    exact absurd h2 (first_pass_changes _ _
      (by
        intro h0
        have := lloydPoints_length n1 n2
        rw [h0, List.length_nil] at this
        omega) _)

/-- The first mean update of the run over `lloydPoints`: centroid 0 becomes
the origin, centroid 1 the mean of the two other records. -/
theorem lloyd_update (n1 n2 : Nat) (m0 m1 : Point) (extra : List Point) :
    Find_New_Mean { data := lloydPoints (n1 + 1) n2, means := m0 :: m1 :: extra,
                    cluster_number := lloydAssignment (n1 + 1) n2 1 1, cluster_item := [] } =
      .ok { data := lloydPoints (n1 + 1) n2,
            means := [0, 0, 0, 0] :: [5 / 2, 0, 0, 0] :: extra,
            cluster_number := lloydAssignment (n1 + 1) n2 1 1,
            cluster_item := [(0, List.range' 0 (n1 + 1) ++ List.range' (n1 + 3) n2),
                             (1, [n1 + 1, n1 + 2])] } := by
  have h0 : Calculate_Mean (lloydPoints (n1 + 1) n2)
      (List.range' 0 (n1 + 1) ++ List.range' (n1 + 3) n2) = .ok [0, 0, 0, 0] := by
    apply Calculate_Mean_origin _ (lloydPoints_dim _ _)
    intro idx hidx
    apply lloydPoints_get_origin
    simp only [List.mem_append, List.mem_range'_1] at hidx
    omega
  have h1 : Calculate_Mean (lloydPoints (n1 + 1) n2) [n1 + 1, n1 + 2] =
      .ok [5 / 2, 0, 0, 0] := by
    rw [Calculate_Mean_pair _ _ _ _ _ (lloydPoints_get_first (n1 + 1) n2)
      (lloydPoints_get_second (n1 + 1) n2)]
    decide!
  unfold Find_New_Mean
  simp only
  rw [lloyd_group, meanLoop_two _ _ _ _ _ _ _ _ h0 h1]

/-- A later pass over `lloydPoints` that moves record `n1` from cluster 1 to
cluster 0. -/
theorem lloyd_second_pass (n1 n2 : Nat) (means : List Point) (ci : ClusterMap)
    (hz : nearestIndex [0, 0, 0, 0] means = .ok (some 0))
    (hp : nearestIndex [3 / 2, 0, 0, 0] means = .ok (some 0))
    (hq : nearestIndex [7 / 2, 0, 0, 0] means = .ok (some 1)) :
    assignmentPass { data := lloydPoints n1 n2, means := means,
                     cluster_number := lloydAssignment n1 n2 1 1, cluster_item := ci } =
      .ok (false, { data := lloydPoints n1 n2, means := means,
                    cluster_number := lloydAssignment n1 n2 0 1, cluster_item := ci }) := by
  obtain ⟨nc, h⟩ := lloyd_pass n1 n2 means (lloydAssignment n1 n2 1 1) ci 0 1 hz hp hq
    (lloydAssignment_length _ _ _ _)
  cases nc with
  | false => exact h
  | true =>
    have e := assignmentPass_noChange _ _ h
    have e2 : lloydAssignment n1 n2 ((0 : Nat) : Int) ((1 : Nat) : Int) =
        lloydAssignment n1 n2 1 1 := congrArg State.cluster_number e
    have e3 := congrArg (fun l => l[n1]?) e2
    simp only [lloydAssignment_get] at e3
    exact absurd e3 (by decide)

theorem zip_replicate_same {α β : Type} (n : Nat) (a : α) (b : β) :
    (List.replicate n a).zip (List.replicate n b) = List.replicate n (a, b) := by
  induction n with
  | zero => rfl
  | succ n ih => rw [List.replicate_succ, List.replicate_succ, List.zip_cons_cons, ih,
      List.replicate_succ]

/-- The within-cluster sum of an assignment of `lloydPoints`. -/
theorem withinClusterSum_lloyd (n1 n2 : Nat) (means : List Point) (a b : Int) :
    withinClusterSum (lloydPoints n1 n2) means (lloydAssignment n1 n2 a b) =
      (n1 : ℚ) * assignedSquare means [0, 0, 0, 0] 0 +
        (assignedSquare means [3 / 2, 0, 0, 0] a + assignedSquare means [7 / 2, 0, 0, 0] b) +
        (n2 : ℚ) * assignedSquare means [0, 0, 0, 0] 0 := by
  unfold withinClusterSum lloydPoints lloydAssignment
  rw [List.zip_append (by simp), List.zip_append (by simp), zip_replicate_same,
    zip_replicate_same]
  simp only [List.map_append, List.map_replicate, List.sum_append, List.sum_replicate,
    List.zip_cons_cons, List.zip_nil_right, List.map_cons, List.map_nil, List.sum_cons,
    List.sum_nil, nsmul_eq_mul, add_zero]

/-! ## Entries of the cluster map that no point is filed under -/

theorem ClusterMap.clear_mem_self (key : Int) : ∀ m : ClusterMap,
    (key, []) ∈ ClusterMap.clear key m := by
  intro m
  induction m with
  | nil => simp [ClusterMap.clear]
  | cons e rest ih =>
    obtain ⟨k, v⟩ := e
    unfold ClusterMap.clear
    by_cases h1 : key < k
    · rw [if_pos h1]; exact List.mem_cons_self _ _
    · rw [if_neg h1]
      by_cases h2 : key = k
      · rw [if_pos h2, h2]; exact List.mem_cons_self _ _
      · rw [if_neg h2]; exact List.mem_cons_of_mem _ ih

theorem ClusterMap.clear_mem_other (key : Int) (e : Int × List Nat) (hne : e.1 ≠ key) :
    ∀ m : ClusterMap, e ∈ m → e ∈ ClusterMap.clear key m := by
  intro m
  induction m with
  | nil => intro h; cases h
  | cons e1 rest ih =>
    obtain ⟨k, v⟩ := e1
    intro h
    unfold ClusterMap.clear
    by_cases h1 : key < k
    · rw [if_pos h1]; exact List.mem_cons_of_mem _ h
    · rw [if_neg h1]
      by_cases h2 : key = k
      · rw [if_pos h2]
        rcases List.mem_cons.mp h with h | h
        · exact absurd (by rw [h, h2]) hne
        · exact List.mem_cons_of_mem _ h
      · rw [if_neg h2]
        rcases List.mem_cons.mp h with h | h
        · rw [h]; exact List.mem_cons_self _ _
        · exact List.mem_cons_of_mem _ (ih h)

theorem clearLoop_mem_other (e : Int × List Nat) : ∀ (n m0 : Nat) (ci : ClusterMap),
    e ∈ ci → (∀ j : Nat, m0 ≤ j → j < m0 + n → e.1 ≠ (j : Int)) → e ∈ clearLoop n m0 ci := by
  intro n
  induction n with
  | zero => intro m0 ci h _; exact h
  | succ n ih =>
    intro m0 ci h hne
    unfold clearLoop
    exact ih (m0 + 1) _
      (ClusterMap.clear_mem_other _ e (hne m0 (le_refl _) (by omega)) ci h)
      (fun j h1 h2 => hne j (by omega) (by omega))

/-- The clearing loop leaves an empty entry at every key it visits. -/
theorem clearLoop_mem (c : Nat) : ∀ (n m0 : Nat) (ci : ClusterMap),
    m0 ≤ c → c < m0 + n → ((c : Int), []) ∈ clearLoop n m0 ci := by
  intro n
  induction n with
  | zero => intro m0 ci h1 h2; omega
  | succ n ih =>
    intro m0 ci h1 h2
    unfold clearLoop
    rcases Nat.eq_or_lt_of_le h1 with h | h
    · exact clearLoop_mem_other _ n (m0 + 1) _ (by rw [h]; exact ClusterMap.clear_mem_self _ ci)
        (fun j hj1 _ => by
          show (c : Int) ≠ (j : Int)
          omega)
    · exact ih (m0 + 1) _ h (by omega)

theorem ClusterMap.pushBack_mem_other (key : Int) (i : Nat) (e : Int × List Nat)
    (hne : e.1 ≠ key) : ∀ m : ClusterMap, e ∈ m → e ∈ ClusterMap.pushBack key i m := by
  intro m
  induction m with
  | nil => intro h; cases h
  | cons e1 rest ih =>
    obtain ⟨k, v⟩ := e1
    intro h
    unfold ClusterMap.pushBack
    by_cases h1 : key < k
    · rw [if_pos h1]; exact List.mem_cons_of_mem _ h
    · rw [if_neg h1]
      by_cases h2 : key = k
      · rw [if_pos h2]
        rcases List.mem_cons.mp h with h | h
        · exact absurd (by rw [h, h2]) hne
        · exact List.mem_cons_of_mem _ h
      · rw [if_neg h2]
        rcases List.mem_cons.mp h with h | h
        · rw [h]; exact List.mem_cons_self _ _
        · exact List.mem_cons_of_mem _ (ih h)

/-- The grouping loop leaves the entry of a key alone that is the value of no
entry of `cluster_number`. -/
theorem groupLoop_mem_other (e : Int × List Nat) : ∀ (cn : List Int) (i : Nat) (m : ClusterMap),
    e ∈ m → e.1 ∉ cn → e ∈ groupLoop cn i m := by
  intro cn
  induction cn with
  | nil => intro i m h _; exact h
  | cons c rest ih =>
    intro i m h hne
    unfold groupLoop
    exact ih (i + 1) _
      (ClusterMap.pushBack_mem_other c i e
        (fun h0 => hne (by rw [h0]; exact List.mem_cons_self _ _)) m h)
      (fun h0 => hne (List.mem_cons_of_mem _ h0))

/-- After a completed iteration the keys of the cluster map are indices of
centroids. -/
theorem loopBody_keys (s s2 : State) (h : loopBody s = .ok (false, s2)) :
    ∀ e ∈ s2.cluster_item, 0 ≤ e.1 ∧ e.1.toNat < s2.means.length := by
  obtain ⟨s1, s3, hp, hf, rfl⟩ := loopBody_false s s2 h
  obtain ⟨hm, hci, _, _⟩ := Find_New_Mean_ok s1 s3 hf
  have hk := meanLoop_keys _ _ _ _ hm
  have hl := meanLoop_length _ _ _ _ hm
  intro e he
  show 0 ≤ e.1 ∧ e.1.toNat < s3.means.length
  rcases clearLoop_keys _ _ _ e he with ⟨h1, h2⟩ | h1
  · simp only [Nat.cast_zero, zero_add] at h1 h2
    exact ⟨h1, by omega⟩
  · obtain ⟨e1, he1, he2⟩ := List.mem_map.mp h1
    rw [hci] at he1
    have := hk e1 he1
    rw [he2] at this
    rw [hl]
    exact this


theorem clearLoop_two (v0 v1 : List Nat) :
    clearLoop 2 0 [(0, v0), (1, v1)] = [(0, []), (1, [])] := by
  simp [clearLoop, ClusterMap.clear]

/-- The first iteration of the run over `lloydPoints` from the origin and
`(3/2,0,0,0)` as the first two centroids. -/
theorem lloyd_first_iteration (n1 n2 : Nat) (extra : List Point)
    (hN : n1 + 1 + 2 + n2 = 10000)
    (hz : nearestIndex [0, 0, 0, 0] ([0, 0, 0, 0] :: [3 / 2, 0, 0, 0] :: extra) = .ok (some 0))
    (hp : nearestIndex [3 / 2, 0, 0, 0] ([0, 0, 0, 0] :: [3 / 2, 0, 0, 0] :: extra) =
      .ok (some 1))
    (hq : nearestIndex [7 / 2, 0, 0, 0] ([0, 0, 0, 0] :: [3 / 2, 0, 0, 0] :: extra) =
      .ok (some 1)) :
    stateAt 1 (initialState (lloydPoints (n1 + 1) n2)
        ([0, 0, 0, 0] :: [3 / 2, 0, 0, 0] :: extra)) =
      some { data := lloydPoints (n1 + 1) n2,
             means := [0, 0, 0, 0] :: [5 / 2, 0, 0, 0] :: extra,
             cluster_number := lloydAssignment (n1 + 1) n2 1 1,
             cluster_item := clearLoop (extra.length + 2) 0
               [(0, List.range' 0 (n1 + 1) ++ List.range' (n1 + 3) n2),
                (1, [n1 + 1, n1 + 2])] } :=
  stateAt_one _ _ (loopBody_of_false _ _ _
    (lloyd_first_pass (n1 + 1) n2 _ 1 1 hN hz hp hq)
    (lloyd_update n1 n2 [0, 0, 0, 0] [3 / 2, 0, 0, 0] extra))

theorem lloyd_seeds (n2 : Nat) :
    seedMeans (lloydPoints 200 n2) 2 = .ok [[0, 0, 0, 0], [3 / 2, 0, 0, 0]] := by
  have e0 : seedMeans (lloydPoints 200 n2) 2 = seedLoop (lloydPoints 200 n2) 2 1 [] := rfl
  have e1 : (lloydPoints 200 n2)[100]? = some [0, 0, 0, 0] :=
    lloydPoints_get_origin 200 n2 100 (Or.inl (by norm_num))
  have e2 : (lloydPoints 200 n2)[200]? = some [3 / 2, 0, 0, 0] := lloydPoints_get_first 200 n2
  rw [e0]
  simp only [seedLoop, Nat.one_mul, e1, e2, List.nil_append, List.singleton_append]

/-- The second mean update of the run over `lloydPoints` raises no fault. -/
theorem lloyd_second_update (n1 n2 : Nat) (extra : List Point)
    (hN : n1 + 1 + 2 + n2 = 10000)
    (hz : nearestIndex [0, 0, 0, 0] ([0, 0, 0, 0] :: [3 / 2, 0, 0, 0] :: extra) = .ok (some 0))
    (hp : nearestIndex [3 / 2, 0, 0, 0] ([0, 0, 0, 0] :: [3 / 2, 0, 0, 0] :: extra) =
      .ok (some 1))
    (hq : nearestIndex [7 / 2, 0, 0, 0] ([0, 0, 0, 0] :: [3 / 2, 0, 0, 0] :: extra) =
      .ok (some 1)) :
    ∃ s2, Find_New_Mean
        { data := lloydPoints (n1 + 1) n2,
          means := [0, 0, 0, 0] :: [5 / 2, 0, 0, 0] :: extra,
          cluster_number := lloydAssignment (n1 + 1) n2 0 1,
          cluster_item := clearLoop (extra.length + 2) 0
            [(0, List.range' 0 (n1 + 1) ++ List.range' (n1 + 3) n2),
             (1, [n1 + 1, n1 + 2])] } = .ok s2 := by
  have hinv := stateAt_invariant _ _ 1 _ (lloyd_first_iteration n1 n2 extra hN hz hp hq)
  apply Find_New_Mean_total
  · intro p hp
    exact le_of_eq (lloydPoints_dim _ _ p hp)
  · show (lloydAssignment (n1 + 1) n2 0 1).length ≤ (lloydPoints (n1 + 1) n2).length
    rw [lloydAssignment_length, lloydPoints_length]
  · intro c hc
    show 0 ≤ c ∧ c.toNat < extra.length + 2
    rcases lloydAssignment_mem _ _ _ _ c hc with h | h | h <;> rw [h] <;>
      exact ⟨by decide, by simp⟩
  · intro e he
    show 0 ≤ e.1 ∧ e.1.toNat < extra.length + 2
    rcases clearLoop_keys _ _ _ e he with ⟨h1, h2⟩ | h1
    · simp only [Nat.cast_zero, zero_add] at h1 h2
      exact ⟨h1, by omega⟩
    · simp only [List.map_cons, List.map_nil, List.mem_cons, List.not_mem_nil, or_false] at h1
      rcases h1 with h | h <;> rw [h] <;> exact ⟨by decide, by simp⟩
  · intro idx hidx
    have hm : ClusterMap.members (clearLoop (extra.length + 2) 0
        [(0, List.range' 0 (n1 + 1) ++ List.range' (n1 + 3) n2), (1, [n1 + 1, n1 + 2])]) = [] :=
      hinv.2.1
    rw [hm] at hidx
    cases hidx

/-! ## The claims -/

/-- C1 (the code breaks it): the index written by an assignment pass need not
be that of a nearest centroid.  Over the 10000 records of `truncationData`
with the centroids `(3/2,0,0,0)` and `(1,0,0,0)` the first pass writes
cluster 0 for point 0, the origin, whose distance to centroid 0 is
`sqrt (9/4)`, although centroid 1 is strictly closer, at distance `sqrt 1`:
the `int` variable `minimum` holds the truncated distance 1, and `1 > 1` is
false. -/
theorem C1_assigned_centroid_not_nearest :
    truncationData.length = 10000 ∧ truncationData[0]? = some [0, 0, 0, 0] ∧
      truncationData[100]? = some [3 / 2, 0, 0, 0] ∧
      truncationData[200]? = some [1, 0, 0, 0] ∧
      (∃ noChange s1,
        assignmentPass (initialState truncationData [[3 / 2, 0, 0, 0], [1, 0, 0, 0]]) =
          .ok (noChange, s1) ∧ s1.cluster_number[0]? = some 0) ∧
      nearestIndex [0, 0, 0, 0] [[3 / 2, 0, 0, 0], [1, 0, 0, 0]] = .ok (some 0) ∧
      Euclidean_Distance [0, 0, 0, 0] [3 / 2, 0, 0, 0] = .ok ⟨9 / 4⟩ ∧
      Euclidean_Distance [0, 0, 0, 0] [1, 0, 0, 0] = .ok ⟨1⟩ ∧
      Real.sqrt ((1 : ℚ) : ℝ) < Real.sqrt ((9 / 4 : ℚ) : ℝ) := by
  have hlen : truncationData.length = 10000 := by
    simp only [truncationData, List.length_append, List.length_replicate, List.length_singleton]
  have h0 : truncationData[0]? = some [0, 0, 0, 0] := by decide!
  have hnear : ∀ p ∈ truncationData,
      ∃ index : Nat, nearestIndex p [[3 / 2, 0, 0, 0], [1, 0, 0, 0]] = .ok (some index) := by
    intro p hp
    simp only [truncationData, List.mem_append, List.mem_replicate, List.mem_singleton] at hp
    rcases hp with (((⟨_, h⟩ | h) | ⟨_, h⟩) | h) | ⟨_, h⟩ <;> rw [h] <;> exact ⟨0, by decide!⟩
  obtain ⟨⟨b, cn1⟩, hr⟩ := assignLoop_total [[3 / 2, 0, 0, 0], [1, 0, 0, 0]] truncationData 0
    true (List.replicate 10000 (-1)) hnear
    (by simp only [hlen, List.length_replicate]; omega)
  obtain ⟨index, hn, hw⟩ := assignLoop_get _ _ 0 true _ _ hr 0 [0, 0, 0, 0] h0
  have hidx : nearestIndex [0, 0, 0, 0] [[3 / 2, 0, 0, 0], [1, 0, 0, 0]] = .ok (some 0) := by
    decide!
  rw [hidx] at hn
  simp only [Except.ok.injEq, Option.some.injEq] at hn
  subst hn
  have hp : assignmentPass (initialState truncationData [[3 / 2, 0, 0, 0], [1, 0, 0, 0]]) =
      .ok (b, { initialState truncationData [[3 / 2, 0, 0, 0], [1, 0, 0, 0]] with
                cluster_number := cn1 }) :=
    assignmentPass_of_loop (initialState truncationData [[3 / 2, 0, 0, 0], [1, 0, 0, 0]]) b cn1 hr
  refine ⟨hlen, h0, by decide!, by decide!, ⟨b, _, hp, ?_⟩, hidx, by decide!, by decide!, ?_⟩
  · simpa using hw
  · apply Real.sqrt_lt_sqrt <;> norm_num

/-- C2: when the centroids at positions `j1 < j2` are coordinate-wise
identical, the scan of a point never stores `j2`, and an assignment pass
never writes `j2` into the entry of a point. -/
theorem C2_coincident_centroids_lowest_index (means : List Point) (c : Point) (j1 j2 : Nat)
    (h12 : j1 < j2) (h1 : means[j1]? = some c) (h2 : means[j2]? = some c) :
    (∀ point : Point, nearestIndex point means ≠ .ok (some j2)) ∧
    (∀ (s : State) (noChange : Bool) (s1 : State), s.means = means →
      assignmentPass s = .ok (noChange, s1) →
      ∀ i, i < s.data.length → s1.cluster_number[i]? ≠ some (j2 : Int)) := by
  have hscan : ∀ point : Point, nearestIndex point means ≠ .ok (some j2) := by
    intro point h
    obtain ⟨m, hs⟩ := nearestIndex_ok point means _ h
    exact scanMeans_coincident point c j1 j2 h12 means 0 INT_MAX none _ (Nat.zero_le _)
      (by simp) (by simpa using h1) (by simpa using h2) hs rfl
  refine ⟨hscan, ?_⟩
  intro s noChange s1 hm hp i hi hcon
  obtain ⟨hl, _⟩ := assignmentPass_ok s noChange s1 hp
  obtain ⟨index, hn, hw⟩ := assignLoop_get s.means s.data 0 true s.cluster_number _ hl i
    s.data[i] (List.getElem?_eq_getElem hi)
  simp only [Nat.zero_add] at hw
  rw [hw] at hcon
  simp only [Option.some.injEq, Nat.cast_inj] at hcon
  subst hcon
  rw [hm] at hn
  exact hscan _ hn

theorem C2_coincident_centroids_lowest_index_witness :
    (0 : Nat) < 1 ∧
    ([[0, 0, 0, 0], [0, 0, 0, 0]] : List Point)[0]? = some [0, 0, 0, 0] ∧
    ([[0, 0, 0, 0], [0, 0, 0, 0]] : List Point)[1]? = some [0, 0, 0, 0] ∧
    nearestIndex [1, 0, 0, 0] [[0, 0, 0, 0], [0, 0, 0, 0]] = .ok (some 0) ∧
    nearestIndex [1, 0, 0, 0] [[0, 0, 0, 0], [0, 0, 0, 0]] ≠ .ok (some 1) :=
  ⟨by decide, rfl, rfl, by decide!,
    (C2_coincident_centroids_lowest_index [[0, 0, 0, 0], [0, 0, 0, 0]] [0, 0, 0, 0] 0 1
      (by decide) rfl rfl).1 [1, 0, 0, 0]⟩

/-- C3: over a dataset of 4-feature points, `Calculate_Mean` returns for a
non-empty list of valid indices the coordinate-wise arithmetic mean of the
listed points (for each coordinate the sum over the listed points divided by
their number), and after `Find_New_Mean` the centroid of every cluster with
at least one member is exactly that vector. -/
theorem C3_mean_is_arithmetic_mean (data : List Point) (hdata : ∀ p ∈ data, p.length = 4) :
    (∀ indices : List Nat, indices ≠ [] → (∀ idx ∈ indices, idx < data.length) →
      Calculate_Mean data indices = .ok (arithmeticMean data indices)) ∧
    (∀ s s1 : State, s.data = data → ClusterMap.Ordered s.cluster_item →
      Find_New_Mean s = .ok s1 →
      ∀ (c : Int) (members : List Nat), (c, members) ∈ s1.cluster_item → members ≠ [] →
        0 ≤ c ∧ s1.means[c.toNat]? = some (arithmeticMean data members)) := by
  constructor
  · intro indices hne hidx
    obtain ⟨row, hr⟩ := Calculate_Mean_total data (fun p hp => le_of_eq (hdata p hp)) indices hidx
    rw [hr, Calculate_Mean_eq data hdata indices hne row hr]
  · intro s s1 hs hord h c members hc hne
    obtain ⟨hm, hci, _, _⟩ := Find_New_Mean_ok s s1 h
    rw [hci] at hc
    have hord1 := groupLoop_ordered s.cluster_number 0 s.cluster_item hord
    obtain ⟨row, hr, hget⟩ := meanLoop_get s.data _ _ _ hord1 hm c members hc
    refine ⟨(meanLoop_keys s.data _ _ _ hm _ hc).1, ?_⟩
    rw [hs] at hr
    rw [hget, Calculate_Mean_eq data hdata members hne row hr]

theorem C3_mean_is_arithmetic_mean_witness :
    (∀ p ∈ ([[1, 2, 3, 4], [3, 4, 5, 6], [0, 0, 0, 0]] : List Point), p.length = 4) ∧
    Calculate_Mean [[1, 2, 3, 4], [3, 4, 5, 6], [0, 0, 0, 0]] [0, 1] = .ok [2, 3, 4, 5] ∧
    Calculate_Mean [[1, 2, 3, 4], [3, 4, 5, 6], [0, 0, 0, 0]] [0, 1] =
      .ok (arithmeticMean [[1, 2, 3, 4], [3, 4, 5, 6], [0, 0, 0, 0]] [0, 1]) ∧
    Find_New_Mean
        { data := [[1, 2, 3, 4], [3, 4, 5, 6], [0, 0, 0, 0]],
          means := [[1, 2, 3, 4], [0, 0, 0, 0]],
          cluster_number := [0, 0, 1], cluster_item := [] } =
      .ok { data := [[1, 2, 3, 4], [3, 4, 5, 6], [0, 0, 0, 0]],
            means := [[2, 3, 4, 5], [0, 0, 0, 0]],
            cluster_number := [0, 0, 1], cluster_item := [(0, [0, 1]), (1, [2])] } ∧
    ([[2, 3, 4, 5], [0, 0, 0, 0]] : List Point)[(0 : Int).toNat]? =
      some (arithmeticMean [[1, 2, 3, 4], [3, 4, 5, 6], [0, 0, 0, 0]] [0, 1]) :=
  have hdata : ∀ p ∈ ([[1, 2, 3, 4], [3, 4, 5, 6], [0, 0, 0, 0]] : List Point),
      p.length = 4 := by
    intro p hp
    simp only [List.mem_cons, List.mem_singleton, List.not_mem_nil, or_false] at hp
    rcases hp with h | h | h <;> rw [h] <;> rfl
  have hthm := C3_mean_is_arithmetic_mean [[1, 2, 3, 4], [3, 4, 5, 6], [0, 0, 0, 0]] hdata
  have hfind : Find_New_Mean
        { data := [[1, 2, 3, 4], [3, 4, 5, 6], [0, 0, 0, 0]],
          means := [[1, 2, 3, 4], [0, 0, 0, 0]],
          cluster_number := [0, 0, 1], cluster_item := [] } =
      .ok { data := [[1, 2, 3, 4], [3, 4, 5, 6], [0, 0, 0, 0]],
            means := [[2, 3, 4, 5], [0, 0, 0, 0]],
            cluster_number := [0, 0, 1], cluster_item := [(0, [0, 1]), (1, [2])] } := by
    decide!
  ⟨hdata, by decide!,
    hthm.1 [0, 1] (by simp) (by decide), hfind,
    (hthm.2 _ _ rfl (by simp [ClusterMap.Ordered]) hfind 0 [0, 1] (by simp) (by simp)).2⟩

/-- C4 (the code breaks it): over the 10000 records of `farData` with the one
centroid at the origin, the scan of point 0 never stores to `index` (its
only distance, 3000000000, is not below `INT_MAX`), so the first pass writes
the indeterminate content of `index` into `cluster_number[0]`. -/
theorem C4_far_point_gets_indeterminate_index :
    farData.length = 10000 ∧ farData[0]? = some [3000000000, 0, 0, 0] ∧
      farData[100]? = some [0, 0, 0, 0] ∧
      nearestIndex [3000000000, 0, 0, 0] [[0, 0, 0, 0]] = .ok none ∧
      Euclidean_Distance [3000000000, 0, 0, 0] [0, 0, 0, 0] = .ok ⟨3000000000 ^ 2⟩ ∧
      (INT_MAX : ℝ) < Real.sqrt (((3000000000 ^ 2 : ℚ)) : ℝ) ∧
      assignmentPass (initialState farData [[0, 0, 0, 0]]) = .error .uninitialised := by
  refine ⟨?_, by decide!, by decide!, by decide!, by decide!, ?_, by decide!⟩
  · simp only [farData, List.length_append, List.length_replicate, List.length_singleton]
  · rw [Real.lt_sqrt (by simp [INT_MAX])]
    simp only [INT_MAX]
    norm_num

/-- C5 as stated fails: for a dataset of 200 points the member lists built by
lines 91-94 after the first assignment pass hold 10000 indices, one per entry
of `cluster_number`, among them the index 200 of no point. -/
theorem C5_member_lists_hold_10000_indices :
    (initialState (List.replicate 200 [0, 0, 0, 0]) [[0, 0, 0, 0]]).data.length = 200 ∧
    ∃ s1, assignmentPass (initialState (List.replicate 200 [0, 0, 0, 0]) [[0, 0, 0, 0]]) =
        .ok (false, s1) ∧
      ClusterMap.total (groupLoop s1.cluster_number 0 s1.cluster_item) = 10000 ∧
      200 ∈ ClusterMap.members (groupLoop s1.cluster_number 0 s1.cluster_item) := by
  have hN : (List.replicate 200 ([0, 0, 0, 0] : Point)).length = 200 :=
    List.length_replicate _ _
  obtain ⟨⟨b, cn1⟩, hr⟩ := assignLoop_total [[0, 0, 0, 0]] (List.replicate 200 [0, 0, 0, 0]) 0
    true (List.replicate 10000 (-1))
    (fun q hq => ⟨0, by rw [List.eq_of_mem_replicate hq]; decide!⟩)
    (by simp only [List.length_replicate]; omega)
  have hp : assignmentPass (initialState (List.replicate 200 [0, 0, 0, 0]) [[0, 0, 0, 0]]) =
      .ok (b, { initialState (List.replicate 200 [0, 0, 0, 0]) [[0, 0, 0, 0]] with
                cluster_number := cn1 }) := by
    simp only [assignmentPass, initialState, hr]
  have hb : b = false := by
    cases b with
    | false => rfl
    | true =>
      exact absurd hp (first_pass_changes _ _ (by intro h; rw [h] at hN; simp at hN) _)
  subst hb
  have hlen : cn1.length = 10000 := by
    rw [assignLoop_length _ _ _ _ _ _ hr, List.length_replicate]
  refine ⟨hN, _, hp, ?_, ?_⟩
  · rw [groupLoop_total]
    simp only [initialState, ClusterMap.total, List.map_nil, List.sum_nil, hlen]
  · rw [(groupLoop_members _ _ _).mem_iff]
    simp only [initialState, ClusterMap.members, List.nil_append, hlen, List.mem_range'_1]
    omega

/-- C5, amended: for a dataset of exactly 10000 points, the length of
`cluster_number`, in every iteration of a run the member lists built by lines
91-94 after the assignment pass have sizes that sum to the number of points,
and together they hold each point index `0 .. N-1` exactly once and nothing
else; these lists are the map `Find_New_Mean` leaves. -/
theorem C5_member_lists_partition_points (data means : List Point)
    (hN : data.length = 10000) (k : Nat) (s : State) (noChange : Bool) (s1 : State)
    (hs : stateAt k (initialState data means) = some s)
    (hp : assignmentPass s = .ok (noChange, s1)) :
    ClusterMap.total (groupLoop s1.cluster_number 0 s1.cluster_item) = data.length ∧
    (ClusterMap.members (groupLoop s1.cluster_number 0 s1.cluster_item)).Perm
      (List.range data.length) ∧
    (∀ s2, Find_New_Mean s1 = .ok s2 →
      s2.cluster_item = groupLoop s1.cluster_number 0 s1.cluster_item) := by
  obtain ⟨_, hmem, hlen, _, _⟩ := stateAt_invariant data means k s hs
  obtain ⟨_, _, hci, hl1⟩ := assignmentPass_frame s noChange s1 hp
  have hperm : (ClusterMap.members (groupLoop s1.cluster_number 0 s1.cluster_item)).Perm
      (List.range data.length) := by
    have := groupLoop_members s1.cluster_number 0 s1.cluster_item
    rw [hci, hmem, hl1, hlen, List.nil_append, ← hN, ← List.range_eq_range', ← hci] at this
    exact this
  refine ⟨?_, hperm, fun s2 h2 => (Find_New_Mean_ok s1 s2 h2).2.1⟩
  rw [ClusterMap.total_eq, hperm.length_eq, List.length_range]

theorem C5_member_lists_partition_points_witness :
    (List.replicate 10000 ([0, 0, 0, 0] : Point)).length = 10000 ∧
    stateAt 0 (initialState (List.replicate 10000 [0, 0, 0, 0]) [[0, 0, 0, 0]]) =
      some (initialState (List.replicate 10000 [0, 0, 0, 0]) [[0, 0, 0, 0]]) ∧
    assignmentPass (initialState (List.replicate 10000 [0, 0, 0, 0]) [[0, 0, 0, 0]]) =
      .ok (false, { data := List.replicate 10000 [0, 0, 0, 0], means := [[0, 0, 0, 0]],
                    cluster_number := List.replicate 10000 ((0 : Nat) : Int),
                    cluster_item := [] }) ∧
    ClusterMap.total (groupLoop (List.replicate 10000 ((0 : Nat) : Int)) 0 []) =
      (List.replicate 10000 ([0, 0, 0, 0] : Point)).length ∧
    (ClusterMap.members (groupLoop (List.replicate 10000 ((0 : Nat) : Int)) 0 [])).Perm
      (List.range (List.replicate 10000 ([0, 0, 0, 0] : Point)).length) :=
  have hN : (List.replicate 10000 ([0, 0, 0, 0] : Point)).length = 10000 :=
    List.length_replicate _ _
  have hp := first_pass_const (List.replicate 10000 [0, 0, 0, 0]) [[0, 0, 0, 0]] [0, 0, 0, 0] 0
    (by intro h; rw [h] at hN; simp at hN) (fun q hq => List.eq_of_mem_replicate hq)
    (by decide!) hN
  have hthm := C5_member_lists_partition_points (List.replicate 10000 [0, 0, 0, 0])
    [[0, 0, 0, 0]] hN 0 _ false _ rfl hp
  ⟨hN, rfl, hp, hthm.1, hthm.2.1⟩

/-- C6 as stated fails: over 10000 points of dimension 2 and one centroid of
dimension 2, the first iteration runs to its end and leaves a centroid set
whose only entry has 4 coordinates. -/
theorem C6_centroid_gets_4_coordinates :
    (∀ p ∈ List.replicate 10000 ([1, 2] : Point), p.length = 2) ∧
    ∃ s2 row, loopBody (initialState (List.replicate 10000 [1, 2]) [[1, 2]]) = .ok (false, s2) ∧
      s2.means = [row] ∧ row.length = 4 := by
  have hN : (List.replicate 10000 ([1, 2] : Point)).length = 10000 :=
    List.length_replicate _ _
  have hp := first_pass_const (List.replicate 10000 [1, 2]) [[1, 2]] [1, 2] 0
    (by intro h; rw [h] at hN; simp at hN) (fun q hq => List.eq_of_mem_replicate hq)
    (by decide!) hN
  obtain ⟨s3, hf⟩ := Find_New_Mean_total
    { data := List.replicate 10000 [1, 2], means := [[1, 2]],
      cluster_number := List.replicate 10000 ((0 : Nat) : Int), cluster_item := [] }
    (fun p hp => by rw [List.eq_of_mem_replicate hp]; decide)
    (by simp only [List.length_replicate]; omega)
    (fun c hc => by rw [List.eq_of_mem_replicate hc]; decide)
    (fun e he => by simp at he)
    (fun idx hidx => by simp [ClusterMap.members] at hidx)
  obtain ⟨hm, hci, _, _⟩ := Find_New_Mean_ok _ s3 hf
  simp only at hm hci
  have hkey : (0 : Int) ∈ (groupLoop (List.replicate 10000 ((0 : Nat) : Int)) 0 []).map
      Prod.fst :=
    groupLoop_key_mem _ 0 [] 0 (by
      rw [List.mem_replicate]
      exact ⟨by omega, rfl⟩)
  obtain ⟨⟨c, members⟩, he, hc⟩ := List.mem_map.mp hkey
  simp only at hc
  subst hc
  obtain ⟨row, hr, hget⟩ := meanLoop_get _ _ _ _
    (groupLoop_ordered _ 0 [] List.Pairwise.nil) hm 0 members he
  have hlen : s3.means.length = 1 := by
    rw [meanLoop_length _ _ _ _ hm]; rfl
  obtain ⟨a, ha⟩ := List.length_eq_one.mp hlen
  rw [ha] at hget
  simp only [Int.toNat_zero, List.getElem?_cons_zero, Option.some.injEq] at hget
  refine ⟨fun p hp => by rw [List.eq_of_mem_replicate hp]; rfl, _, row,
    loopBody_of_false _ _ s3 hp hf, ?_, Calculate_Mean_length _ _ _ hr⟩
  simp only [ha, hget]

/-- C6, amended: after every mean update the centroid set has as many
entries as before, and every entry is the one before the update or has
exactly 4 coordinates, the length of `row(4,0)`; so every entry has 4
coordinates after the update when every entry had 4 before it. -/
theorem C6_centroid_set_shape (s s1 : State) (h : Find_New_Mean s = .ok s1) :
    s1.means.length = s.means.length ∧
    (∀ (k : Nat) (row : Point), s1.means[k]? = some row →
      s.means[k]? = some row ∨ row.length = 4) ∧
    ((∀ mean ∈ s.means, mean.length = 4) → ∀ mean ∈ s1.means, mean.length = 4) := by
  obtain ⟨hm, _, _, _⟩ := Find_New_Mean_ok s s1 h
  have hent := meanLoop_entries _ _ _ _ hm
  refine ⟨meanLoop_length _ _ _ _ hm, hent, ?_⟩
  intro h4 mean hmean
  obtain ⟨k, hk⟩ := List.mem_iff_getElem?.mp hmean
  rcases hent k mean hk with h1 | h1
  · exact h4 mean (List.getElem?_mem h1)
  · exact h1

theorem C6_centroid_set_shape_witness :
    Find_New_Mean
        { data := [[1, 2], [3, 4], [7, 7]], means := [[1, 2], [7, 7], [9, 9]],
          cluster_number := [0, 0, 1], cluster_item := [] } =
      .ok { data := [[1, 2], [3, 4], [7, 7]], means := [[2, 3, 0, 0], [7, 7, 0, 0], [9, 9]],
            cluster_number := [0, 0, 1], cluster_item := [(0, [0, 1]), (1, [2])] } ∧
    ([[2, 3, 0, 0], [7, 7, 0, 0], [9, 9]] : List Point).length =
      ([[1, 2], [7, 7], [9, 9]] : List Point).length :=
  have hfind : Find_New_Mean
        { data := [[1, 2], [3, 4], [7, 7]], means := [[1, 2], [7, 7], [9, 9]],
          cluster_number := [0, 0, 1], cluster_item := [] } =
      .ok { data := [[1, 2], [3, 4], [7, 7]], means := [[2, 3, 0, 0], [7, 7, 0, 0], [9, 9]],
            cluster_number := [0, 0, 1], cluster_item := [(0, [0, 1]), (1, [2])] } := by
    decide!
  ⟨hfind, (C6_centroid_set_shape _ _ hfind).1⟩

/-- C7: a mean update never divides by a zero member count.  For a cluster
with no member `Calculate_Mean` returns the vector of four zeros, no fault
of `Calculate_Mean` or `Find_New_Mean` is a division by zero, after
`Find_New_Mean` the centroid of every cluster whose member list is empty is
that vector of zeros, and `Find_New_Mean` raises no fault at all when the
points have at most 4 features, `cluster_number` has no more entries than
there are points and holds positions of centroids, and the map holds keys
that are positions of centroids and members that are indices of points. -/
theorem C7_no_division_by_zero_members :
    (∀ data : List Point, Calculate_Mean data [] = .ok [0, 0, 0, 0]) ∧
    (∀ (data : List Point) (indices : List Nat),
      Calculate_Mean data indices ≠ .error .divisionByZero) ∧
    (∀ s : State, Find_New_Mean s ≠ .error .divisionByZero) ∧
    (∀ s s1 : State, ClusterMap.Ordered s.cluster_item → Find_New_Mean s = .ok s1 →
      ∀ c : Int, (c, []) ∈ s1.cluster_item → s1.means[c.toNat]? = some [0, 0, 0, 0]) ∧
    (∀ s : State, (∀ p ∈ s.data, p.length ≤ 4) →
      s.cluster_number.length ≤ s.data.length →
      (∀ c ∈ s.cluster_number, 0 ≤ c ∧ c.toNat < s.means.length) →
      (∀ e ∈ s.cluster_item, 0 ≤ e.1 ∧ e.1.toNat < s.means.length) →
      (∀ idx ∈ ClusterMap.members s.cluster_item, idx < s.data.length) →
      ∃ s1, Find_New_Mean s = .ok s1) := by
  refine ⟨Calculate_Mean_nil, ?_, ?_, ?_, Find_New_Mean_total⟩
  · intro data indices h
    have := Calculate_Mean_fault data indices _ h
    exact absurd this (by decide)
  · intro s h
    have := Find_New_Mean_fault s _ h
    exact absurd this (by decide)
  · intro s s1 hord h c hc
    obtain ⟨hm, hci, _, _⟩ := Find_New_Mean_ok s s1 h
    rw [hci] at hc
    obtain ⟨row, hr, hget⟩ := meanLoop_get s.data _ _ _
      (groupLoop_ordered _ 0 _ hord) hm c [] hc
    rw [Calculate_Mean_nil] at hr
    simp only [Except.ok.injEq] at hr
    rw [hget, hr]

theorem C7_no_division_by_zero_members_witness :
    Find_New_Mean
        { data := [[1, 2, 3, 4], [3, 4, 5, 6]], means := [[1, 2, 3, 4], [9, 9, 9, 9]],
          cluster_number := [0, 0], cluster_item := [(0, []), (1, [])] } =
      .ok { data := [[1, 2, 3, 4], [3, 4, 5, 6]], means := [[2, 3, 4, 5], [0, 0, 0, 0]],
            cluster_number := [0, 0], cluster_item := [(0, [0, 1]), (1, [])] } ∧
    ([[2, 3, 4, 5], [0, 0, 0, 0]] : List Point)[(1 : Int).toNat]? = some [0, 0, 0, 0] :=
  have hfind : Find_New_Mean
        { data := [[1, 2, 3, 4], [3, 4, 5, 6]], means := [[1, 2, 3, 4], [9, 9, 9, 9]],
          cluster_number := [0, 0], cluster_item := [(0, []), (1, [])] } =
      .ok { data := [[1, 2, 3, 4], [3, 4, 5, 6]], means := [[2, 3, 4, 5], [0, 0, 0, 0]],
            cluster_number := [0, 0], cluster_item := [(0, [0, 1]), (1, [])] } := by
    decide!
  ⟨hfind, C7_no_division_by_zero_members.2.2.2.1 _ _
    (by simp [ClusterMap.Ordered]) hfind 1 (by simp)⟩

/-- C8: `K_Means_Parallel` is a total function that starts at most
`MAX = 10000` assignment passes, whatever the input.  When it ends as
`Converged` after `j + 1` passes, each of the first `j` passes changed an
assignment and pass `j + 1` changed none; when it ends as
`MaxIterationsReached`, it made exactly 10000 passes and each of them changed
an assignment. -/
theorem C8_at_most_MAX_passes (s : State) :
    (K_Means_Parallel s).passes ≤ 10000 ∧
    (∀ f, (K_Means_Parallel s).exit = .Converged f →
      ∃ j s0, (K_Means_Parallel s).passes = j + 1 ∧ stateAt j s = some s0 ∧
        assignmentPass s0 = .ok (true, f) ∧
        ∀ k, k < j → ∃ sk s1, stateAt k s = some sk ∧ assignmentPass sk = .ok (false, s1)) ∧
    (∀ f, (K_Means_Parallel s).exit = .MaxIterationsReached f →
      (K_Means_Parallel s).passes = 10000 ∧ stateAt 10000 s = some f ∧
        ∀ k, k < 10000 →
          ∃ sk s1, stateAt k s = some sk ∧ assignmentPass sk = .ok (false, s1)) := by
  obtain ⟨h1, h2, h3, _⟩ := iterate_spec MAX 0 s
  refine ⟨?_, ?_, ?_⟩
  · simpa [K_Means_Parallel, MAX] using h1
  · intro f hf
    obtain ⟨j, s0, hp, _, hs, hb⟩ := h2 f hf
    exact ⟨j, s0, by rw [K_Means_Parallel, hp]; omega, hs, (loopBody_true s0 f).mp hb,
      stateAt_earlier j s s0 hs⟩
  · intro f hf
    obtain ⟨hp, hs⟩ := h3 f hf
    exact ⟨by rw [K_Means_Parallel, hp]; simp [MAX], hs, stateAt_earlier MAX s f hs⟩

/-- C9: when the assignment pass of iteration `k + 1 ≤ MAX`, computed in the
state `s0`, changes no assignment, `K_Means_Parallel` returns at that pass
without a mean update: the centroid set, the data and the member map on
return are those of `s0`, and the state on return is the one the pass
produced. -/
theorem C9_converged_without_mean_update (s s0 s1 : State) (k : Nat) (hk : k < MAX)
    (hs : stateAt k s = some s0) (hp : assignmentPass s0 = .ok (true, s1)) :
    K_Means_Parallel s = ⟨k + 1, .Converged s1⟩ ∧ s1.means = s0.means ∧
      s1.data = s0.data ∧ s1.cluster_item = s0.cluster_item := by
  obtain ⟨hd, hm, hc, _⟩ := assignmentPass_frame s0 true s1 hp
  exact ⟨run_converged s s0 s1 k hk hs hp, hm, hd, hc⟩

theorem C9_converged_without_mean_update_witness :
    1 < MAX ∧
    stateAt 1 (initialState (List.replicate 10000 [0, 0, 0, 0]) [[0, 0, 0, 0]]) =
      some { data := List.replicate 10000 [0, 0, 0, 0], means := [[0, 0, 0, 0]],
             cluster_number := List.replicate 10000 0, cluster_item := [(0, [])] } ∧
    assignmentPass
        { data := List.replicate 10000 [0, 0, 0, 0], means := [[0, 0, 0, 0]],
          cluster_number := List.replicate 10000 0, cluster_item := [(0, [])] } =
      .ok (true, { data := List.replicate 10000 [0, 0, 0, 0], means := [[0, 0, 0, 0]],
                   cluster_number := List.replicate 10000 0, cluster_item := [(0, [])] }) ∧
    K_Means_Parallel (initialState (List.replicate 10000 [0, 0, 0, 0]) [[0, 0, 0, 0]]) =
      ⟨1 + 1, .Converged
        { data := List.replicate 10000 [0, 0, 0, 0], means := [[0, 0, 0, 0]],
          cluster_number := List.replicate 10000 0, cluster_item := [(0, [])] }⟩ :=
  ⟨by decide, run_of_zero_data.1, run_of_zero_data.2,
    (C9_converged_without_mean_update _ _ _ 1 (by decide) run_of_zero_data.1
      run_of_zero_data.2).1⟩

/-- C10: when a run ends as `Converged` with the state `f`, one more
assignment pass on `f` reports no change and returns `f` itself. -/
theorem C10_converged_is_fixed_point (s f : State) (passes : Nat)
    (h : K_Means_Parallel s = ⟨passes, .Converged f⟩) :
    assignmentPass f = .ok (true, f) := by
  obtain ⟨_, h2, _, _⟩ := iterate_spec MAX 0 s
  have hexit : (iterate MAX 0 s).exit = .Converged f := by
    rw [K_Means_Parallel] at h
    rw [h]
  obtain ⟨j, s0, _, _, _, hb⟩ := h2 f hexit
  have hp := (loopBody_true s0 f).mp hb
  have hfs := assignmentPass_noChange s0 f hp
  rw [hfs] at hp ⊢
  exact hp

theorem C10_converged_is_fixed_point_witness :
    K_Means_Parallel (initialState (List.replicate 10000 [0, 0, 0, 0]) [[0, 0, 0, 0]]) =
      ⟨2, .Converged
        { data := List.replicate 10000 [0, 0, 0, 0], means := [[0, 0, 0, 0]],
          cluster_number := List.replicate 10000 0, cluster_item := [(0, [])] }⟩ ∧
    assignmentPass
        { data := List.replicate 10000 [0, 0, 0, 0], means := [[0, 0, 0, 0]],
          cluster_number := List.replicate 10000 0, cluster_item := [(0, [])] } =
      .ok (true, { data := List.replicate 10000 [0, 0, 0, 0], means := [[0, 0, 0, 0]],
                   cluster_number := List.replicate 10000 0, cluster_item := [(0, [])] }) :=
  have hrun := run_converged _ _ _ 1 (by decide) run_of_zero_data.1 run_of_zero_data.2
  ⟨hrun, C10_converged_is_fixed_point _ _ 2 hrun⟩


/-- C11 fails on a run that `main` can start: `lloydData` has 10000 records,
and with `K = 2` the seeding takes records 100 and 200, the origin and
`(3/2,0,0,0)`.  The first iteration files records 200 and 201 under cluster 1
and moves centroid 1 to their mean `(5/2,0,0,0)`.  The next assignment pass,
run against those centroids, moves record 200 to cluster 0: its distance 3/2
to centroid 0 is stored in `int minimum` as 1, and the distance 1 to centroid
1 is not below 1.  The sum of the squared distances to the assigned centroids,
measured against the same centroids, is 2 before that pass and 13/4 after
it. -/
theorem C11_reassignment_increases_sum :
    lloydData.length = 10000 ∧
    seedMeans lloydData 2 = .ok [[0, 0, 0, 0], [3 / 2, 0, 0, 0]] ∧
    stateAt 1 (initialState lloydData [[0, 0, 0, 0], [3 / 2, 0, 0, 0]]) =
      some { data := lloydData, means := [[0, 0, 0, 0], [5 / 2, 0, 0, 0]],
             cluster_number := lloydAssignment 200 9798 1 1,
             cluster_item := [(0, []), (1, [])] } ∧
    assignmentPass { data := lloydData, means := [[0, 0, 0, 0], [5 / 2, 0, 0, 0]],
                     cluster_number := lloydAssignment 200 9798 1 1,
                     cluster_item := [(0, []), (1, [])] } =
      .ok (false, { data := lloydData, means := [[0, 0, 0, 0], [5 / 2, 0, 0, 0]],
                    cluster_number := lloydAssignment 200 9798 0 1,
                    cluster_item := [(0, []), (1, [])] }) ∧
    withinClusterSum lloydData [[0, 0, 0, 0], [5 / 2, 0, 0, 0]]
      (lloydAssignment 200 9798 1 1) = 2 ∧
    withinClusterSum lloydData [[0, 0, 0, 0], [5 / 2, 0, 0, 0]]
      (lloydAssignment 200 9798 0 1) = 13 / 4 := by
  have hst := lloyd_first_iteration 199 9798 [] (by norm_num)
    (by decide!) (by decide!) (by decide!)
  rw [show clearLoop (([] : List Point).length + 2) 0 _ = _ from clearLoop_two _ _] at hst
  refine ⟨lloydPoints_length 200 9798, lloyd_seeds 9798, hst,
    lloyd_second_pass 200 9798 [[0, 0, 0, 0], [5 / 2, 0, 0, 0]] [(0, []), (1, [])]
      (by decide!) (by decide!) (by decide!), ?_, ?_⟩
  · unfold lloydData
    rw [withinClusterSum_lloyd]
    norm_num [assignedSquare, squaredDistance]
  · unfold lloydData
    rw [withinClusterSum_lloyd]
    norm_num [assignedSquare, squaredDistance]
/-- C12 (the code breaks it): with `K = N = 10000`, the records of `lineData`
pairwise distinct and centroid `j` seeded at record `j`, the first pass
assigns record 1, `(1/2,0,0,0)`, to cluster 0 and not to its own coincident
centroid 1: the distance 1/2 to centroid 0 is truncated to `minimum = 0`,
and `0 > 0` is false at centroid 1. -/
theorem C12_own_centroid_not_chosen :
    lineData.length = 10000 ∧ lineData.Nodup ∧
      lineData[0]? = some [0, 0, 0, 0] ∧ lineData[1]? = some [1 / 2, 0, 0, 0] ∧
      (∃ noChange s1, assignmentPass (initialState lineData lineData) = .ok (noChange, s1) ∧
        s1.cluster_number[1]? = some 0) ∧
      nearestIndex [1 / 2, 0, 0, 0] lineData = .ok (some 0) ∧
      Euclidean_Distance [1 / 2, 0, 0, 0] [0, 0, 0, 0] = .ok ⟨1 / 4⟩ ∧
      Euclidean_Distance [1 / 2, 0, 0, 0] [1 / 2, 0, 0, 0] = .ok ⟨0⟩ := by
  have h0 : lineData[0]? = some [0, 0, 0, 0] := by
    rw [show lineData = linePoints 10000 from rfl, linePoints_get 10000 0 (by omega)]
    norm_num
  have h1 : lineData[1]? = some [1 / 2, 0, 0, 0] := by
    rw [show lineData = linePoints 10000 from rfl, linePoints_get 10000 1 (by omega)]
    norm_num
  have hscan : nearestIndex [1 / 2, 0, 0, 0] lineData = .ok (some 0) :=
    linePoints_scan_one 9999
  obtain ⟨⟨b, cn1⟩, hr⟩ := assignLoop_total lineData lineData 0 true
    (List.replicate 10000 (-1))
    (fun p hp => nearestIndex_of_mem p lineData hp
      (fun m hm => by rw [linePoints_dim 10000 p hp, linePoints_dim 10000 m hm]))
    (by
      have := linePoints_length 10000
      simp only [lineData, this, List.length_replicate]; omega)
  obtain ⟨index, hn, hw⟩ := assignLoop_get _ _ 0 true _ _ hr 1 _ h1
  rw [hscan] at hn
  simp only [Except.ok.injEq, Option.some.injEq] at hn
  subst hn
  refine ⟨linePoints_length 10000, linePoints_nodup 10000, h0, h1,
    ⟨b, _, assignmentPass_initial lineData lineData b cn1 hr, ?_⟩,
    hscan, by decide!, by decide!⟩
  simpa using hw

/-- C13 as stated fails: for a dataset of 200 points and one centroid the
first pass assigns every point to cluster 0, but the run does not end as
`Converged`: the first mean update reads `data[200]`, one of the 9800 indices
that the 10000 entries of `cluster_number` list under the key -1. -/
theorem C13_short_dataset_does_not_converge :
    (List.replicate 200 ([0, 0, 0, 0] : Point)).length = 200 ∧
    K_Means_Parallel (initialState (List.replicate 200 [0, 0, 0, 0]) [[0, 0, 0, 0]]) =
      ⟨1, .Undefined .outOfBounds⟩ :=
  ⟨List.length_replicate _ _, run_of_short_data 200 (by omega) (by omega)⟩

/-- C13, amended: for every dataset of exactly 10000 points of at most 4
features and exactly one centroid, all points lying at a distance below
`INT_MAX` from that centroid and from the centroid the first mean update
produces, the first pass assigns every point to cluster 0, the second pass
changes no assignment, and the loop stops as `Converged` at that second
pass. -/
theorem C13_one_centroid_converges_at_second_pass (data : List Point) (c : Point)
    (hN : data.length = 10000) (hdim : ∀ p ∈ data, p.length ≤ 4)
    (h1 : ∀ p ∈ data, ∃ d, Euclidean_Distance p c = .ok d ∧
      Real.sqrt (d.radicand : ℝ) < (INT_MAX : ℝ))
    (h2 : ∀ s2, stateAt 1 (initialState data [c]) = some s2 → ∀ p ∈ data, ∀ m ∈ s2.means,
      ∃ d, Euclidean_Distance p m = .ok d ∧ Real.sqrt (d.radicand : ℝ) < (INT_MAX : ℝ)) :
    (∃ s1, assignmentPass (initialState data [c]) = .ok (false, s1) ∧
      s1.cluster_number = List.replicate 10000 0) ∧
    (∃ f, K_Means_Parallel (initialState data [c]) = ⟨2, .Converged f⟩ ∧
      f.cluster_number = List.replicate 10000 0 ∧ assignmentPass f = .ok (true, f)) := by
  obtain ⟨s1, f, hp1, hc1, hst, hp2, hc2⟩ := run_of_one_centroid data c hN hdim h1 h2
  exact ⟨⟨s1, hp1, hc1⟩, f, run_converged _ _ _ 1 (by decide) hst hp2, hc2, hp2⟩

theorem C13_one_centroid_converges_at_second_pass_witness :
    (List.replicate 10000 ([0, 0, 0, 0] : Point)).length = 10000 ∧
    (∃ s1, assignmentPass (initialState (List.replicate 10000 [0, 0, 0, 0]) [[0, 0, 0, 0]]) =
        .ok (false, s1) ∧ s1.cluster_number = List.replicate 10000 0) ∧
    (∃ f, K_Means_Parallel (initialState (List.replicate 10000 [0, 0, 0, 0]) [[0, 0, 0, 0]]) =
        ⟨2, .Converged f⟩ ∧ f.cluster_number = List.replicate 10000 0 ∧
      assignmentPass f = .ok (true, f)) :=
  have hN : (List.replicate 10000 ([0, 0, 0, 0] : Point)).length = 10000 :=
    List.length_replicate _ _
  have hzero : ∃ d, Euclidean_Distance [0, 0, 0, 0] [0, 0, 0, 0] = .ok d ∧
      Real.sqrt (d.radicand : ℝ) < (INT_MAX : ℝ) :=
    ⟨⟨0⟩, by decide!, by simp [INT_MAX]⟩
  ⟨hN, C13_one_centroid_converges_at_second_pass (List.replicate 10000 [0, 0, 0, 0])
    [0, 0, 0, 0] hN
    (fun p hp => by rw [List.eq_of_mem_replicate hp]; decide)
    (fun p hp => by rw [List.eq_of_mem_replicate hp]; exact hzero)
    (fun s2 hs2 p hp m hm => by
      rw [run_of_zero_data.1] at hs2
      simp only [Option.some.injEq] at hs2
      subst hs2
      rw [List.eq_of_mem_replicate hp, List.mem_singleton.mp hm]
      exact hzero)⟩

/-- C14: for two points of equal dimension `Euclidean_Distance` returns the
square root of the sum of the squared coordinate differences; over the reals
that value is non-negative, and it is zero if and only if the two points are
coordinate-wise identical. -/
theorem C14_distance_nonneg_zero_iff_equal (point1 point2 : Point)
    (h : point1.length = point2.length) :
    Euclidean_Distance point1 point2 = .ok ⟨squaredDistance point1 point2⟩ ∧
    0 ≤ Real.sqrt ((squaredDistance point1 point2 : ℚ) : ℝ) ∧
    (Real.sqrt ((squaredDistance point1 point2 : ℚ) : ℝ) = 0 ↔ point1 = point2) := by
  refine ⟨Euclidean_Distance_eq _ _ (le_of_eq h), Real.sqrt_nonneg _, ?_⟩
  have hnn : (0 : ℝ) ≤ ((squaredDistance point1 point2 : ℚ) : ℝ) := by
    exact_mod_cast squaredDistance_nonneg point1 point2
  rw [Real.sqrt_eq_zero hnn, ← squaredDistance_eq_zero point1 point2 h]
  exact_mod_cast Iff.rfl

theorem C14_distance_nonneg_zero_iff_equal_witness :
    ([1, 2, 3, 4] : Point).length = ([1, 2, 3, 6] : Point).length ∧
    Euclidean_Distance [1, 2, 3, 4] [1, 2, 3, 6] = .ok ⟨4⟩ ∧
    Euclidean_Distance [1, 2, 3, 4] [1, 2, 3, 6] =
      .ok ⟨squaredDistance [1, 2, 3, 4] [1, 2, 3, 6]⟩ ∧
    (Real.sqrt ((squaredDistance [1, 2, 3, 4] [1, 2, 3, 6] : ℚ) : ℝ) = 0 ↔
      ([1, 2, 3, 4] : Point) = [1, 2, 3, 6]) :=
  ⟨rfl, by decide!, (C14_distance_nonneg_zero_iff_equal [1, 2, 3, 4] [1, 2, 3, 6] rfl).1,
    (C14_distance_nonneg_zero_iff_equal [1, 2, 3, 4] [1, 2, 3, 6] rfl).2.2⟩

/-- C15 (the code breaks it): for the point `(3000000000,0,0,0)` and the
centroids `(0,0,0,0)` and `(10,0,0,0)` the scan stores nothing, so the value
written for the point is the content `index` had before the scan: 0 when the
thread has just processed the point `(0,0,0,0)`, 1 when it has just processed
the point `(10,0,0,0)`.  The index written depends on another point. -/
theorem C15_written_index_depends_on_previous_point :
    nearestIndex [3000000000, 0, 0, 0] [[0, 0, 0, 0], [10, 0, 0, 0]] = .ok none ∧
    nearestIndex [0, 0, 0, 0] [[0, 0, 0, 0], [10, 0, 0, 0]] = .ok (some 0) ∧
    nearestIndex [10, 0, 0, 0] [[0, 0, 0, 0], [10, 0, 0, 0]] = .ok (some 1) ∧
    scanMeans [3000000000, 0, 0, 0] [[0, 0, 0, 0], [10, 0, 0, 0]] 0 (INT_MAX, some 0) =
      .ok (INT_MAX, some 0) ∧
    scanMeans [3000000000, 0, 0, 0] [[0, 0, 0, 0], [10, 0, 0, 0]] 0 (INT_MAX, some 1) =
      .ok (INT_MAX, some 1) := by
  refine ⟨by decide!, by decide!, by decide!, by decide!, by decide!⟩

/-- C16 as stated fails: for the dataset of 10000 records and `K = 100`, and
for a dataset of 150 records and `K = 2`, both with `1 ≤ K ≤ N`, the seeding
step reads `data[K*100]` past the end of the dataset. -/
theorem C16_seed_index_past_the_end :
    (List.replicate 10000 ([0, 0, 0, 0] : Point)).length = 10000 ∧
    seedMeans (List.replicate 10000 [0, 0, 0, 0]) 100 = .error .outOfBounds ∧
    (List.replicate 150 ([0, 0, 0, 0] : Point)).length = 150 ∧
    seedMeans (List.replicate 150 [0, 0, 0, 0]) 2 = .error .outOfBounds := by
  refine ⟨List.length_replicate _ _, by decide!, List.length_replicate _ _, by decide!⟩

/-- C16, amended: for every dataset of `N` points and every cluster count
`K` with `1 ≤ K` and `100 * K < N`, the seeding step produces exactly `K`
centroids, centroid `j` being the data point of index `100 * (j + 1)`; every
index it reads is a valid dataset index. -/
theorem C16_seeds_are_data_points (data : List Point) (K : Int) (hK : 1 ≤ K)
    (hN : 100 * K < (data.length : Int)) :
    ∃ means, seedMeans data K = .ok means ∧ (means.length : Int) = K ∧
      ∀ j, j < means.length →
        100 * (j + 1) < data.length ∧ means[j]? = data[100 * (j + 1)]? ∧
        ∃ point ∈ data, means[j]? = some point := by
  have hlt : ∀ t, 1 ≤ t → t < 1 + K.toNat → t * 100 < data.length := by
    intro t _ h2
    have : (t : Int) ≤ K := by omega
    omega
  refine ⟨_, seedLoop_eq data K.toNat 1 [] hlt, ?_, ?_⟩
  · simp only [List.nil_append, List.length_map, List.length_range']
    omega
  · intro j hj
    simp only [List.nil_append, List.length_map, List.length_range'] at hj
    have hidx : (j + 1) * 100 < data.length := hlt (j + 1) (by omega) (by omega)
    have hget : ([] ++ (List.range' 1 K.toNat).map (fun t => data.getD (t * 100) []))[j]? =
        data[100 * (j + 1)]? := by
      rw [List.nil_append, List.getElem?_map, List.getElem?_range' _ _ hj]
      simp only [Option.map_some', Nat.mul_one]
      rw [List.getD_eq_getElem _ _ (by omega), List.getElem?_eq_getElem (by omega)]
      congr 2
      omega
    have hb : 100 * (j + 1) < data.length := by omega
    refine ⟨hb, hget, data[100 * (j + 1)], List.getElem_mem _, ?_⟩
    rw [hget, List.getElem?_eq_getElem]

theorem C16_seeds_are_data_points_witness :
    (1 : Int) ≤ 2 ∧ 100 * (2 : Int) < ((truncationData.length : Nat) : Int) ∧
    seedMeans truncationData 2 = .ok [[3 / 2, 0, 0, 0], [1, 0, 0, 0]] ∧
    ∃ means, seedMeans truncationData 2 = .ok means ∧ (means.length : Int) = 2 ∧
      ∀ j, j < means.length →
        100 * (j + 1) < truncationData.length ∧
        means[j]? = truncationData[100 * (j + 1)]? ∧
        ∃ point ∈ truncationData, means[j]? = some point :=
  have hlen : truncationData.length = 10000 := by
    simp only [truncationData, List.length_append, List.length_replicate, List.length_singleton]
  ⟨by decide, by rw [hlen]; decide, by decide!,
    C16_seeds_are_data_points truncationData 2 (by decide) (by rw [hlen]; decide)⟩

/-- C17 as stated fails: given a point of 2 coordinates and one of 4,
`Euclidean_Distance` raises no error and returns `sqrt 25`, the distance over
the first 2 coordinates of the longer point. -/
theorem C17_longer_second_point_is_truncated :
    ([0, 0] : Point).length ≠ ([3, 4, 5, 6] : Point).length ∧
    Euclidean_Distance [0, 0] [3, 4, 5, 6] = .ok ⟨25⟩ ∧
    Euclidean_Distance [0, 0] [3, 4] = .ok ⟨25⟩ := by
  refine ⟨by decide, by decide!, by decide!⟩

/-- C17, amended: when the two vectors have different dimensions,
`Euclidean_Distance` checks nothing.  If `point2` is the longer one it
returns the distance over the first `point1.size()` coordinates, the same
value as for `point2` cut to that length; if `point2` is the shorter one it
reads `point2` past its end. -/
theorem C17_no_dimension_check (point1 point2 : Point)
    (h : point1.length ≠ point2.length) :
    (point1.length < point2.length ∧
      Euclidean_Distance point1 point2 = .ok ⟨squaredDistance point1 point2⟩ ∧
      Euclidean_Distance point1 point2 =
        Euclidean_Distance point1 (point2.take point1.length)) ∨
    (point2.length < point1.length ∧
      Euclidean_Distance point1 point2 = .error .outOfBounds) := by
  rcases Nat.lt_or_gt_of_ne h with hlt | hlt
  · left
    refine ⟨hlt, Euclidean_Distance_eq _ _ (le_of_lt hlt), ?_⟩
    rw [Euclidean_Distance_eq _ _ (le_of_lt hlt),
      Euclidean_Distance_eq _ _ (by rw [List.length_take]; omega), squaredDistance_take]
  · right
    exact ⟨hlt, Euclidean_Distance_short _ _ hlt⟩

theorem C17_no_dimension_check_witness :
    ([0, 0] : Point).length ≠ ([3, 4, 5, 6] : Point).length ∧
    ((([0, 0] : Point).length < ([3, 4, 5, 6] : Point).length ∧
      Euclidean_Distance [0, 0] [3, 4, 5, 6] = .ok ⟨squaredDistance [0, 0] [3, 4, 5, 6]⟩ ∧
      Euclidean_Distance [0, 0] [3, 4, 5, 6] =
        Euclidean_Distance [0, 0] (([3, 4, 5, 6] : Point).take ([0, 0] : Point).length)) ∨
    (([3, 4, 5, 6] : Point).length < ([0, 0] : Point).length ∧
      Euclidean_Distance [0, 0] [3, 4, 5, 6] = .error .outOfBounds)) :=
  ⟨by decide, C17_no_dimension_check [0, 0] [3, 4, 5, 6] (by decide)⟩

/-- C18: for a point and a non-empty centroid set whose distances to the
point are all below `INT_MAX`, the scan stores the position of a centroid `c`
with `floor (dist c) ≤ dist m` for every centroid `m`; so the distance of the
chosen centroid exceeds every distance, the least one included, by less
than 1. -/
theorem C18_chosen_within_one_of_minimum (point : Point) (means : List Point)
    (hne : means ≠ [])
    (hdist : ∀ mean ∈ means, ∃ d, Euclidean_Distance point mean = .ok d ∧
      Real.sqrt (d.radicand : ℝ) < (INT_MAX : ℝ)) :
    ∃ k c dc, nearestIndex point means = .ok (some k) ∧ means[k]? = some c ∧
      Euclidean_Distance point c = .ok dc ∧
      ∀ mean ∈ means, ∀ d, Euclidean_Distance point mean = .ok d →
        ((⌊Real.sqrt (dc.radicand : ℝ)⌋ : ℤ) : ℝ) ≤ Real.sqrt (d.radicand : ℝ) ∧
        Real.sqrt (dc.radicand : ℝ) < Real.sqrt (d.radicand : ℝ) + 1 := by
  obtain ⟨r, hr⟩ := scanMeans_total point means 0 (INT_MAX, none)
    (fun m hm => by obtain ⟨d, hd, _⟩ := hdist m hm; exact ⟨d, hd⟩)
  obtain ⟨_, h2, h3⟩ := scanMeans_bound point means 0 INT_MAX none r hr
  rcases h3 with ⟨h4, _⟩ | ⟨k, c, dc, h4, _, h6, h7, h8⟩
  · exfalso
    obtain ⟨m, hm⟩ := List.exists_mem_of_ne_nil means hne
    obtain ⟨d, hd, hlt⟩ := hdist m hm
    have hfalse := h2 m hm d hd
    rw [h4] at hfalse
    have htrue := (Root.ltInt_iff d (Euclidean_Distance_nonneg _ _ _ hd) INT_MAX).mpr hlt
    rw [hfalse] at htrue
    exact Bool.false_ne_true htrue
  · refine ⟨k, c, dc, ?_, by simpa using h6, h7, ?_⟩
    · rw [nearestIndex_of_scan point means r hr, h4]
    · intro m hm d hd
      have hnn := Euclidean_Distance_nonneg _ _ _ hd
      have hnc := Euclidean_Distance_nonneg _ _ _ h7
      have hfalse := h2 m hm d hd
      rw [h8, Root.toInt_eq_floor dc hnc] at hfalse
      have hle : ((⌊Real.sqrt (dc.radicand : ℝ)⌋ : ℤ) : ℝ) ≤ Real.sqrt (d.radicand : ℝ) := by
        by_contra hcon
        have := (Root.ltInt_iff d hnn _).mpr (not_le.mp hcon)
        rw [hfalse] at this
        exact Bool.false_ne_true this
      refine ⟨hle, ?_⟩
      have := Int.lt_floor_add_one (Real.sqrt (dc.radicand : ℝ))
      linarith

theorem C18_chosen_within_one_of_minimum_witness :
    ([[3 / 2, 0, 0, 0], [1, 0, 0, 0]] : List Point) ≠ [] ∧
    nearestIndex [0, 0, 0, 0] [[3 / 2, 0, 0, 0], [1, 0, 0, 0]] = .ok (some 0) ∧
    ∃ k c dc, nearestIndex [0, 0, 0, 0] [[3 / 2, 0, 0, 0], [1, 0, 0, 0]] = .ok (some k) ∧
      ([[3 / 2, 0, 0, 0], [1, 0, 0, 0]] : List Point)[k]? = some c ∧
      Euclidean_Distance [0, 0, 0, 0] c = .ok dc ∧
      ∀ mean ∈ ([[3 / 2, 0, 0, 0], [1, 0, 0, 0]] : List Point), ∀ d,
        Euclidean_Distance [0, 0, 0, 0] mean = .ok d →
        ((⌊Real.sqrt (dc.radicand : ℝ)⌋ : ℤ) : ℝ) ≤ Real.sqrt (d.radicand : ℝ) ∧
        Real.sqrt (dc.radicand : ℝ) < Real.sqrt (d.radicand : ℝ) + 1 :=
  ⟨by simp, by decide!,
    C18_chosen_within_one_of_minimum [0, 0, 0, 0] [[3 / 2, 0, 0, 0], [1, 0, 0, 0]] (by simp)
      (by
        intro mean hm
        simp only [List.mem_cons, List.mem_singleton, List.not_mem_nil, or_false] at hm
        rcases hm with h | h
        · subst h
          refine ⟨⟨9 / 4⟩, by decide!, ?_⟩
          rw [Real.sqrt_lt' (by simp [INT_MAX])]
          simp only [INT_MAX]; norm_num
        · subst h
          refine ⟨⟨1⟩, by decide!, ?_⟩
          rw [Real.sqrt_lt' (by simp [INT_MAX])]
          simp only [INT_MAX]; norm_num)⟩


/-- C19: take a run from the initial state, the state `s` at the start of
iteration `k + 1`, the assignment pass of that iteration and the mean update
that follows it, and a cluster index `c` in `[0, K)` that the pass assigns to
no point.  In the first iteration (`k = 0`) the membership map has no entry
for `c` and the mean update leaves centroid `c` as it was.  In every later
iteration (`0 < k`) the map holds the empty entry that the clearing loop made
for `c`, and the mean update overwrites centroid `c` with the zero vector of
length 4. -/
theorem C19_empty_cluster_rule (data means : List Point) (k : Nat) (s : State)
    (noChange : Bool) (s1 s2 : State) (c : Nat)
    (hs : stateAt k (initialState data means) = some s)
    (hp : assignmentPass s = .ok (noChange, s1))
    (hf : Find_New_Mean s1 = .ok s2)
    (hc : c < means.length) (hempty : (c : Int) ∉ s1.cluster_number) :
    (k = 0 → (c : Int) ∉ s1.cluster_item.map Prod.fst ∧ s2.means[c]? = s1.means[c]?) ∧
    (0 < k → ((c : Int), []) ∈ s1.cluster_item ∧ s2.means[c]? = some [0, 0, 0, 0]) := by
  obtain ⟨hm, _, _, _⟩ := Find_New_Mean_ok s1 s2 hf
  obtain ⟨_, _, hci1, _⟩ := assignmentPass_frame s noChange s1 hp
  constructor
  · intro hk
    subst hk
    have hs0 : s = initialState data means := by
      simp only [stateAt, Option.some.injEq] at hs
      exact hs.symm
    have hnil : s1.cluster_item = [] := by rw [hci1, hs0]; rfl
    refine ⟨by rw [hnil]; simp, ?_⟩
    apply meanLoop_frame _ _ _ _ hm c
    intro h
    obtain ⟨e, he, hec⟩ := List.mem_map.mp h
    rcases groupLoop_keys _ _ _ e he with h1 | h1
    · rw [hec] at h1; exact hempty h1
    · rw [hnil] at h1; simp at h1
  · intro hk
    obtain ⟨k1, rfl⟩ : ∃ k1, k = k1 + 1 := ⟨k - 1, by omega⟩
    obtain ⟨hord, _, _, _, hlen⟩ := stateAt_invariant data means (k1 + 1) s hs
    obtain ⟨s0, _, hb⟩ := stateAt_succ k1 _ s hs
    obtain ⟨t1, t3, _, _, hs3⟩ := loopBody_false s0 s hb
    have hmem : ((c : Int), []) ∈ s1.cluster_item := by
      rw [hci1, hs3]
      show ((c : Int), []) ∈ clearLoop t3.means.length 0 t3.cluster_item
      apply clearLoop_mem c _ 0 _ (Nat.zero_le _)
      have : s.means.length = t3.means.length := by rw [hs3]
      omega
    refine ⟨hmem, ?_⟩
    obtain ⟨row, hrow, hget⟩ := meanLoop_get s1.data _ _ _
      (groupLoop_ordered _ 0 _ (by rw [hci1]; exact hord)) hm (c : Int) []
      (groupLoop_mem_other _ _ 0 _ hmem hempty)
    rw [Calculate_Mean_nil] at hrow
    simp only [Except.ok.injEq] at hrow
    rw [Int.toNat_ofNat] at hget
    rw [hget, hrow]

theorem C19_empty_cluster_rule_witness :
    (∃ s1 s2, assignmentPass (initialState lloydData
          [[0, 0, 0, 0], [3 / 2, 0, 0, 0], [1000, 0, 0, 0]]) = .ok (false, s1) ∧
        Find_New_Mean s1 = .ok s2 ∧ ((2 : Nat) : Int) ∉ s1.cluster_number ∧
        ((2 : Nat) : Int) ∉ s1.cluster_item.map Prod.fst ∧
        s1.means[2]? = some [1000, 0, 0, 0] ∧ s2.means[2]? = s1.means[2]?) ∧
    (∃ s s1 s2, stateAt 1 (initialState lloydData
          [[0, 0, 0, 0], [3 / 2, 0, 0, 0], [1000, 0, 0, 0]]) = some s ∧
        assignmentPass s = .ok (false, s1) ∧ Find_New_Mean s1 = .ok s2 ∧
        ((2 : Nat) : Int) ∉ s1.cluster_number ∧ (((2 : Nat) : Int), []) ∈ s1.cluster_item ∧
        s1.means[2]? = some [1000, 0, 0, 0] ∧ s2.means[2]? = some [0, 0, 0, 0]) := by
  have hz : nearestIndex [0, 0, 0, 0] [[0, 0, 0, 0], [3 / 2, 0, 0, 0], [1000, 0, 0, 0]] =
      .ok (some 0) := by decide!
  have hp : nearestIndex [3 / 2, 0, 0, 0] [[0, 0, 0, 0], [3 / 2, 0, 0, 0], [1000, 0, 0, 0]] =
      .ok (some 1) := by decide!
  have hq : nearestIndex [7 / 2, 0, 0, 0] [[0, 0, 0, 0], [3 / 2, 0, 0, 0], [1000, 0, 0, 0]] =
      .ok (some 1) := by decide!
  have hp1 := lloyd_first_pass 200 9798 _ 1 1 (by norm_num) hz hp hq
  have hf1 := lloyd_update 199 9798 [0, 0, 0, 0] [3 / 2, 0, 0, 0] [[1000, 0, 0, 0]]
  have hst := lloyd_first_iteration 199 9798 [[1000, 0, 0, 0]] (by norm_num) hz hp hq
  have hp2 := lloyd_second_pass 200 9798 [[0, 0, 0, 0], [5 / 2, 0, 0, 0], [1000, 0, 0, 0]]
    (clearLoop 3 0 [(0, List.range' 0 (199 + 1) ++ List.range' (199 + 3) 9798),
      (1, [199 + 1, 199 + 2])])
    (by decide!) (by decide!) (by decide!)
  obtain ⟨s2, hf2⟩ := lloyd_second_update 199 9798 [[1000, 0, 0, 0]] (by norm_num) hz hp hq
  have he1 : ((2 : Nat) : Int) ∉ lloydAssignment 200 9798 1 1 := by
    intro h
    rcases lloydAssignment_mem _ _ _ _ _ h with h | h | h <;> exact absurd h (by decide)
  have he2 : ((2 : Nat) : Int) ∉ lloydAssignment 200 9798 0 1 := by
    intro h
    rcases lloydAssignment_mem _ _ _ _ _ h with h | h | h <;> exact absurd h (by decide)
  have r1 := (C19_empty_cluster_rule lloydData _ 0 _ false _ _ 2 rfl hp1 hf1
    (by decide) he1).1 rfl
  have r2 := (C19_empty_cluster_rule lloydData _ 1 _ false _ s2 2 hst hp2 hf2
    (by decide) he2).2 (by decide)
  exact ⟨⟨_, _, hp1, hf1, he1, r1.1, rfl, r1.2⟩, ⟨_, _, s2, hst, hp2, hf2, he2, r2.1, rfl, r2.2⟩⟩
/-- C20: for a record line with at least two commas `parseCSV2double` hands
to `Tokenize` exactly the text after the first comma up to and including the
last comma; and `Tokenize`, given a string made of fields without a comma,
each one accepted by `stod` and followed by a comma, returns the values of
the fields in order, one per comma, and raises no fault (it does not read
past the end of the string).  The terminating comma is needed: a non-empty
last field without one is read past the end of the string. -/
theorem C20_record_cut_and_tokenized (stod : List Char → Option ℚ) :
    (∀ a b c : List Char, ',' ∉ a → ',' ∉ c →
      recordFields (a ++ [','] ++ b ++ [','] ++ c) = b ++ [','] ∧
      parseCSV2double stod [[], a ++ [','] ++ b ++ [','] ++ c] =
        (Tokenize stod (b ++ [','])).map (fun row => [row])) ∧
    (∀ (fields : List (List Char)) (values : List ℚ),
      List.Forall₂ (fun field value => ',' ∉ field ∧ stod field = some value) fields values →
      Tokenize stod (fields.flatMap (fun field => field ++ [','])) = .ok values ∧
      values.length = (fields.flatMap (fun field => field ++ [','])).count ',') ∧
    (∀ field : List Char, field ≠ [] → ',' ∉ field →
      Tokenize stod field = .error .outOfBounds) := by
  refine ⟨?_, ?_, ?_⟩
  · intro a b c ha hc
    have hcut : recordFields (a ++ [','] ++ b ++ [','] ++ c) = b ++ [','] := by
      have h1 : firstComma (a ++ [','] ++ b ++ [','] ++ c) = some a.length := by
        have := firstComma_append a (b ++ [','] ++ c) ha
        simpa using this
      have h2 : lastComma (a ++ [','] ++ b ++ [','] ++ c) = some (a.length + 1 + b.length) := by
        have e : a ++ [','] ++ b ++ [','] ++ c = (a ++ [','] ++ b) ++ ',' :: c := by simp
        rw [e, lastComma_append (a ++ [','] ++ b) c hc]
        simp only [List.length_append, List.length_singleton]
      simp only [recordFields, h1, h2]
      have e1 : ((a.length : Int) + 1).toNat = a.length + 1 := by omega
      have e2 : (((a.length + 1 + b.length : Nat) : Int) - (a.length : Int)).toNat =
          b.length + 1 := by omega
      rw [e1, e2]
      have e3 : a ++ [','] ++ b ++ [','] ++ c = (a ++ [',']) ++ ((b ++ [',']) ++ c) := by simp
      rw [e3, List.drop_left' (by simp), List.take_left' (by simp)]
    refine ⟨hcut, ?_⟩
    simp only [parseCSV2double, List.tail_cons, parseRecords, hcut]
    cases Tokenize stod (b ++ [',']) <;> rfl
  · intro fields values h
    refine ⟨by simpa [Tokenize] using tokenLoop_fields stod fields values h [], ?_⟩
    induction h with
    | nil => rfl
    | cons hfv _ ih =>
      rw [List.length_cons, ih, List.flatMap_cons, List.count_append, List.count_append,
        List.count_eq_zero_of_not_mem hfv.1]
      simp [Nat.add_comm]
  · intro field hne hf
    exact tokenLoop_unterminated stod field [] [] hne hf

theorem C20_record_cut_and_tokenized_witness :
    recordFields "1,5.1,3.5,1.4,0.2,setosa".toList = "5.1,3.5,1.4,0.2,".toList ∧
    Tokenize decimalValue "5.1,3.5,1.4,0.2,".toList = .ok [51 / 10, 7 / 2, 7 / 5, 1 / 5] ∧
    parseCSV2double decimalValue ["Id,a,b,c,d,Species".toList, "1,5.1,3.5,1.4,0.2,setosa".toList] =
      .ok [[51 / 10, 7 / 2, 7 / 5, 1 / 5]] ∧
    recordFields ("1".toList ++ [','] ++ "5.1,3.5,1.4,0.2".toList ++ [','] ++ "setosa".toList) =
      "5.1,3.5,1.4,0.2".toList ++ [','] :=
  ⟨by decide!, by decide!, by decide!,
    ((C20_record_cut_and_tokenized decimalValue).1 "1".toList "5.1,3.5,1.4,0.2".toList
      "setosa".toList (by decide) (by decide)).1⟩

end KMeans
